import Mathlib

/-!
# The per-GOP parameter search of `EaglePreProcess` (fftools/ffmpeg.c)

A shallow embedding of the sharpness mappings `get_unsharp` and
`get_aq_strength`, of the three search loops of `EaglePreProcess` (the unsharpen
grid of lines 6928-6984, the CRF sweep of lines 6993-7075 and the CRF search of
lines 7106-7251) and of the decode loop that partitions the input into GOPs
(lines 6761-6887, with the two `goto`s of lines 6802 and 7291).

Conventions of the embedding.

* C `float` and `double` values are rationals and their arithmetic is exact: the
  rounding of the machine formats is not represented.
* C `int` and `long long` values are integers; the one narrowing store of the
  code (`long long` into an `int` array cell, lines 6788 and 6878) wraps modulo
  `2 ^ 32`.
* The process-wide arrays are maps from an integer offset to a cell, so that the
  offset the code computes is visible even when it lies outside
  `0 .. TOTAL_GOP_NUM - 1`. A read outside an array, which C leaves undefined,
  returns whatever the map holds there.
* The encoder, the decoder, the filter graph and the VMAF scorer are not part of
  the program text: every trial result is an input of the embedding, and the
  error returns of those services are taken not to happen.
-/

namespace Eagle

/-! ## Constants -/

/-- Line 4972: `#define DECODE_FRAME_NUM_PER_GOP 50`. -/
def DECODE_FRAME_NUM_PER_GOP : Int := 50

/-- Line 4973: `#define MIN_NUM_OF_PER_GOP 300`. -/
def MIN_NUM_OF_PER_GOP : Int := 300

/-- Line 4974: `#define FILTERED_FRAME_NUM_PER_GOP 10`. -/
def FILTERED_FRAME_NUM_PER_GOP : Int := 10

/-- Line 6639: `float target_per_score = 400;`, never assigned afterwards. -/
def target_per_score : ℚ := 400

/-! ## Sharpness mappings (lines 6556-6585) -/

/-- Lines 6556-6570, `static float get_unsharp(float pixel_unsharpness)`. -/
def get_unsharp (pixel_unsharpness : ℚ) : ℚ :=
  let pixel_unsharpness :=
    if pixel_unsharpness ≤ 1 / 10 then 1 / 10
    else if pixel_unsharpness ≥ 8 / 10 then 8 / 10
    else pixel_unsharpness
  let unsharp_factor :=
    (((8 / 10 - pixel_unsharpness) / (7 / 10)) * ((8 / 10 - pixel_unsharpness) / (7 / 10))) * 6
  let unsharp_factor := if unsharp_factor ≤ 1 then 1 else unsharp_factor
  unsharp_factor * pixel_unsharpness

/-- Lines 6572-6585, `static float get_aq_strength(float pixel_unsharpness)`. -/
def get_aq_strength (pixel_unsharpness : ℚ) : ℚ :=
  let pixel_unsharpness :=
    if pixel_unsharpness ≤ 1 / 10 then 1 / 10
    else if pixel_unsharpness ≥ 8 / 10 then 8 / 10
    else pixel_unsharpness
  let aq_float := 1 / 2 + (8 / 10 - pixel_unsharpness) / (7 / 10)
  if aq_float < 1 then 1 else aq_float

/-- The clamping of a value to the interval `[lo, hi]`, as the specification
words it ("clamp `s` to [0.1, 0.8]"). -/
def clampTo (lo hi x : ℚ) : ℚ := max lo (min hi x)

/-- The C conversion `(int) x` of a floating-point value: truncation toward zero. -/
def truncToInt (x : ℚ) : Int := if 0 ≤ x then ⌊x⌋ else ⌈x⌉

/-- The conversion of a `long long` to `int` in a store: reduction modulo `2 ^ 32`
into `-2 ^ 31 .. 2 ^ 31 - 1`. -/
def toInt32 (x : Int) : Int := (x + 2 ^ 31) % 2 ^ 32 - 2 ^ 31

/-! ## Inputs -/

/-- One frame delivered by `avcodec_receive_frame`: whether its `pict_type` is
`AV_PICTURE_TYPE_I`, and the value `get_unsharp_val` returns on its luma plane
(line 6810). -/
structure Frame where
  key : Bool
  sharpness : Int

/-- What one Stage-1 trial leaves behind: the byte count `saved_data_size` of the
encode and the score `compute_vmaf` writes to `vmaf_score`. -/
structure Trial where
  saved_data_size : Int
  vmaf_score : ℚ

/-- Everything `EaglePreProcess` obtains from outside the program text. The
trial results are indexed by the GOP being processed (the value of
`global_stage1_gop_num` at label `NEXT`) and by the iteration of the loop. -/
structure Env where
  /-- Field `p_frame->width`, taken constant over the run. -/
  width : Int
  /-- Field `p_frame->height`, taken constant over the run. -/
  height : Int
  /-- Frame rate computed at lines 6739-6748. -/
  fps : Int
  /-- Initial contents of `global_unsharp_array`, which line 1072 only declares
  `extern`. -/
  unsharp_init : Int → ℚ
  /-- Contents of the memory cells around the local array `unsharp[10]`. -/
  unsharp_outside : Int → ℚ
  /-- Score of the Stage-0 trial of a GOP at grid index `i` (line 6959). -/
  stage0_score : Int → Nat → ℚ
  /-- Result of the Stage-1 trial of a GOP at a given `crf` (lines 7000-7024). -/
  stage1_trial : Int → Nat → Trial
  /-- Score of the `k`-th Stage-2 trial of a GOP (line 7136). -/
  stage2_score : Int → Nat → ℚ

/-! ## Program state -/

/-- The variables of the program that survive from one GOP to the next: the
globals of lines 1066-1079 and 4976, and the locals of `EaglePreProcess` that
are not re-initialised per GOP. The five arrays have `TOTAL_GOP_NUM` cells in the
code, which checks no index; here they are maps, and a statement on a whole run
that depends on the cells written bounds the input so that every offset written
lies in `0 .. TOTAL_GOP_NUM - 1`. -/
structure State where
  global_target_score_array : Int → ℚ
  global_crf_array : Int → ℚ
  global_unsharp_array : Int → ℚ
  global_aq_strength_array : Int → ℚ
  global_frames_of_gop_array : Int → Int
  global_decode_gop_num : Int
  global_stage1_gop_num : Int
  global_stage2_gop_num : Int
  total_gop_num : Int
  gop_num : Int
  pixel_sharpness_val : ℚ
  /-- Field `pdecinfo->dec_frame_num`. -/
  dec_frame_num : Int
  total_sharpness : Int
  pre_vmaf_score : ℚ
  /-- Index `i` of the string `unsharp_val[i]` that line 6930 last copied behind
  `luma_amount=` in `pfilterinfoOne->filter_descr`; `none` before the first copy. -/
  filter_descr : Option Nat
  stage1_prev_bitrate : ℚ
  stage1_prev_vmaf_score : ℚ
  stage1_first_flag : Bool
  /-- Line 6612: `float stage2_target_vmaf_score = 0.0;`. Its only assignment,
  lines 7100-7104, is commented out, so no operation below changes it. -/
  stage2_target_vmaf_score : ℚ

/-- The state at entry of the decode loop: the initialisers of lines 1066-1079,
4976, 6612, 6633-6643 and the `memset` of line 6651. -/
def initState (env : Env) : State where
  global_target_score_array := fun _ => 0
  global_crf_array := fun _ => 0
  global_unsharp_array := env.unsharp_init
  global_aq_strength_array := fun _ => 0
  global_frames_of_gop_array := fun _ => 0
  global_decode_gop_num := 0
  global_stage1_gop_num := 0
  global_stage2_gop_num := 0
  total_gop_num := 0
  gop_num := 0
  pixel_sharpness_val := 0
  dec_frame_num := 0
  total_sharpness := 0
  pre_vmaf_score := 0
  filter_descr := none
  stage1_prev_bitrate := 0
  stage1_prev_vmaf_score := 0
  stage1_first_flag := true
  stage2_target_vmaf_score := 0

/-! ## Stage 0: the unsharpen grid (lines 6928-6984) -/

/-- Line 6647: `float unsharp[10] = {0.0, 0.1, ..., 0.9}`. Outside `0 .. 9` the
cell read is not part of the array. -/
def unsharp (env : Env) (i : Int) : ℚ :=
  if 0 ≤ i ∧ i < 10 then (i : ℚ) / 10 else env.unsharp_outside i

/-- The iterations `i, i + 1, ...` of the loop of lines 6928-6983, `n` of them
remaining. `score i` is the value `compute_vmaf` delivers in iteration `i`. The
code keeps `pre_vmaf_score` in a `float` and compares the `double` score with
it; the narrowing of line 6977 is not represented, so the comparison of line
6962 is that of the code for scores that a `float` holds exactly. -/
def stage0Loop (env : Env) (score : Nat → ℚ) : Nat → Nat → State → State
  | 0, _, st => st
  | n + 1, i, st =>
    let st := { st with filter_descr := some i }
    let vmaf_score := score i
    if vmaf_score < st.pre_vmaf_score then
      { st with
        global_unsharp_array :=
          Function.update st.global_unsharp_array st.global_decode_gop_num
            (unsharp env ((i : Int) - 1)) }
    else if unsharp env i > st.global_unsharp_array (st.global_decode_gop_num - 1) then
      st
    else
      stage0Loop env score n (i + 1) { st with pre_vmaf_score := vmaf_score }

/-- Lines 6928-6984: the loop `for (int i = 0; i < 10; i++)` followed by
`global_decode_gop_num++`. -/
def stage0 (env : Env) (score : Nat → ℚ) (st : State) : State :=
  let st := stage0Loop env score 10 0 st
  { st with global_decode_gop_num := st.global_decode_gop_num + 1 }

/-! ## Stage 1: the CRF sweep on the unfiltered sample (lines 6993-7075) -/

/-- Line 7038: the bitrate estimate from `saved_data_size`. -/
def stage1_bitrate (fps : Int) (t : Trial) : ℚ :=
  ((t.saved_data_size : ℚ) / 1024) / (((DECODE_FRAME_NUM_PER_GOP - 2 : Int) : ℚ) / (fps : ℚ)) * 8

/-- Lines 7040-7045: the marginal cost of a trial, given the previous trial's
bitrate and score and the flag `stage1_first_flag`. -/
def stage1_per_score (first_flag : Bool) (bitrate prev_bitrate score prev_score : ℚ) : ℚ :=
  if |score - prev_score| ≤ 1 / 1000000 ∨ first_flag = true then 600
  else (bitrate - prev_bitrate) / (score - prev_score)

/-- Line 7054: the clamping of the accepted score. -/
def stage1_clamp (stage1_vmaf_score : ℚ) : ℚ :=
  if stage1_vmaf_score > 96 then 96
  else if stage1_vmaf_score < 90 then 90
  else stage1_vmaf_score

/-- The iterations `crf, crf + 1, ...` of the loop of lines 6993-7074, `n` of
them remaining. The second component is the `crf` at which the `break` of line
7066 was taken, if it was. -/
def stage1Loop (fps : Int) (trial : Nat → Trial) : Nat → Nat → State → State × Option Nat
  | 0, _, st => (st, none)
  | n + 1, crf, st =>
    let stage1_vmaf_score := (trial crf).vmaf_score
    let bitrate := stage1_bitrate fps (trial crf)
    let per_score := stage1_per_score st.stage1_first_flag bitrate st.stage1_prev_bitrate
      stage1_vmaf_score st.stage1_prev_vmaf_score
    let first_flag :=
      if |stage1_vmaf_score - st.stage1_prev_vmaf_score| ≤ 1 / 1000000 ∨ st.stage1_first_flag = true
      then false else st.stage1_first_flag
    if per_score ≤ target_per_score then
      ({ st with
          global_target_score_array :=
            Function.update st.global_target_score_array st.global_stage1_gop_num
              (stage1_clamp stage1_vmaf_score)
          stage1_prev_bitrate := 0
          stage1_prev_vmaf_score := 0
          stage1_first_flag := first_flag }, some crf)
    else
      stage1Loop fps trial n (crf + 1)
        { st with
          stage1_prev_bitrate := bitrate
          stage1_prev_vmaf_score := stage1_vmaf_score
          stage1_first_flag := first_flag }

/-- Lines 6993-7080: the loop `for (int crf = 18; crf <= 50; crf++)` (33
iterations at most), then `stage1_first_flag = 1` and `gop_num++`. -/
def stage1 (fps : Int) (trial : Nat → Trial) (st : State) : State × Option Nat :=
  let r := stage1Loop fps trial 33 18 st
  ({ r.1 with stage1_first_flag := true, gop_num := r.1.gop_num + 1 }, r.2)

/-! ## Stage 2: the CRF search on the filtered sample (lines 7089-7255)

The variables `stage2_best_bitrate`, `stage2_best_vmaf_diff`, `stage2_best_vmaf`,
`stage2_best_crf` and `stage2_first_flag` (lines 7150-7156) are written and never
read by any decision of the loop; they are left out, and with them the byte
count of the trial. -/

/-- How one pass through the body of the loop of lines 7106-7251 ends. -/
inductive Stage2Step where
  /-- A `break`, after the store `global_crf_array[global_stage2_gop_num] = assigned`. -/
  | stop (assigned : Int)
  /-- The end of the body is reached with new values of `crf` and
  `stage2_last_crf`. -/
  | next (crf : Int) (stage2_last_crf : Int)

/-- Lines 7170-7183: the quality step `stage2_step_vmaf`. -/
def stage2_step_vmaf (crf : Int) (stage2_vmaf_diff : ℚ) : ℚ :=
  let stage2_step_vmaf_res := ((crf - 18 : Int) : ℚ) / 10
  let stage2_step_vmaf_res := if stage2_step_vmaf_res < 2 / 10 then 2 / 10 else stage2_step_vmaf_res
  let stage2_step_vmaf :=
    if stage2_vmaf_diff > 20 then 15 / 10 * stage2_step_vmaf_res
    else if stage2_vmaf_diff > 15 then 2 * stage2_step_vmaf_res
    else if stage2_vmaf_diff > 10 then 25 / 10 * stage2_step_vmaf_res
    else 4 * stage2_step_vmaf_res
  if stage2_step_vmaf < 1 then 1 else stage2_step_vmaf

/-- Lines 7219-7223: the clamping of `stage2_crf_step` to `[-2, 5]` and the
truncation of a negative step. -/
def stage2_clamp_step (stage2_crf_step : ℚ) : ℚ :=
  let stage2_crf_step := if stage2_crf_step > 5 then 5 else stage2_crf_step
  let stage2_crf_step := if stage2_crf_step < -2 then -2 else stage2_crf_step
  if stage2_crf_step < 0 then ((truncToInt stage2_crf_step : Int) : ℚ) else stage2_crf_step

/-- Lines 7219-7246: the clamping of `stage2_crf_step`, the test against 40, the
update of `crf` and the final test of the score against the target. -/
def stage2Tail (target vmaf_score : ℚ) (crf : Int) (stage2_crf_step : ℚ) : Stage2Step :=
  let stage2_crf_step := stage2_clamp_step stage2_crf_step
  if (crf : ℚ) + stage2_crf_step > 40 then
    Stage2Step.stop (crf + 1)
  else
    let crf1 := truncToInt ((crf : ℚ) + stage2_crf_step)
    if vmaf_score < target then Stage2Step.stop (crf1 + 1)
    else Stage2Step.next crf1 crf

/-- Lines 7190-7191: the upward step, at least 1. -/
def stage2_step_up (stage2_score_diff step_vmaf : ℚ) : ℚ :=
  let stage2_crf_step := stage2_score_diff / step_vmaf
  if stage2_crf_step < 1 then 1 else stage2_crf_step

/-- Lines 7214-7215: the downward step, at most -1. -/
def stage2_step_down (stage2_score_diff step_vmaf : ℚ) : ℚ :=
  let stage2_crf_step := stage2_score_diff / step_vmaf
  if stage2_crf_step > -1 then -1 else stage2_crf_step

/-- Lines 7141-7246: one pass through the loop body at trial CRF `crf`, for the
score `vmaf_score` of the trial. `abs` is the integer function of `stdlib.h`, so
its argument is first converted to `int`. -/
def stage2Body (target vmaf_score : ℚ) (crf stage2_last_crf : Int) : Stage2Step :=
  let stage2_vmaf_diff := vmaf_score - target
  if |truncToInt stage2_vmaf_diff| < 1 ∧ stage2_vmaf_diff < 2 / 10 then
    Stage2Step.stop (crf + 1)
  else
    let step_vmaf := stage2_step_vmaf crf stage2_vmaf_diff
    let stage2_score_diff := vmaf_score - target
    if stage2_score_diff > 0 then
      if crf < stage2_last_crf then Stage2Step.stop (crf + 1)
      else stage2Tail target vmaf_score crf (stage2_step_up stage2_score_diff step_vmaf)
    else
      if crf = stage2_last_crf + 1 ∨ crf = 18 ∨ crf = 18 ∨ crf = stage2_last_crf - 1 then
        Stage2Step.stop (crf + 1)
      else stage2Tail target vmaf_score crf (stage2_step_down stage2_score_diff step_vmaf)

/-- The loop `for (int crf = 18; crf < 40; )` of lines 7106-7251 from its `k`-th
trial on, run for at most `fuel` trials. `score k` is the score of the `k`-th
trial. The result is `none` when the fuel runs out, and otherwise the value
stored in `global_crf_array[global_stage2_gop_num]` (`none` when the loop ends by
its condition, without a store) together with the number of trials run. -/
def stage2Loop (target : ℚ) (score : Nat → ℚ) :
    Nat → Nat → Int → Int → Option (Option Int × Nat)
  | 0, k, crf, _ => if crf < 40 then none else some (none, k)
  | fuel + 1, k, crf, stage2_last_crf =>
    if crf < 40 then
      match stage2Body target (score k) crf stage2_last_crf with
      | Stage2Step.stop assigned => some (some assigned, k + 1)
      | Stage2Step.next crf1 last1 => stage2Loop target score fuel (k + 1) crf1 last1
    else some (none, k)

/-- Lines 7089-7255: `stage2_last_crf = 18`, the loop started at `crf = 18`, and
the two increments `global_stage1_gop_num++`, `global_stage2_gop_num++`. The
loop is given 22 trials, which `stage2Loop_fuel` below shows to be enough. -/
def stage2 (score : Nat → ℚ) (st : State) : State :=
  let st1 :=
    match stage2Loop st.stage2_target_vmaf_score score 22 0 18 18 with
    | some (some assigned, _) =>
      { st with
        global_crf_array :=
          Function.update st.global_crf_array st.global_stage2_gop_num (assigned : ℚ) }
    | _ => st
  { st1 with
    global_stage1_gop_num := st1.global_stage1_gop_num + 1
    global_stage2_gop_num := st1.global_stage2_gop_num + 1 }

/-! ## The decode loop and the per-GOP driver (lines 6761-7294) -/

/-- Line 6787 and line 6875: the per-pixel sharpness of the GOP being closed.
For a sample of no frame, or a frame of width or height 0, the `float` expression
of the code is a NaN or an infinity; the value this definition has there (a
division by 0 is 0) has no counterpart in the code. -/
def pixelSharpness (env : Env) (st : State) : ℚ :=
  ((st.total_sharpness : ℚ) / (st.dec_frame_num : ℚ)) / (env.width : ℚ) / (env.height : ℚ)

/-- Lines 6787-6801: the record written when a keyframe closes the GOP. The
increment of `global_decode_gop_num` is commented out (line 6800). -/
def closeAtKeyframe (env : Env) (st : State) : State :=
  let pixel_sharpness_val := pixelSharpness env st
  { st with
    pixel_sharpness_val := pixel_sharpness_val
    global_frames_of_gop_array :=
      Function.update st.global_frames_of_gop_array st.global_decode_gop_num
        (toInt32 st.dec_frame_num)
    global_aq_strength_array :=
      Function.update st.global_aq_strength_array st.global_decode_gop_num
        (get_aq_strength pixel_sharpness_val)
    global_unsharp_array :=
      Function.update st.global_unsharp_array st.global_decode_gop_num
        (get_unsharp pixel_sharpness_val)
    total_sharpness := 0
    dec_frame_num := 0
    total_gop_num := st.total_gop_num + 1 }

/-- Lines 6875-6881: the record written at end of input. Line 6880 increments
`global_decode_gop_num` after its store. -/
def closeAtEof (env : Env) (st : State) : State :=
  let pixel_sharpness_val := pixelSharpness env st
  { st with
    pixel_sharpness_val := pixel_sharpness_val
    global_frames_of_gop_array :=
      Function.update st.global_frames_of_gop_array st.global_decode_gop_num
        (toInt32 st.dec_frame_num)
    global_aq_strength_array :=
      Function.update st.global_aq_strength_array st.global_decode_gop_num
        (get_aq_strength pixel_sharpness_val)
    global_unsharp_array :=
      Function.update st.global_unsharp_array st.global_decode_gop_num
        (get_unsharp pixel_sharpness_val)
    global_decode_gop_num := st.global_decode_gop_num + 1
    dec_frame_num := 0 }

/-- Label `NEXT` to line 7262: Stage 0, Stage 1 and Stage 2 of the GOP whose
number is the current `global_stage1_gop_num`. -/
def processGop (env : Env) (st : State) : State :=
  let g := st.global_stage1_gop_num
  let st := stage0 env (env.stage0_score g) st
  let st := (stage1 env.fps (env.stage1_trial g) st).1
  stage2 (env.stage2_score g) st

/-- Label `DECODE_ORG_BITS`, lines 6806-6821: the frame is added to the running
sharpness total and counted. The copy of its pixels into `pVideoBuffer` (lines
6815-6819) is outside the embedding. -/
def countFrame (f : Frame) (st : State) : State :=
  { st with
    total_sharpness := st.total_sharpness + f.sharpness
    dec_frame_num := st.dec_frame_num + 1 }

/-- Lines 6785-6822 for one received frame. A keyframe that finds at least
`MIN_NUM_OF_PER_GOP` frames counted closes the GOP and jumps to `NEXT`; as
`end_of_file` is 0 there, line 7291 jumps back to `DECODE_ORG_BITS` with the same
frame. -/
def onFrame (env : Env) (st : State) (f : Frame) : State :=
  if f.key = true ∧ st.dec_frame_num ≥ MIN_NUM_OF_PER_GOP then
    countFrame f (processGop env (closeAtKeyframe env st))
  else
    countFrame f st

/-- Lines 6761-6832: the decode loop over the frames the decoder delivers. -/
def decodeFrames (env : Env) (frames : List Frame) (st : State) : State :=
  frames.foldl (onFrame env) st

/-- The function `EaglePreProcess` (lines 6588-7294) on the sequence of frames
the decoder delivers: the decode loop, then at end of input `end_of_file = 1`,
the last record, and the three stages once more before the `return` of line
7288. -/
def EaglePreProcess (env : Env) (frames : List Frame) : State :=
  processGop env (closeAtEof env (decodeFrames env frames (initState env)))

/-- Sum of the first `n` cells of `global_frames_of_gop_array`. -/
def framesSum (a : Int → Int) (n : Nat) : Int :=
  ((List.range n).map (fun i => a (i : Int))).sum

/-! ## Auxiliary definitions used in the statements -/

/-- The state in which the loop of Stage 1 continues after a trial at `crf` that
did not stop it: lines 7069-7070, with the flag cleared at line 7041. -/
def stage1After (fps : Int) (trial : Nat → Trial) (st : State) (crf : Nat) : State :=
  { st with
    stage1_prev_bitrate := stage1_bitrate fps (trial crf)
    stage1_prev_vmaf_score := (trial crf).vmaf_score
    stage1_first_flag := false }

/-- The marginal cost the loop of Stage 1 computes for the trial at `crf + 1`
when the trial at `crf` did not stop it. -/
def stage1PairCost (fps : Int) (trial : Nat → Trial) (crf : Nat) : ℚ :=
  stage1_per_score false (stage1_bitrate fps (trial (crf + 1))) (stage1_bitrate fps (trial crf))
    (trial (crf + 1)).vmaf_score (trial crf).vmaf_score

/-- The marginal cost of the trial at `crf` in the words of the specification:
600 for the first trial (`crf = 18`), and for every later trial the quotient of
the bitrate difference by the score difference to the trial before. -/
def specMarginal (fps : Int) (trial : Nat → Trial) (crf : Nat) : ℚ :=
  if crf = 18 then 600
  else (stage1_bitrate fps (trial crf) - stage1_bitrate fps (trial (crf - 1)))
    / ((trial crf).vmaf_score - (trial (crf - 1)).vmaf_score)

/-- An environment whose services return zero everywhere. -/
def zeroEnv : Env where
  width := 16
  height := 16
  fps := 25
  unsharp_init := fun _ => 0
  unsharp_outside := fun _ => 0
  stage0_score := fun _ _ => 0
  stage1_trial := fun _ _ => ⟨0, 0⟩
  stage2_score := fun _ _ => 0

/-- Stage-1 trials whose scores rise by `2 ^ (-23)` from one CRF to the next,
all with the same byte count. -/
def creepingTrial (crf : Nat) : Trial :=
  ⟨1000, 1 + ((crf : ℚ) - 18) / 8388608⟩

/-- Stage-1 trials that all score 100, with a byte count falling with the CRF. -/
def saturatedTrial (crf : Nat) : Trial :=
  ⟨100000 - 1000 * (crf : Int), 100⟩

/-- Stage-1 trials whose scores fall by one from 97 at CRF 18, all with the same
byte count. -/
def fallingTrial (crf : Nat) : Trial :=
  ⟨1000, 115 - (crf : ℚ)⟩

/-- An environment in which the Stage-1 trials of every GOP are `fallingTrial`
and every Stage-2 trial scores 96. -/
def targetEnv : Env :=
  { zeroEnv with stage1_trial := fun _ => fallingTrial, stage2_score := fun _ _ => 96 }

/-- An environment in which the first Stage-2 trial of a GOP scores 2 and every
later one 100. -/
def landingEnv : Env :=
  { zeroEnv with stage2_score := fun _ k => if k = 0 then 2 else 100 }

/-- An environment in which the Stage-1 trials of every GOP are `saturatedTrial`. -/
def saturatedEnv : Env :=
  { zeroEnv with stage1_trial := fun _ => saturatedTrial }

/-- The state at the head of iteration `i` of the loop of Stage 0 when no earlier
iteration stopped it: line 6930 has set the filter description and line 6977 the
previous score. -/
def stage0At (score : Nat → ℚ) (st : State) : Nat → State
  | 0 => st
  | i + 1 => { st with filter_descr := some i, pre_vmaf_score := score i }

/-- Rule (a) of Stage 0 in iteration `i`, as line 6962 tests it: the score is
below the score of the iteration before (in iteration 0: below the value
`pre_vmaf_score` holds on entry). -/
def stage0RuleA (score : Nat → ℚ) (st : State) (i : Nat) : Prop :=
  score i < (stage0At score st i).pre_vmaf_score

/-- Rule (b) of Stage 0 in iteration `i`, as line 6970 tests it: the grid amount
exceeds the cell `global_unsharp_array[global_decode_gop_num - 1]`. -/
def stage0RuleB (env : Env) (st : State) (i : Nat) : Prop :=
  unsharp env i > st.global_unsharp_array (st.global_decode_gop_num - 1)

/-- A keyframe followed by 299 frames that are not keyframes, each of sharpness
256: the 300 frames of a first GOP. -/
def sharpGop : List Frame :=
  ⟨true, 256⟩ :: List.replicate 299 ⟨false, 256⟩

/-- The 300 frames of `sharpGop` followed by a second keyframe. -/
def sharpFrames : List Frame :=
  sharpGop ++ [⟨true, 256⟩]

/-! ## Stage 1 with the threshold as a parameter -/

/-- The loop of lines 6993-7074 with the value of the local variable
`target_per_score` (line 6639) as a parameter: the same iterations as
`stage1Loop`, where the test of line 7050 compares against `threshold`. -/
def stage1LoopAt (threshold : ℚ) (fps : Int) (trial : Nat → Trial) :
    Nat → Nat → State → State × Option Nat
  | 0, _, st => (st, none)
  | n + 1, crf, st =>
    let stage1_vmaf_score := (trial crf).vmaf_score
    let bitrate := stage1_bitrate fps (trial crf)
    let per_score := stage1_per_score st.stage1_first_flag bitrate st.stage1_prev_bitrate
      stage1_vmaf_score st.stage1_prev_vmaf_score
    let first_flag :=
      if |stage1_vmaf_score - st.stage1_prev_vmaf_score| ≤ 1 / 1000000 ∨ st.stage1_first_flag = true
      then false else st.stage1_first_flag
    if per_score ≤ threshold then
      ({ st with
          global_target_score_array :=
            Function.update st.global_target_score_array st.global_stage1_gop_num
              (stage1_clamp stage1_vmaf_score)
          stage1_prev_bitrate := 0
          stage1_prev_vmaf_score := 0
          stage1_first_flag := first_flag }, some crf)
    else
      stage1LoopAt threshold fps trial n (crf + 1)
        { st with
          stage1_prev_bitrate := bitrate
          stage1_prev_vmaf_score := stage1_vmaf_score
          stage1_first_flag := first_flag }

/-- The order on stopping points of Stage 1 in which never stopping (`none`)
counts as later than every CRF. -/
def stopsNoLaterThan : Option Nat → Option Nat → Prop
  | _, none => True
  | none, some _ => False
  | some a, some b => a ≤ b

/-- The number of trials a run of the loop of Stage 1 has made, from the CRF of
its `break`: the trials at `18 .. crf`, or all 33 when there was no `break`. -/
def stage1Trials : Option Nat → Nat
  | some crf => crf - 18 + 1
  | none => 33

/-! ## The final pass (do_video_out, lines 1390-1416) -/

/-- The variables the block of lines 1390-1416 reads and writes: the counter
`ost->frames_encoded`, the global `global_gop`, and the two rate-control
parameters handed to `x264_encoder_reconfig`. -/
structure FinalPass where
  frames_encoded : Int
  global_gop : Int
  crf : ℚ
  aq_strength : ℚ

/-- Lines 1390-1411 for one output frame, on the table held in `tbl`: the counter
is incremented, the frame counts of the GOPs `0 .. global_gop` are added up,
`global_gop` moves on by one when the counter exceeds that total and
`total_gop_num` is not reached, and the CRF and AQ strength of `global_gop` are
applied. -/
def do_video_out_frame (tbl : State) (fp : FinalPass) : FinalPass :=
  let frames_encoded := fp.frames_encoded + 1
  let total_encoded_frame_num :=
    framesSum tbl.global_frames_of_gop_array (fp.global_gop + 1).toNat
  let global_gop :=
    if frames_encoded > total_encoded_frame_num ∧ fp.global_gop < tbl.total_gop_num
    then fp.global_gop + 1 else fp.global_gop
  { frames_encoded := frames_encoded
    global_gop := global_gop
    crf := tbl.global_crf_array global_gop
    aq_strength := tbl.global_aq_strength_array global_gop }

/-- The state of the final pass before its first frame: no frame encoded,
`global_gop = 0`. -/
def finalPassStart : FinalPass :=
  { frames_encoded := 0, global_gop := 0, crf := 0, aq_strength := 0 }

/-- The state of the final pass when its `n`-th output frame is sent to the
encoder. -/
def finalPass (tbl : State) : Nat → FinalPass
  | 0 => finalPassStart
  | n + 1 => do_video_out_frame tbl (finalPass tbl n)

/-! ## The sharpness statistic (get_unsharp_val, lines 5650-5699)

The cells of `sr` and `sc` are `uint32_t`: a store into a cell and a sum with a
cell are taken modulo `2 ^ 32`, and the sum is brought back to `int` when it is
assigned to `tmp1` or `tmp2`. The remaining arithmetic is signed; its overflow,
which C leaves undefined, is not represented. -/

/-- The loops `for (z = 0; z < steps * 2; z += 2)` of lines 5674-5679 and
5681-5686, `n` passes remaining, on the cells `cell z`, `cell (z + 1)`. -/
def unsharpCascade : Nat → Nat → (Nat → Int) → Int → (Nat → Int) × Int
  | 0, _, cell, tmp1 => (cell, tmp1)
  | n + 1, z, cell, tmp1 =>
    let tmp2 := toInt32 (cell z + tmp1)
    let cell := Function.update cell z (tmp1 % 2 ^ 32)
    let tmp1 := toInt32 (cell (z + 1) + tmp2)
    let cell := Function.update cell (z + 1) (tmp2 % 2 ^ 32)
    unsharpCascade n (z + 2) cell tmp1

/-- Line 5689: the response of one pixel, from the pixel value and the value
`tmp1` the two cascades deliver. -/
def unsharpRes (pixel tmp1 amount : Int) (steps_x steps_y : Nat) : Int :=
  let scalebits := (steps_x + steps_y) * 2
  let halfscale : Int := 2 ^ (scalebits - 1)
  ((pixel - (tmp1 + halfscale) / 2 ^ scalebits) * amount) / 2 ^ 16

/-- The loop over `x` of lines 5672-5691 in row `y`, `n` pixels remaining:
`sr` are the cells of the row, `sc z c` the cell `sc[z][c]`, `sharpness` the
running sum. -/
def unsharpRow (data : Nat → Nat) (width y : Nat) (amount : Int) (steps_x steps_y : Nat) :
    Nat → Nat → (Nat → Int) → (Nat → Nat → Int) → Int → (Nat → Nat → Int) × Int
  | 0, _, _, sc, sharpness => (sc, sharpness)
  | n + 1, x, sr, sc, sharpness =>
    let pixel : Int := ((data (y * width + x) % 256 : Nat) : Int)
    let h := unsharpCascade steps_x 0 sr pixel
    let v := unsharpCascade steps_y 0 (fun z => sc z (x + steps_x)) h.2
    let sc1 : Nat → Nat → Int := fun z c => if c = x + steps_x then v.1 z else sc z c
    let res := unsharpRes pixel v.2 amount steps_x steps_y
    unsharpRow data width y amount steps_x steps_y n (x + 1) h.1 sc1 (sharpness + res)

/-- The loop over `y` of lines 5670-5692, `m` rows remaining; every row starts
with zeroed cells `sr` (line 5671). -/
def unsharpRows (data : Nat → Nat) (width : Nat) (amount : Int) (steps_x steps_y : Nat) :
    Nat → Nat → (Nat → Nat → Int) → Int → Int
  | 0, _, _, sharpness => sharpness
  | m + 1, y, sc, sharpness =>
    let r := unsharpRow data width y amount steps_x steps_y
      (width - 1 - steps_x) steps_x (fun _ => 0) sc sharpness
    unsharpRows data width amount steps_x steps_y m (y + 1) r.1 r.2

/-- Lines 5650-5699, `get_unsharp_val(data, width, height, amounts, msize_x,
msize_y)`: `amount = amounts * 65536`, `steps = msize >> 1`, zeroed cells `sc`,
rows `steps_y .. height - 2` and columns `steps_x .. width - 2`. -/
def get_unsharp_val (data : Nat → Nat) (width height : Nat) (amounts : ℚ)
    (msize_x msize_y : Nat) : Int :=
  let amount := truncToInt (amounts * 65536)
  let steps_x := msize_x / 2
  let steps_y := msize_y / 2
  unsharpRows data width amount steps_x steps_y (height - 1 - steps_y) steps_y
    (fun _ _ => 0) 0

/-! ## Further invariants of the decode loop -/

/-- The three write cursors of the table agree with each other and with the
count `total_gop_num` of GOPs closed by a keyframe. -/
def CursorInv (st : State) : Prop :=
  st.global_stage1_gop_num = st.global_decode_gop_num
    ∧ st.global_stage2_gop_num = st.global_decode_gop_num
    ∧ st.total_gop_num = st.global_decode_gop_num

/-- The quality step of a Stage-2 iteration in the words of the specification:
`max 1 (max 0.2 ((crf - 18) / 10) * k)` with `k` 1.5, 2, 2.5 or 4 by the size of
`delta`. -/
def specStepQ (crf : Int) (delta : ℚ) : ℚ :=
  max 1 (max (2 / 10) (((crf : ℚ) - 18) / 10)
    * (if delta > 20 then 15 / 10 else if delta > 15 then 2 else if delta > 10 then 25 / 10
        else 4))

/-- Bounds on the four cells of a cascade of two passes: the cells hold
non-negative values of at most `M`, `2 M`, `4 M` and `8 M`. -/
def CellsBounded (cell : Nat → Int) (M : Int) : Prop :=
  (0 ≤ cell 0 ∧ cell 0 ≤ M) ∧ (0 ≤ cell 1 ∧ cell 1 ≤ 2 * M)
    ∧ (0 ≤ cell 2 ∧ cell 2 ≤ 4 * M) ∧ (0 ≤ cell 3 ∧ cell 3 ≤ 8 * M)

/-- A table of two GOPs, of 300 frames and of one frame, with their CRF and AQ
strength. -/
def twoGopTable : State :=
  { initState zeroEnv with
    global_frames_of_gop_array := fun i => if i = 0 then 300 else 1
    global_crf_array := fun i => if i = 0 then 24 else 21
    global_aq_strength_array := fun i => if i = 0 then 1 else 15 / 10
    total_gop_num := 1 }

/-! ## Definitions for the third part -/

/-- The trials the loop of lines 7106-7251 runs from its `k`-th trial on, for at
most `fuel` trials: the values of `crf` and `stage2_last_crf` at the head of each
pass through the body, in the order of the passes. The recursion is that of
`stage2Loop`. -/
def stage2Trials (target : ℚ) (score : Nat → ℚ) : Nat → Nat → Int → Int → List (Int × Int)
  | 0, _, _, _ => []
  | fuel + 1, k, crf, stage2_last_crf =>
    if crf < 40 then
      match stage2Body target (score k) crf stage2_last_crf with
      | Stage2Step.stop _ => [(crf, stage2_last_crf)]
      | Stage2Step.next crf1 last1 =>
        (crf, stage2_last_crf) :: stage2Trials target score fuel (k + 1) crf1 last1
    else []

/-- Line 6646: `char *unsharp_val[10] = {"0.0", "0.1", ..., "0.9"}`, the strings
line 6930 copies behind `luma_amount=`, read as numbers. -/
def unsharp_val (i : Nat) : ℚ := (i : ℚ) / 10

/-- Lines 7085-7086: the filter description of Stage 2 is a copy of
`pfilterinfoOne->filter_descr`; its `luma_amount` is the string Stage 0 copied
last. -/
def stage2_luma_amount (st : State) : Option ℚ := st.filter_descr.map unsharp_val

/-- An environment in which the Stage-0 trials score 50 at grid index 0 of GOP 0
and 40 everywhere else, and the memory cells around the array `unsharp` hold 7. -/
def carryEnv : Env :=
  { zeroEnv with
    stage0_score := fun g i => if g = 0 ∧ i = 0 then 50 else 40
    unsharp_outside := fun _ => 7 }

/-- The part of the sampler that lines 6815-6821 read and write: the counter
`pdecinfo->dec_frame_num` and the buffer `pmeminfo->pVideoBuffer`, seen as slots
of one frame each (the copy of line 6816 goes to the offset
`dec_frame_num * width * height * 3 / 2`). A slot holds `none` until a frame is
copied into it. -/
structure SampleBuffer (α : Type) where
  dec_frame_num : Int
  pVideoBuffer : Int → Option α

/-- Lines 6815-6821 for one decoded frame with pixels `pixels`: the guarded
`memcpy` and the increment of the counter. -/
def storeFrame {α : Type} (s : SampleBuffer α) (pixels : α) : SampleBuffer α :=
  { dec_frame_num := s.dec_frame_num + 1
    pVideoBuffer :=
      if s.dec_frame_num ≤ DECODE_FRAME_NUM_PER_GOP then
        Function.update s.pVideoBuffer s.dec_frame_num (some pixels)
      else s.pVideoBuffer }

/-- The frames of one GOP through lines 6815-6821, from the counter 0 the close
of the previous GOP leaves (lines 6798 and 6881) and a buffer in which nothing of
this GOP is stored. -/
def sampleGop {α : Type} (frames : List α) : SampleBuffer α :=
  frames.foldl storeFrame { dec_frame_num := 0, pVideoBuffer := fun _ => none }

/-- The `static` variables of `read_image_new_b` (lines 5165-5168). -/
structure ReadState where
  first_flag : Bool
  end_of_frame : Bool
  reserved_ref : Int
  reserved_dis : Int

/-- The initialisers of lines 5165-5168. -/
def readStateInit : ReadState :=
  { first_flag := true, end_of_frame := false, reserved_ref := 0, reserved_dis := 0 }

/-- Lines 5159-5233, `read_image_new_b(data, buf, off, width, height, stride,
ref_flag, stage)`, with `malloc` taken to succeed. The result is the new value of
the static variables, the return code, and the offset into `data` of the luma
plane the loop of lines 5190-5209 copies to `buf` (`none` when the call copies
nothing). The byte counts are C `int`s: every product and difference is reduced
modulo `2 ^ 32` into the range of `int` (the wrap of the usual targets, where C
leaves the overflow undefined), and the division truncates. -/
def read_image_new_b (width height : Int) (ref_flag : Bool) (stage : Int) (s : ReadState) :
    ReadState × Int × Option Int :=
  if s.end_of_frame = true then
    (readStateInit, 2, none)
  else
    let s :=
      if s.first_flag = true then
        if stage = 1 then
          { s with
            first_flag := false
            reserved_ref :=
              Int.tdiv (toInt32 (width * height * (DECODE_FRAME_NUM_PER_GOP - 5) * 3)) 2
            reserved_dis :=
              Int.tdiv (toInt32 (width * height * (DECODE_FRAME_NUM_PER_GOP - 5) * 3)) 2 }
        else if stage = 2 then
          { s with
            first_flag := false
            reserved_ref :=
              Int.tdiv (toInt32 (width * height * (FILTERED_FRAME_NUM_PER_GOP - 5) * 3)) 2
            reserved_dis :=
              Int.tdiv (toInt32 (width * height * (FILTERED_FRAME_NUM_PER_GOP - 5) * 3)) 2 }
        else { s with first_flag := false }
      else s
    if width ≤ 0 ∨ height ≤ 0 then (s, 0, none)
    else
      let reserved := if ref_flag = true then s.reserved_ref else s.reserved_dis
      let offset : Option Int :=
        if stage = 1 then
          some (toInt32
            (Int.tdiv (toInt32 ((DECODE_FRAME_NUM_PER_GOP - 5) * width * height * 3)) 2
              - reserved))
        else if stage = 2 then
          some (toInt32
            (Int.tdiv (toInt32 ((FILTERED_FRAME_NUM_PER_GOP - 5) * width * height * 3)) 2
              - reserved))
        else none
      let s :=
        if ref_flag = true then
          { s with
            reserved_ref := toInt32 (s.reserved_ref - Int.tdiv (toInt32 (width * height * 3)) 2) }
        else
          { s with
            reserved_dis := toInt32 (s.reserved_dis - Int.tdiv (toInt32 (width * height * 3)) 2) }
      if s.reserved_ref = 0 ∨ s.reserved_dis = 0 then
        ({ s with first_flag := true, end_of_frame := true }, 0, offset)
      else (s, 0, offset)

/-- Lines 5271-5301, `read_frame_new`, for the format `"yuv420p"` that
`compute_vmaf_prepare` sets (line 6035): the reference plane is read, then the
distorted one. The result is the new static state, the return code, and the
offsets of the reference and of the distorted plane copied. -/
def read_frame_new (width height stage : Int) (s : ReadState) :
    ReadState × Int × Option Int × Option Int :=
  let r := read_image_new_b width height true stage s
  let d := read_image_new_b width height false stage r.1
  (d.1, if r.2.1 = 2 ∨ d.2.1 = 2 then 2 else 0, r.2.2, d.2.2)

/-- The static state after `n` successive calls of `read_frame_new`, from the
initial static state. -/
def readStateAfter (width height stage : Int) : Nat → ReadState
  | 0 => readStateInit
  | n + 1 => (read_frame_new width height stage (readStateAfter width height stage n)).1

/-- What call number `n` (counted from 0) of `read_frame_new` delivers: the
return code and the offsets of the reference and distorted planes it copied. -/
def readCall (width height stage : Int) (n : Nat) : Int × Option Int × Option Int :=
  (read_frame_new width height stage (readStateAfter width height stage n)).2

/-- The binomial weights `b = (1, 4, 6, 4, 1)` of the specification's window. -/
def binomial5 : Nat → Int
  | 0 => 1
  | 1 => 4
  | 2 => 6
  | 3 => 4
  | 4 => 1
  | _ => 0

/-- The pixel `D(u, v)` of the specification's window: the byte `data[v][u]` of
the plane when `u ≥ 2` and `v ≥ 2`, and 0 otherwise. -/
def specPixel (data : Nat → Nat) (width : Nat) (u v : Int) : Int :=
  if 2 ≤ u ∧ 2 ≤ v then ((data (v.toNat * width + u.toNat) % 256 : Nat) : Int) else 0

/-- The window sum `C(x, y)` in the words of the specification: the sum over
`i, j` in `0 .. 4` of `b_i * b_j * D(x - i, y - j)`. -/
def specWindow (data : Nat → Nat) (width : Nat) (x y : Int) : Int :=
  ∑ i in Finset.range 5, ∑ j in Finset.range 5,
    binomial5 i * binomial5 j * specPixel data width (x - (i : Int)) (y - (j : Int))

/-- The response of the pixel `(x, y)` in the words of the specification:
`data[y][x] - floor((C(x, y) + 128) / 256)`. -/
def specResponse (data : Nat → Nat) (width : Nat) (x y : Int) : Int :=
  specPixel data width x y - (specWindow data width x y + 128) / 256

/-- The statistic in the words of the specification: the sum of the responses
over `2 ≤ x ≤ width - 2`, `2 ≤ y ≤ height - 2`. -/
def specUnsharpVal (data : Nat → Nat) (width height : Nat) : Int :=
  ∑ y in Finset.Icc 2 (height - 2), ∑ x in Finset.Icc 2 (width - 2),
    specResponse data width (x : Int) (y : Int)

/-- The sum of the absolute values of the responses over the same pixels. -/
def specAbsUnsharpVal (data : Nat → Nat) (width height : Nat) : Int :=
  ∑ y in Finset.Icc 2 (height - 2), ∑ x in Finset.Icc 2 (width - 2),
    |specResponse data width (x : Int) (y : Int)|

/-- The horizontal part of the window: the sum over `i` in `0 .. 4` of
`b_i * D(x - i, y)`. -/
def rowBlur (data : Nat → Nat) (width : Nat) (x y : Int) : Int :=
  specPixel data width x y + 4 * specPixel data width (x - 1) y
    + 6 * specPixel data width (x - 2) y + 4 * specPixel data width (x - 3) y
    + specPixel data width (x - 4) y

/-- The cells of a cascade of two passes before the value `f x` of a sequence is
fed in, in terms of the four values before it: `a = f (x - 1)`, ..., `d = f (x - 4)`. -/
def CascadeInv (a b c d : Int) (cell : Nat → Int) : Prop :=
  cell 0 = a ∧ cell 1 = a + b ∧ cell 2 = a + 2 * b + c ∧ cell 3 = a + 3 * b + 3 * c + d

/-- The cells `sc[0 .. 3][col + 2]` of column `col` before row `y` is processed:
those of a cascade fed with the horizontal sums of the rows above. -/
def ColInv (data : Nat → Nat) (width : Nat) (col : Nat) (y : Int) (sc : Nat → Nat → Int) :
    Prop :=
  CascadeInv (rowBlur data width col (y - 1)) (rowBlur data width col (y - 2))
    (rowBlur data width col (y - 3)) (rowBlur data width col (y - 4))
    (fun z => sc z (col + 2))

/-- A plane of 7 by 7 pixels, black except for the pixel `(2, 2)` of value 8. -/
def dotPlane (k : Nat) : Nat := if k = 16 then 8 else 0

/-- A plane of 5 by 4 pixels, black except for the pixel `(3, 2)` of value 100. -/
def edgePlane (k : Nat) : Nat := if k = 13 then 100 else 0

/-! ## Definitions for the fourth part -/

/-- An environment in which every Stage-0 trial scores 90. -/
def steadyEnv : Env :=
  { zeroEnv with stage0_score := fun _ _ => 90 }

/-! ## The sharpness mappings -/

/-- The two-branch clamping at the head of `get_unsharp` and `get_aq_strength` is
the clamping to `[0.1, 0.8]`. -/
theorem sharpness_clamp_eq (s : ℚ) :
    (if s ≤ 1 / 10 then (1 / 10 : ℚ) else if s ≥ 8 / 10 then 8 / 10 else s)
      = clampTo (1 / 10) (8 / 10) s := by
  unfold clampTo
  split_ifs with h1 h2
  · rw [max_eq_left]
    exact le_trans (min_le_right _ _) h1
  · rw [min_eq_left h2]
    norm_num
  · push_neg at h1 h2
    rw [min_eq_right h2.le, max_eq_right h1.le]

/-- C5: for every sharpness value `s`, `get_aq_strength s` is
`max 1.0 (0.5 + (0.8 - c) / 0.7)` with `c` the clamping of `s` to `[0.1, 0.8]`;
hence the AQ strength is at least 1.0, and it is 1.5 for every `s ≤ 0.1`. -/
theorem get_aq_strength_spec (s : ℚ) :
    get_aq_strength s = max 1 (1 / 2 + (8 / 10 - clampTo (1 / 10) (8 / 10) s) / (7 / 10))
      ∧ 1 ≤ get_aq_strength s
      ∧ (s ≤ 1 / 10 → get_aq_strength s = 15 / 10) := by
  have h : get_aq_strength s
      = max 1 (1 / 2 + (8 / 10 - clampTo (1 / 10) (8 / 10) s) / (7 / 10)) := by
    unfold get_aq_strength
    simp only [sharpness_clamp_eq]
    split_ifs with h
    · rw [max_eq_left h.le]
    · rw [max_eq_right (not_lt.mp h)]
  refine ⟨h, ?_, ?_⟩
  · rw [h]
    exact le_max_left _ _
  · intro hs
    unfold get_aq_strength
    simp only [hs, if_true]
    norm_num

/-- The statement of C5 at the sharpness value 0, where the low clamp applies. -/
theorem get_aq_strength_spec_witness :
    get_aq_strength 0 = max 1 (1 / 2 + (8 / 10 - clampTo (1 / 10) (8 / 10) 0) / (7 / 10))
      ∧ 1 ≤ get_aq_strength 0
      ∧ get_aq_strength 0 = 15 / 10 :=
  ⟨(get_aq_strength_spec 0).1, (get_aq_strength_spec 0).2.1,
    (get_aq_strength_spec 0).2.2 (by norm_num)⟩

/-- C6: for every sharpness value `s`, `get_unsharp s` is
`max 1.0 (6 * ((0.8 - c) / 0.7) ^ 2) * c` with `c` the clamping of `s` to
`[0.1, 0.8]`: a function of `s` alone. -/
theorem get_unsharp_spec (s : ℚ) :
    get_unsharp s
      = max 1 (6 * ((8 / 10 - clampTo (1 / 10) (8 / 10) s) / (7 / 10)) ^ 2)
          * clampTo (1 / 10) (8 / 10) s := by
  unfold get_unsharp
  simp only [sharpness_clamp_eq]
  have e : ∀ c : ℚ, (8 / 10 - c) / (7 / 10) * ((8 / 10 - c) / (7 / 10)) * 6
      = 6 * ((8 / 10 - c) / (7 / 10)) ^ 2 := by
    intro c
    ring
  rw [e]
  split_ifs with h
  · rw [max_eq_left h]
  · rw [max_eq_right (not_le.mp h).le]

/-! ## Stage 1 -/

theorem stage1Loop_continue (fps : Int) (trial : Nat → Trial) (n crf : Nat) (st : State)
    (h : ¬ stage1_per_score st.stage1_first_flag (stage1_bitrate fps (trial crf))
          st.stage1_prev_bitrate (trial crf).vmaf_score st.stage1_prev_vmaf_score
        ≤ target_per_score) :
    stage1Loop fps trial (n + 1) crf st
      = stage1Loop fps trial n (crf + 1) (stage1After fps trial st crf) := by
  rw [stage1Loop]
  simp only [h, if_false]
  congr 1
  unfold stage1After
  congr 1
  by_cases hf : st.stage1_first_flag = true
  · simp [hf]
  · have hf2 : st.stage1_first_flag = false := by simpa using hf
    simp [hf2]

theorem stage1Loop_stop (fps : Int) (trial : Nat → Trial) (n crf : Nat) (st : State)
    (h : stage1_per_score st.stage1_first_flag (stage1_bitrate fps (trial crf))
          st.stage1_prev_bitrate (trial crf).vmaf_score st.stage1_prev_vmaf_score
        ≤ target_per_score) :
    (stage1Loop fps trial (n + 1) crf st).2 = some crf
      ∧ (stage1Loop fps trial (n + 1) crf st).1.global_target_score_array
          = Function.update st.global_target_score_array st.global_stage1_gop_num
              (stage1_clamp (trial crf).vmaf_score) := by
  rw [stage1Loop]
  simp only [h, if_true, and_self]

/-- A sweep in which no trial reaches the threshold runs through all its
iterations and stores nothing. -/
theorem stage1Loop_exhaust (fps : Int) (trial : Nat → Trial) :
    ∀ (n crf : Nat) (st : State),
      ¬ stage1_per_score st.stage1_first_flag (stage1_bitrate fps (trial crf))
          st.stage1_prev_bitrate (trial crf).vmaf_score st.stage1_prev_vmaf_score
        ≤ target_per_score →
      (∀ j, j < n → ¬ stage1PairCost fps trial (crf + j) ≤ target_per_score) →
      stage1Loop fps trial (n + 1) crf st = (stage1After fps trial st (crf + n), none) := by
  intro n
  induction n with
  | zero =>
    intro crf st h _
    rw [stage1Loop_continue fps trial 0 crf st h]
    rfl
  | succ n ih =>
    intro crf st h hall
    rw [stage1Loop_continue fps trial (n + 1) crf st h]
    have h0 := hall 0 (Nat.succ_pos n)
    rw [ih (crf + 1) (stage1After fps trial st crf) h0]
    · have e : crf + 1 + n = crf + (n + 1) := by omega
      rw [e]
      rfl
    · intro j hj
      have := hall (j + 1) (Nat.succ_lt_succ hj)
      have e : crf + 1 + j = crf + (j + 1) := by omega
      rw [e]
      exact this

/-- A sweep whose first `k + 1` trials do not reach the threshold and whose next
trial does stops at that trial. -/
theorem stage1Loop_stop_after (fps : Int) (trial : Nat → Trial) :
    ∀ (k n crf : Nat) (st : State),
      ¬ stage1_per_score st.stage1_first_flag (stage1_bitrate fps (trial crf))
          st.stage1_prev_bitrate (trial crf).vmaf_score st.stage1_prev_vmaf_score
        ≤ target_per_score →
      (∀ j, j < k → ¬ stage1PairCost fps trial (crf + j) ≤ target_per_score) →
      stage1PairCost fps trial (crf + k) ≤ target_per_score →
      (stage1Loop fps trial (n + k + 2) crf st).2 = some (crf + k + 1)
        ∧ (stage1Loop fps trial (n + k + 2) crf st).1.global_target_score_array
            = Function.update st.global_target_score_array st.global_stage1_gop_num
                (stage1_clamp (trial (crf + k + 1)).vmaf_score) := by
  intro k
  induction k with
  | zero =>
    intro n crf st h _ hstop
    have e1 : n + 0 + 2 = (n + 1) + 1 := by omega
    rw [e1, stage1Loop_continue fps trial (n + 1) crf st h]
    exact stage1Loop_stop fps trial n (crf + 1) (stage1After fps trial st crf) hstop
  | succ k ih =>
    intro n crf st h hall hstop
    have e1 : n + (k + 1) + 2 = (n + k + 2) + 1 := by omega
    rw [e1, stage1Loop_continue fps trial (n + k + 2) crf st h]
    have h0 := hall 0 (Nat.succ_pos k)
    have e2 : crf + (k + 1) = crf + 1 + k := by omega
    have := ih n (crf + 1) (stage1After fps trial st crf) h0
      (fun j hj => by
        have := hall (j + 1) (Nat.succ_lt_succ hj)
        have e : crf + 1 + j = crf + (j + 1) := by omega
        rw [e]
        exact this)
      (by rw [← e2]; exact hstop)
    rw [e2]
    exact this

theorem stage1_per_score_first (b pb q pq : ℚ) : stage1_per_score true b pb q pq = 600 := by
  simp [stage1_per_score]

theorem stage1_first_not_stop (fps : Int) (trial : Nat → Trial) (crf : Nat) (st : State)
    (hflag : st.stage1_first_flag = true) :
    ¬ stage1_per_score st.stage1_first_flag (stage1_bitrate fps (trial crf))
          st.stage1_prev_bitrate (trial crf).vmaf_score st.stage1_prev_vmaf_score
        ≤ target_per_score := by
  rw [hflag, stage1_per_score_first]
  norm_num [target_per_score]

/-- Where two consecutive scores differ by more than `1e-6`, the marginal cost
the loop computes is the quotient of the specification. -/
theorem stage1PairCost_eq_specMarginal (fps : Int) (trial : Nat → Trial) (c : Nat)
    (hc : 18 ≤ c)
    (hd : 1 / 1000000 < |(trial (c + 1)).vmaf_score - (trial c).vmaf_score|) :
    stage1PairCost fps trial c = specMarginal fps trial (c + 1) := by
  unfold stage1PairCost specMarginal stage1_per_score
  have h1 : ¬ (|(trial (c + 1)).vmaf_score - (trial c).vmaf_score| ≤ 1 / 1000000
      ∨ false = true) := by
    simp only [Bool.false_eq_true, or_false, not_le]
    exact hd
  have h2 : ¬ c + 1 = 18 := by omega
  rw [if_neg h1, if_neg h2, Nat.add_sub_cancel]

theorem stage1_clamp_eq (q : ℚ) : stage1_clamp q = clampTo 90 96 q := by
  unfold stage1_clamp clampTo
  split_ifs with h1 h2
  · rw [min_eq_left h1.le]
    norm_num
  · push_neg at h1
    rw [min_eq_right h1, max_eq_left h2.le]
  · push_neg at h1 h2
    rw [min_eq_right h1, max_eq_right h2]

/-- C7, amended: for every sequence of Stage-1 trials at `crf = 18 .. 50` in which
consecutive scores differ by more than `1e-6`, Stage 1 stops at the first trial
`k` whose marginal cost is at most 400, where the first trial has marginal cost
600 and every later trial the quotient of the bitrate difference by the score
difference; the target quality it records is the score of that trial clamped to
`[90, 96]`. -/
theorem stage1_stops_at_first_cheap_trial (fps : Int) (trial : Nat → Trial) (st : State)
    (k : Nat)
    (hflag : st.stage1_first_flag = true)
    (hdiff : ∀ i, i < 32 →
      1 / 1000000 < |(trial (18 + i + 1)).vmaf_score - (trial (18 + i)).vmaf_score|)
    (hk : k < 33)
    (hbefore : ∀ j, j < k → ¬ specMarginal fps trial (18 + j) ≤ 400)
    (hstop : specMarginal fps trial (18 + k) ≤ 400) :
    (stage1 fps trial st).2 = some (18 + k)
      ∧ (stage1 fps trial st).1.global_target_score_array st.global_stage1_gop_num
          = clampTo 90 96 (trial (18 + k)).vmaf_score := by
  cases k with
  | zero =>
    exfalso
    simp only [specMarginal, Nat.add_zero, if_true] at hstop
    norm_num at hstop
  | succ k =>
    have hcost : ∀ j, j < 32 → stage1PairCost fps trial (18 + j)
        = specMarginal fps trial (18 + (j + 1)) := fun j hj =>
      stage1PairCost_eq_specMarginal fps trial (18 + j) (by omega) (hdiff j hj)
    have key := stage1Loop_stop_after fps trial k (31 - k) 18 st
      (stage1_first_not_stop fps trial 18 st hflag)
      (fun j hj => by
        rw [hcost j (by omega)]
        exact hbefore (j + 1) (by omega))
      (by
        rw [hcost k (by omega)]
        exact hstop)
    have e : 31 - k + k + 2 = 33 := by omega
    rw [e] at key
    obtain ⟨key1, key2⟩ := key
    constructor
    · simpa [stage1] using key1
    · have : (stage1 fps trial st).1.global_target_score_array
          = (stage1Loop fps trial 33 18 st).1.global_target_score_array := rfl
      rw [this, key2, Function.update_same, stage1_clamp_eq]
      rfl

theorem fallingTrial_diff (i : Nat) :
    1 / 1000000 < |(fallingTrial (18 + i + 1)).vmaf_score - (fallingTrial (18 + i)).vmaf_score| := by
  have e : (fallingTrial (18 + i + 1)).vmaf_score - (fallingTrial (18 + i)).vmaf_score = -1 := by
    simp only [fallingTrial]
    push_cast
    ring
  rw [e]
  norm_num

/-- The amended C7 on trials scoring 97, 96, 95, ... with a constant byte count:
the second trial (CRF 19) has marginal cost 0, and Stage 1 stops there and
records 96. -/
theorem stage1_stops_at_first_cheap_trial_witness :
    (stage1 25 fallingTrial (initState zeroEnv)).2 = some (18 + 1)
      ∧ (stage1 25 fallingTrial (initState zeroEnv)).1.global_target_score_array
            (initState zeroEnv).global_stage1_gop_num
          = clampTo 90 96 (fallingTrial (18 + 1)).vmaf_score :=
  stage1_stops_at_first_cheap_trial 25 fallingTrial (initState zeroEnv) 1 rfl
    (fun i _ => fallingTrial_diff i) (by norm_num)
    (fun j hj => by
      have : j = 0 := by omega
      subst this
      norm_num [specMarginal])
    (by norm_num [specMarginal, fallingTrial, stage1_bitrate])

theorem creepingTrial_pairCost (c : Nat) : stage1PairCost 25 creepingTrial c = 600 := by
  unfold stage1PairCost stage1_per_score
  have e : (creepingTrial (c + 1)).vmaf_score - (creepingTrial c).vmaf_score = 1 / 8388608 := by
    simp only [creepingTrial]
    push_cast
    ring
  rw [e, if_pos]
  left
  norm_num [abs_of_pos]

/-- C7 as stated fails: on trials whose scores rise by `2 ^ (-23)` per CRF with a
constant byte count, consecutive scores differ, the first trial has marginal
cost 600 and the second (CRF 19) has marginal cost 0, yet Stage 1 does not stop
at CRF 19 (it runs through CRF 50 without stopping) and records nothing: the
test of line 7040 replaces the quotient by 600 whenever the scores differ by at
most `1e-6`. -/
theorem stage1_stop_counterexample :
    (∀ i, i < 32 →
        (creepingTrial (18 + i + 1)).vmaf_score ≠ (creepingTrial (18 + i)).vmaf_score)
      ∧ ¬ specMarginal 25 creepingTrial 18 ≤ 400
      ∧ specMarginal 25 creepingTrial 19 ≤ 400
      ∧ (stage1 25 creepingTrial (initState zeroEnv)).2 = none
      ∧ (stage1 25 creepingTrial (initState zeroEnv)).1.global_target_score_array 0 = 0
      ∧ clampTo 90 96 (creepingTrial 19).vmaf_score = 90 := by
  have hloop : stage1Loop 25 creepingTrial (32 + 1) 18 (initState zeroEnv)
      = (stage1After 25 creepingTrial (initState zeroEnv) (18 + 32), none) :=
    stage1Loop_exhaust 25 creepingTrial 32 18 (initState zeroEnv)
      (stage1_first_not_stop 25 creepingTrial 18 (initState zeroEnv) rfl)
      (fun j _ => by
        rw [creepingTrial_pairCost]
        norm_num [target_per_score])
  refine ⟨?_, ?_, ?_, ?_, ?_, ?_⟩
  · intro i _
    simp only [creepingTrial]
    push_cast
    intro h
    linarith
  · norm_num [specMarginal]
  · norm_num [specMarginal, creepingTrial, stage1_bitrate]
  · simp only [stage1]
    rw [hloop]
  · simp only [stage1]
    rw [hloop]
    rfl
  · norm_num [clampTo, creepingTrial]

theorem saturatedTrial_pairCost (c : Nat) : stage1PairCost 25 saturatedTrial c = 600 := by
  unfold stage1PairCost stage1_per_score
  simp [saturatedTrial]

/-- When all trials score 100 the sweep of Stage 1 runs through CRF 50 without a
`break`. -/
theorem stage1Loop_saturated (st : State) (hflag : st.stage1_first_flag = true) :
    stage1Loop 25 saturatedTrial 33 18 st
      = (stage1After 25 saturatedTrial st 50, none) :=
  stage1Loop_exhaust 25 saturatedTrial 32 18 st
    (stage1_first_not_stop 25 saturatedTrial 18 st hflag)
    (fun j _ => by
      rw [saturatedTrial_pairCost]
      norm_num [target_per_score])

/-! ## What each stage leaves untouched -/

/-- The loop of Stage 0 changes nothing but `filter_descr`, `pre_vmaf_score` and
`global_unsharp_array`. -/
theorem stage0Loop_shape (env : Env) (score : Nat → ℚ) :
    ∀ (n i : Nat) (st : State), ∃ fd pre arr,
      stage0Loop env score n i st
        = { st with filter_descr := fd, pre_vmaf_score := pre, global_unsharp_array := arr } := by
  intro n
  induction n with
  | zero =>
    intro i st
    exact ⟨st.filter_descr, st.pre_vmaf_score, st.global_unsharp_array, rfl⟩
  | succ n ih =>
    intro i st
    rw [stage0Loop]
    simp only
    split_ifs with h1 h2
    · exact ⟨_, _, _, rfl⟩
    · exact ⟨_, _, _, rfl⟩
    · obtain ⟨fd, pre, arr, e⟩ := ih (i + 1)
        { st with filter_descr := some i, pre_vmaf_score := score i }
      exact ⟨fd, pre, arr, e⟩

/-- Stage 0 changes nothing but `filter_descr`, `pre_vmaf_score`,
`global_unsharp_array` and `global_decode_gop_num`, which it increments. -/
theorem stage0_shape (env : Env) (score : Nat → ℚ) (st : State) : ∃ fd pre arr,
    stage0 env score st
      = { st with
          filter_descr := fd, pre_vmaf_score := pre, global_unsharp_array := arr
          global_decode_gop_num := st.global_decode_gop_num + 1 } := by
  obtain ⟨fd, pre, arr, e⟩ := stage0Loop_shape env score 10 0 st
  refine ⟨fd, pre, arr, ?_⟩
  simp only [stage0]
  rw [e]

/-- The loop of Stage 1 changes nothing but its three local variables and
`global_target_score_array`. -/
theorem stage1Loop_shape (fps : Int) (trial : Nat → Trial) :
    ∀ (n crf : Nat) (st : State), ∃ arr pb pq flag,
      (stage1Loop fps trial n crf st).1
        = { st with
            global_target_score_array := arr, stage1_prev_bitrate := pb
            stage1_prev_vmaf_score := pq, stage1_first_flag := flag } := by
  intro n
  induction n with
  | zero =>
    intro crf st
    exact ⟨st.global_target_score_array, st.stage1_prev_bitrate, st.stage1_prev_vmaf_score,
      st.stage1_first_flag, rfl⟩
  | succ n ih =>
    intro crf st
    by_cases h1 : stage1_per_score st.stage1_first_flag (stage1_bitrate fps (trial crf))
        st.stage1_prev_bitrate (trial crf).vmaf_score st.stage1_prev_vmaf_score
        ≤ target_per_score
    · rw [stage1Loop]
      simp only [h1, if_true]
      exact ⟨_, _, _, _, rfl⟩
    · rw [stage1Loop_continue fps trial n crf st h1]
      obtain ⟨arr, pb, pq, flag, e⟩ := ih (crf + 1) (stage1After fps trial st crf)
      exact ⟨arr, pb, pq, flag, e⟩

/-- Stage 1 changes nothing but its three local variables,
`global_target_score_array` and `gop_num`; it leaves `stage1_first_flag` set. -/
theorem stage1_shape (fps : Int) (trial : Nat → Trial) (st : State) : ∃ arr pb pq,
    (stage1 fps trial st).1
      = { st with
          global_target_score_array := arr, stage1_prev_bitrate := pb
          stage1_prev_vmaf_score := pq, stage1_first_flag := true
          gop_num := st.gop_num + 1 } := by
  obtain ⟨arr, pb, pq, flag, e⟩ := stage1Loop_shape fps trial 33 18 st
  refine ⟨arr, pb, pq, ?_⟩
  simp only [stage1]
  rw [e]

/-- Stage 2 changes nothing but `global_crf_array` and the two GOP counters of
lines 7254-7255, which it increments. -/
theorem stage2_shape (score : Nat → ℚ) (st : State) : ∃ arr,
    stage2 score st
      = { st with
          global_crf_array := arr
          global_stage1_gop_num := st.global_stage1_gop_num + 1
          global_stage2_gop_num := st.global_stage2_gop_num + 1 } := by
  unfold stage2
  cases h : stage2Loop st.stage2_target_vmaf_score score 22 0 18 18 with
  | none => exact ⟨st.global_crf_array, rfl⟩
  | some r =>
    obtain ⟨a, k⟩ := r
    cases a with
    | none => exact ⟨st.global_crf_array, rfl⟩
    | some v => exact ⟨_, rfl⟩

/-- The three stages of a GOP leave the decode counters, the frame-count table
and the AQ table as they are, add one to each of the three GOP cursors, and
leave `stage1_first_flag` set and the Stage-2 target unchanged. -/
theorem processGop_shape (env : Env) (st : State) : ∃ fd pre ua ta pb pq ca,
    processGop env st
      = { st with
          filter_descr := fd, pre_vmaf_score := pre, global_unsharp_array := ua
          global_decode_gop_num := st.global_decode_gop_num + 1
          global_target_score_array := ta, stage1_prev_bitrate := pb
          stage1_prev_vmaf_score := pq, stage1_first_flag := true
          gop_num := st.gop_num + 1
          global_crf_array := ca
          global_stage1_gop_num := st.global_stage1_gop_num + 1
          global_stage2_gop_num := st.global_stage2_gop_num + 1 } := by
  obtain ⟨fd, pre, ua, e0⟩ := stage0_shape env (env.stage0_score st.global_stage1_gop_num) st
  obtain ⟨ta, pb, pq, e1⟩ := stage1_shape env.fps (env.stage1_trial st.global_stage1_gop_num)
    (stage0 env (env.stage0_score st.global_stage1_gop_num) st)
  obtain ⟨ca, e2⟩ := stage2_shape (env.stage2_score st.global_stage1_gop_num)
    (stage1 env.fps (env.stage1_trial st.global_stage1_gop_num)
      (stage0 env (env.stage0_score st.global_stage1_gop_num) st)).1
  refine ⟨fd, pre, ua, ta, pb, pq, ca, ?_⟩
  unfold processGop
  simp only
  rw [e2, e1, e0]

/-! ## Frame counting -/

theorem framesSum_succ (a : Int → Int) (n : Nat) :
    framesSum a (n + 1) = framesSum a n + a (n : Int) := by
  simp [framesSum, List.range_succ]

theorem toInt32_of_small (x : Int) (h0 : 0 ≤ x) (h1 : x < 2 ^ 31) : toInt32 x = x := by
  unfold toInt32
  omega

theorem decodeFrames_append_single (env : Env) (pre : List Frame) (f : Frame) (st : State) :
    decodeFrames env (pre ++ [f]) st = onFrame env (decodeFrames env pre st) f := by
  simp [decodeFrames, List.foldl_append]

/-! ## Stage 2 -/

theorem truncToInt_intCast (n : Int) : truncToInt (n : ℚ) = n := by
  unfold truncToInt
  split_ifs <;> simp

theorem truncToInt_natCast (n : Nat) : truncToInt (n : ℚ) = (n : Int) := by
  have h := truncToInt_intCast (n : Int)
  simpa using h

theorem le_truncToInt (n : Int) (x : ℚ) (h : (n : ℚ) ≤ x) : n ≤ truncToInt x := by
  unfold truncToInt
  split_ifs
  · exact Int.le_floor.mpr h
  · exact_mod_cast le_trans h (Int.le_ceil x)

theorem stage2Loop_next (target : ℚ) (score : Nat → ℚ) (fuel k : Nat) (crf last c1 l1 : Int)
    (hc : crf < 40) (hb : stage2Body target (score k) crf last = Stage2Step.next c1 l1) :
    stage2Loop target score (fuel + 1) k crf last = stage2Loop target score fuel (k + 1) c1 l1 := by
  rw [stage2Loop, if_pos hc]
  simp only [hb]

theorem stage2Loop_stop (target : ℚ) (score : Nat → ℚ) (fuel k : Nat) (crf last a : Int)
    (hc : crf < 40) (hb : stage2Body target (score k) crf last = Stage2Step.stop a) :
    stage2Loop target score (fuel + 1) k crf last = some (some a, k + 1) := by
  rw [stage2Loop, if_pos hc]
  simp only [hb]

theorem stage2Loop_exit (target : ℚ) (score : Nat → ℚ) (fuel k : Nat) (crf last : Int)
    (hc : ¬ crf < 40) :
    stage2Loop target score fuel k crf last = some (none, k) := by
  cases fuel with
  | zero => rw [stage2Loop, if_neg hc]
  | succ fuel => rw [stage2Loop, if_neg hc]

theorem stage2_clamp_step_of_one_le (cs : ℚ) (h : 1 ≤ cs) :
    stage2_clamp_step cs = if cs > 5 then 5 else cs := by
  unfold stage2_clamp_step
  have e1 : (if cs > 5 then (5 : ℚ) else cs) ≥ 1 := by
    split_ifs
    · norm_num
    · exact h
  have e2 : ¬ (if cs > 5 then (5 : ℚ) else cs) < -2 := by
    push_neg
    linarith
  have e3 : ¬ (if cs > 5 then (5 : ℚ) else cs) < 0 := by
    push_neg
    linarith
  simp only [if_neg e2, if_neg e3]

theorem stage2_step_up_ge (d v : ℚ) : 1 ≤ stage2_step_up d v := by
  unfold stage2_step_up
  simp only
  split_ifs with h
  · exact le_refl _
  · exact not_lt.mp h

/-- The tail of the loop body continues only when the score is not below the
target, and with a step of at least one it moves the CRF up. -/
theorem stage2Tail_next (target q : ℚ) (crf : Int) (cs : ℚ) (c1 l1 : Int)
    (h : stage2Tail target q crf cs = Stage2Step.next c1 l1) :
    ¬ q < target ∧ (1 ≤ cs → crf < c1) := by
  unfold stage2Tail at h
  simp only at h
  by_cases h40 : (crf : ℚ) + stage2_clamp_step cs > 40
  · rw [if_pos h40] at h
    exact absurd h (by simp)
  · rw [if_neg h40] at h
    by_cases hq : q < target
    · rw [if_pos hq] at h
      exact absurd h (by simp)
    · rw [if_neg hq] at h
      simp only [Stage2Step.next.injEq] at h
      refine ⟨hq, fun hcs => ?_⟩
      have hge : (1 : ℚ) ≤ stage2_clamp_step cs := by
        rw [stage2_clamp_step_of_one_le cs hcs]
        split_ifs
        · norm_num
        · exact hcs
      have := le_truncToInt (crf + 1) ((crf : ℚ) + stage2_clamp_step cs) (by
        push_cast
        linarith)
      omega

/-- A pass through the loop body that does not `break` moves the CRF up. -/
theorem stage2Body_next (target q : ℚ) (crf last c1 l1 : Int)
    (h : stage2Body target q crf last = Stage2Step.next c1 l1) : crf < c1 := by
  unfold stage2Body at h
  simp only at h
  by_cases h1 : |truncToInt (q - target)| < 1 ∧ q - target < 2 / 10
  · rw [if_pos h1] at h
    exact absurd h (by simp)
  · rw [if_neg h1] at h
    by_cases h2 : q - target > 0
    · rw [if_pos h2] at h
      by_cases h3 : crf < last
      · rw [if_pos h3] at h
        exact absurd h (by simp)
      · rw [if_neg h3] at h
        exact (stage2Tail_next _ _ _ _ _ _ h).2 (stage2_step_up_ge _ _)
    · rw [if_neg h2] at h
      by_cases h3 : crf = last + 1 ∨ crf = 18 ∨ crf = 18 ∨ crf = last - 1
      · rw [if_pos h3] at h
        exact absurd h (by simp)
      · rw [if_neg h3] at h
        exfalso
        have hq : q - target = 0 := by
          have := (stage2Tail_next _ _ _ _ _ _ h).1
          push_neg at this h2
          linarith
        apply h1
        rw [hq]
        have : truncToInt (0 : ℚ) = 0 := by exact_mod_cast truncToInt_intCast 0
        rw [this]
        norm_num

/-- The loop of Stage 2 ends within `40 - crf` trials: with that much fuel the
embedding returns a result. -/
theorem stage2Loop_fuel (target : ℚ) (score : Nat → ℚ) :
    ∀ (fuel k : Nat) (crf last : Int), (40 - crf).toNat ≤ fuel →
      ∃ r, stage2Loop target score fuel k crf last = some r := by
  intro fuel
  induction fuel with
  | zero =>
    intro k crf last hf
    exact ⟨_, stage2Loop_exit target score 0 k crf last (by omega)⟩
  | succ fuel ih =>
    intro k crf last hf
    by_cases hc : crf < 40
    · cases hb : stage2Body target (score k) crf last with
      | stop a => exact ⟨_, stage2Loop_stop target score fuel k crf last a hc hb⟩
      | next c1 l1 =>
        rw [stage2Loop_next target score fuel k crf last c1 l1 hc hb]
        have := stage2Body_next _ _ _ _ _ _ hb
        exact ih (k + 1) c1 l1 (by omega)
    · exact ⟨_, stage2Loop_exit target score (fuel + 1) k crf last hc⟩

/-- The 22 trials that `stage2` grants the loop started at CRF 18 are enough. -/
theorem stage2Loop_fuel_22 (target : ℚ) (score : Nat → ℚ) :
    ∃ r, stage2Loop target score 22 0 18 18 = some r :=
  stage2Loop_fuel target score 22 0 18 18 (by decide)

theorem truncToInt_eq (x : ℚ) (n : Int) (h : x = (n : ℚ)) : truncToInt x = n := by
  rw [h]
  exact truncToInt_intCast n

theorem truncToInt_ofNat (n : Nat) [n.AtLeastTwo] :
    truncToInt (OfNat.ofNat n : ℚ) = (OfNat.ofNat n : Int) := by
  have := truncToInt_natCast n
  simpa using this

/-! ## Projections of a whole GOP and of a one-frame run -/

theorem stage0_keeps (env : Env) (score : Nat → ℚ) (st : State) :
    (stage0 env score st).stage1_first_flag = st.stage1_first_flag
      ∧ (stage0 env score st).global_stage1_gop_num = st.global_stage1_gop_num
      ∧ (stage0 env score st).global_stage2_gop_num = st.global_stage2_gop_num
      ∧ (stage0 env score st).global_target_score_array = st.global_target_score_array
      ∧ (stage0 env score st).global_crf_array = st.global_crf_array
      ∧ (stage0 env score st).stage2_target_vmaf_score = st.stage2_target_vmaf_score := by
  obtain ⟨fd, pre, arr, e⟩ := stage0_shape env score st
  rw [e]
  exact ⟨rfl, rfl, rfl, rfl, rfl, rfl⟩

theorem stage1_keeps (fps : Int) (trial : Nat → Trial) (st : State) :
    (stage1 fps trial st).1.global_stage2_gop_num = st.global_stage2_gop_num
      ∧ (stage1 fps trial st).1.global_crf_array = st.global_crf_array
      ∧ (stage1 fps trial st).1.stage2_target_vmaf_score = st.stage2_target_vmaf_score
      ∧ (stage1 fps trial st).1.global_unsharp_array = st.global_unsharp_array
      ∧ (stage1 fps trial st).1.filter_descr = st.filter_descr
      ∧ (stage1 fps trial st).1.pre_vmaf_score = st.pre_vmaf_score := by
  obtain ⟨arr, pb, pq, e⟩ := stage1_shape fps trial st
  rw [e]
  exact ⟨rfl, rfl, rfl, rfl, rfl, rfl⟩

theorem stage2_keeps (score : Nat → ℚ) (st : State) :
    (stage2 score st).global_target_score_array = st.global_target_score_array
      ∧ (stage2 score st).global_unsharp_array = st.global_unsharp_array
      ∧ (stage2 score st).filter_descr = st.filter_descr
      ∧ (stage2 score st).pre_vmaf_score = st.pre_vmaf_score
      ∧ (stage2 score st).stage2_target_vmaf_score = st.stage2_target_vmaf_score := by
  obtain ⟨arr, e⟩ := stage2_shape score st
  rw [e]
  exact ⟨rfl, rfl, rfl, rfl, rfl⟩

/-- The target-quality table after a GOP is the one Stage 1 leaves. -/
theorem processGop_target (env : Env) (st : State) :
    (processGop env st).global_target_score_array
      = (stage1 env.fps (env.stage1_trial st.global_stage1_gop_num)
          (stage0 env (env.stage0_score st.global_stage1_gop_num) st)).1.global_target_score_array := by
  unfold processGop
  exact (stage2_keeps _ _).1

/-- The unsharpen table, the filter description and `pre_vmaf_score` after a GOP
are the ones Stage 0 leaves. -/
theorem processGop_stage0 (env : Env) (st : State) :
    (processGop env st).global_unsharp_array
        = (stage0 env (env.stage0_score st.global_stage1_gop_num) st).global_unsharp_array
      ∧ (processGop env st).filter_descr
        = (stage0 env (env.stage0_score st.global_stage1_gop_num) st).filter_descr
      ∧ (processGop env st).pre_vmaf_score
        = (stage0 env (env.stage0_score st.global_stage1_gop_num) st).pre_vmaf_score := by
  unfold processGop
  simp only
  refine ⟨?_, ?_, ?_⟩
  · rw [(stage2_keeps _ _).2.1, (stage1_keeps _ _ _).2.2.2.1]
  · rw [(stage2_keeps _ _).2.2.1, (stage1_keeps _ _ _).2.2.2.2.1]
  · rw [(stage2_keeps _ _).2.2.2.1, (stage1_keeps _ _ _).2.2.2.2.2]

/-- The CRF table after Stage 2: the cell of the GOP receives the value the loop
stores, if it stores one. -/
theorem stage2_crf (score : Nat → ℚ) (st : State) :
    (stage2 score st).global_crf_array
      = match stage2Loop st.stage2_target_vmaf_score score 22 0 18 18 with
        | some (some assigned, _) =>
          Function.update st.global_crf_array st.global_stage2_gop_num (assigned : ℚ)
        | _ => st.global_crf_array := by
  unfold stage2
  cases stage2Loop st.stage2_target_vmaf_score score 22 0 18 18 with
  | none => rfl
  | some r =>
    obtain ⟨a, k⟩ := r
    cases a with
    | none => rfl
    | some v => rfl

/-- The CRF table after a GOP: the cell of the GOP receives the value the loop
of Stage 2, run against `stage2_target_vmaf_score`, stores, if it stores one. -/
theorem processGop_crf (env : Env) (st : State) :
    (processGop env st).global_crf_array
      = match stage2Loop st.stage2_target_vmaf_score
            (env.stage2_score st.global_stage1_gop_num) 22 0 18 18 with
        | some (some assigned, _) =>
          Function.update st.global_crf_array st.global_stage2_gop_num (assigned : ℚ)
        | _ => st.global_crf_array := by
  unfold processGop
  simp only
  obtain ⟨_, _, h02, _, h04, h05⟩ :=
    stage0_keeps env (env.stage0_score st.global_stage1_gop_num) st
  obtain ⟨h10, h11, h12, _, _, _⟩ := stage1_keeps env.fps
    (env.stage1_trial st.global_stage1_gop_num)
    (stage0 env (env.stage0_score st.global_stage1_gop_num) st)
  rw [stage2_crf, h12, h05, h11, h04, h10, h02]

/-- No step of the program assigns `stage2_target_vmaf_score`. -/
theorem processGop_stage2_target (env : Env) (st : State) :
    (processGop env st).stage2_target_vmaf_score = st.stage2_target_vmaf_score := by
  obtain ⟨fd, pre, ua, ta, pb, pq, ca, e⟩ := processGop_shape env st
  rw [e]

/-- A run on a single frame: the frame is counted, the end of input closes the
only GOP, and the three stages run once. -/
theorem EaglePreProcess_single (env : Env) (f : Frame) :
    EaglePreProcess env [f]
      = processGop env (closeAtEof env (countFrame f (initState env))) := by
  unfold EaglePreProcess decodeFrames
  simp [onFrame, initState, MIN_NUM_OF_PER_GOP]

/-! ## Runs on a single frame -/

theorem single_state_fields (env : Env) (f : Frame) :
    (closeAtEof env (countFrame f (initState env))).global_stage1_gop_num = 0
      ∧ (closeAtEof env (countFrame f (initState env))).global_stage2_gop_num = 0
      ∧ (closeAtEof env (countFrame f (initState env))).stage1_first_flag = true
      ∧ (closeAtEof env (countFrame f (initState env))).stage2_target_vmaf_score = 0
      ∧ (closeAtEof env (countFrame f (initState env))).global_target_score_array = (fun _ => 0)
      ∧ (closeAtEof env (countFrame f (initState env))).global_crf_array = (fun _ => 0) :=
  ⟨rfl, rfl, rfl, rfl, rfl, rfl⟩

theorem fallingTrial_pairCost_18 :
    stage1PairCost 25 fallingTrial 18 ≤ target_per_score := by
  norm_num [stage1PairCost, stage1_per_score, fallingTrial, stage1_bitrate, target_per_score]

theorem constant96_stage2 :
    stage2Loop 0 (fun _ => 96) 22 0 18 18 = some (some 39, 5) := by
  have b0 : stage2Body 0 96 18 18 = Stage2Step.next 23 18 := by
    simp [stage2Body, stage2Tail, stage2_step_vmaf, stage2_step_up, stage2_clamp_step,
      truncToInt_ofNat]
    norm_num
    exact truncToInt_eq _ 23 (by norm_num)
  have b1 : stage2Body 0 96 23 18 = Stage2Step.next 28 23 := by
    simp [stage2Body, stage2Tail, stage2_step_vmaf, stage2_step_up, stage2_clamp_step,
      truncToInt_ofNat]
    norm_num
    exact truncToInt_eq _ 28 (by norm_num)
  have b2 : stage2Body 0 96 28 23 = Stage2Step.next 33 28 := by
    simp [stage2Body, stage2Tail, stage2_step_vmaf, stage2_step_up, stage2_clamp_step,
      truncToInt_ofNat]
    norm_num
    exact truncToInt_eq _ 33 (by norm_num)
  have b3 : stage2Body 0 96 33 28 = Stage2Step.next 38 33 := by
    simp [stage2Body, stage2Tail, stage2_step_vmaf, stage2_step_up, stage2_clamp_step,
      truncToInt_ofNat]
    norm_num
    exact truncToInt_eq _ 38 (by norm_num)
  have b4 : stage2Body 0 96 38 33 = Stage2Step.stop 39 := by
    simp [stage2Body, stage2Tail, stage2_step_vmaf, stage2_step_up, stage2_clamp_step,
      truncToInt_ofNat]
    norm_num
  rw [stage2Loop_next 0 (fun _ => 96) 21 0 18 18 23 18 (by norm_num) b0]
  rw [stage2Loop_next 0 (fun _ => 96) 20 1 23 18 28 23 (by norm_num) b1]
  rw [stage2Loop_next 0 (fun _ => 96) 19 2 28 23 33 28 (by norm_num) b2]
  rw [stage2Loop_next 0 (fun _ => 96) 18 3 33 28 38 33 (by norm_num) b3]
  rw [stage2Loop_stop 0 (fun _ => 96) 17 4 38 33 39 (by norm_num) b4]

theorem constant96_stage2_on_target :
    stage2Loop 96 (fun _ => 96) 22 0 18 18 = some (some 19, 1) := by
  have b0 : stage2Body 96 96 18 18 = Stage2Step.stop 19 := by
    simp [stage2Body, truncToInt_ofNat, truncToInt]
  rw [stage2Loop_stop 96 (fun _ => 96) 21 0 18 18 19 (by norm_num) b0]

/-- C1, the code at a failing input: on a one-frame input whose Stage-1 trials
score 97, 96, ... (constant byte count) and whose Stage-2 trials all score 96,
Stage 1 records the target 96 for GOP 0, but the target Stage 2 subtracts,
`stage2_target_vmaf_score`, is 0: the search walks up to CRF 38 and stores 39,
where a search against the recorded target 96 stops at its first trial and
stores 19. -/
theorem stage2_target_is_not_the_recorded_one :
    (EaglePreProcess targetEnv [⟨true, 0⟩]).global_target_score_array 0 = 96
      ∧ (EaglePreProcess targetEnv [⟨true, 0⟩]).stage2_target_vmaf_score = 0
      ∧ (EaglePreProcess targetEnv [⟨true, 0⟩]).global_crf_array 0 = 39
      ∧ stage2Loop 96 (targetEnv.stage2_score 0) 22 0 18 18 = some (some 19, 1) := by
  obtain ⟨g1, g2, hflag, ht, hta, hca⟩ := single_state_fields targetEnv ⟨true, 0⟩
  refine ⟨?_, ?_, ?_, ?_⟩
  · rw [EaglePreProcess_single, processGop_target]
    obtain ⟨k0, k1, _, k3, _, _⟩ := stage0_keeps targetEnv
      (targetEnv.stage0_score
        (closeAtEof targetEnv (countFrame ⟨true, 0⟩ (initState targetEnv))).global_stage1_gop_num)
      (closeAtEof targetEnv (countFrame ⟨true, 0⟩ (initState targetEnv)))
    have key := stage1Loop_stop_after 25 fallingTrial 0 31 18 _
      (stage1_first_not_stop 25 fallingTrial 18 _ (k0.trans hflag))
      (fun j hj => absurd hj (Nat.not_lt_zero j))
      fallingTrial_pairCost_18
    have e : (stage1 targetEnv.fps
        (targetEnv.stage1_trial
          (closeAtEof targetEnv (countFrame ⟨true, 0⟩ (initState targetEnv))).global_stage1_gop_num)
        (stage0 targetEnv
          (targetEnv.stage0_score
            (closeAtEof targetEnv
              (countFrame ⟨true, 0⟩ (initState targetEnv))).global_stage1_gop_num)
          (closeAtEof targetEnv
            (countFrame ⟨true, 0⟩ (initState targetEnv))))).1.global_target_score_array
        = (stage1Loop 25 fallingTrial (31 + 0 + 2) 18
            (stage0 targetEnv
              (targetEnv.stage0_score
                (closeAtEof targetEnv
                  (countFrame ⟨true, 0⟩ (initState targetEnv))).global_stage1_gop_num)
              (closeAtEof targetEnv
                (countFrame ⟨true, 0⟩ (initState targetEnv))))).1.global_target_score_array :=
      rfl
    rw [e, key.2, k1, g1, Function.update_same]
    norm_num [stage1_clamp, fallingTrial]
  · rw [EaglePreProcess_single, processGop_stage2_target, ht]
  · rw [EaglePreProcess_single, processGop_crf, ht, g1, g2, hca]
    have e : targetEnv.stage2_score 0 = fun _ => 96 := rfl
    rw [e, constant96_stage2]
    simp
  · exact constant96_stage2_on_target

theorem landing_stage2 :
    stage2Loop 0 (fun k => if k = 0 then 2 else 100) 22 0 18 18 = some (none, 5) := by
  have b0 : stage2Body 0 2 18 18 = Stage2Step.next 20 18 := by
    simp [stage2Body, stage2Tail, stage2_step_vmaf, stage2_step_up, stage2_clamp_step,
      truncToInt_ofNat]
    norm_num
    exact truncToInt_eq _ 20 (by norm_num)
  have b1 : stage2Body 0 100 20 18 = Stage2Step.next 25 20 := by
    simp [stage2Body, stage2Tail, stage2_step_vmaf, stage2_step_up, stage2_clamp_step,
      truncToInt_ofNat]
    norm_num
    exact truncToInt_eq _ 25 (by norm_num)
  have b2 : stage2Body 0 100 25 20 = Stage2Step.next 30 25 := by
    simp [stage2Body, stage2Tail, stage2_step_vmaf, stage2_step_up, stage2_clamp_step,
      truncToInt_ofNat]
    norm_num
    exact truncToInt_eq _ 30 (by norm_num)
  have b3 : stage2Body 0 100 30 25 = Stage2Step.next 35 30 := by
    simp [stage2Body, stage2Tail, stage2_step_vmaf, stage2_step_up, stage2_clamp_step,
      truncToInt_ofNat]
    norm_num
    exact truncToInt_eq _ 35 (by norm_num)
  have b4 : stage2Body 0 100 35 30 = Stage2Step.next 40 35 := by
    simp [stage2Body, stage2Tail, stage2_step_vmaf, stage2_step_up, stage2_clamp_step,
      truncToInt_ofNat]
    norm_num
    exact truncToInt_eq _ 40 (by norm_num)
  rw [stage2Loop_next 0 _ 21 0 18 18 20 18 (by norm_num) (by simpa using b0)]
  rw [stage2Loop_next 0 _ 20 1 20 18 25 20 (by norm_num) (by simpa using b1)]
  rw [stage2Loop_next 0 _ 19 2 25 20 30 25 (by norm_num) (by simpa using b2)]
  rw [stage2Loop_next 0 _ 18 3 30 25 35 30 (by norm_num) (by simpa using b3)]
  rw [stage2Loop_next 0 _ 17 4 35 30 40 35 (by norm_num) (by simpa using b4)]
  rw [stage2Loop_exit 0 _ 17 5 40 35 (by norm_num)]

/-- C2, the code at a failing input: on a one-frame input whose Stage-2 trials
score 2, 100, 100, 100, 100, the trial CRF goes 18, 20, 25, 30, 35 and then
lands on 40 (line 7228 lets `35 + 5 > 40` fail), the loop condition `crf < 40`
ends the loop without any store, and the cell of `global_crf_array` for the GOP
keeps its initial value 0.0, which is outside `[19, 41]`. -/
theorem stage2_landing_on_40_stores_nothing :
    stage2Loop (initState landingEnv).stage2_target_vmaf_score
        (landingEnv.stage2_score 0) 22 0 18 18 = some (none, 5)
      ∧ (EaglePreProcess landingEnv [⟨true, 0⟩]).global_crf_array 0 = 0
      ∧ ¬ ((19 : ℚ) ≤ 0 ∧ (0 : ℚ) ≤ 41) := by
  obtain ⟨g1, g2, hflag, ht, hta, hca⟩ := single_state_fields landingEnv ⟨true, 0⟩
  have e : landingEnv.stage2_score 0 = fun k => if k = 0 then 2 else 100 := rfl
  refine ⟨?_, ?_, ?_⟩
  · rw [e]
    exact landing_stage2
  · rw [EaglePreProcess_single, processGop_crf, ht, g1, g2, hca, e, landing_stage2]
  · norm_num

/-- C3, the code at a failing input: on a one-frame input whose 33 Stage-1 trials
all score 100 (the byte count falling with the CRF), every marginal cost is 600,
the sweep runs through CRF 50 without a `break`, and the cell of
`global_target_score_array` for the GOP keeps its initial value 0.0, which is
outside `[90, 96]`. -/
theorem stage1_saturated_records_nothing :
    (stage1 25 saturatedTrial
        (stage0 saturatedEnv (saturatedEnv.stage0_score 0)
          (closeAtEof saturatedEnv (countFrame ⟨true, 0⟩ (initState saturatedEnv))))).2 = none
      ∧ (EaglePreProcess saturatedEnv [⟨true, 0⟩]).global_target_score_array 0 = 0
      ∧ ¬ ((90 : ℚ) ≤ 0 ∧ (0 : ℚ) ≤ 96) := by
  obtain ⟨g1, g2, hflag, ht, hta, hca⟩ := single_state_fields saturatedEnv ⟨true, 0⟩
  obtain ⟨k0, k1, _, k3, _, _⟩ := stage0_keeps saturatedEnv (saturatedEnv.stage0_score 0)
    (closeAtEof saturatedEnv (countFrame ⟨true, 0⟩ (initState saturatedEnv)))
  have hloop := stage1Loop_saturated
    (stage0 saturatedEnv (saturatedEnv.stage0_score 0)
      (closeAtEof saturatedEnv (countFrame ⟨true, 0⟩ (initState saturatedEnv))))
    (k0.trans hflag)
  refine ⟨?_, ?_, ?_⟩
  · simp only [stage1]
    rw [hloop]
  · rw [EaglePreProcess_single, processGop_target, g1]
    have e : saturatedEnv.stage1_trial 0 = saturatedTrial := rfl
    have e2 : saturatedEnv.fps = 25 := rfl
    rw [e, e2]
    simp only [stage1]
    rw [hloop]
    simp only [stage1After]
    rw [k3, hta]
  · norm_num

/-! ## Stage 0 -/

theorem stage0Loop_continue (env : Env) (score : Nat → ℚ) (n i : Nat) (st : State)
    (ha : ¬ score i < st.pre_vmaf_score)
    (hb : ¬ unsharp env i > st.global_unsharp_array (st.global_decode_gop_num - 1)) :
    stage0Loop env score (n + 1) i st
      = stage0Loop env score n (i + 1)
          { st with filter_descr := some i, pre_vmaf_score := score i } := by
  rw [stage0Loop]
  simp only [ha, hb, if_false]

theorem stage0Loop_stop_a (env : Env) (score : Nat → ℚ) (n i : Nat) (st : State)
    (ha : score i < st.pre_vmaf_score) :
    stage0Loop env score (n + 1) i st
      = { st with
          filter_descr := some i
          global_unsharp_array :=
            Function.update st.global_unsharp_array st.global_decode_gop_num
              (unsharp env ((i : Int) - 1)) } := by
  rw [stage0Loop]
  simp only [ha, if_true]

theorem stage0Loop_stop_b (env : Env) (score : Nat → ℚ) (n i : Nat) (st : State)
    (ha : ¬ score i < st.pre_vmaf_score)
    (hb : unsharp env i > st.global_unsharp_array (st.global_decode_gop_num - 1)) :
    stage0Loop env score (n + 1) i st = { st with filter_descr := some i } := by
  rw [stage0Loop]
  simp only [ha, hb, if_false, if_true]

/-- While neither rule holds, the loop of Stage 0 moves on. -/
theorem stage0Loop_run (env : Env) (score : Nat → ℚ) (st : State) :
    ∀ (j n : Nat),
      (∀ l, l < j → ¬ stage0RuleA score st l ∧ ¬ stage0RuleB env st l) →
      stage0Loop env score (n + j) 0 st = stage0Loop env score n j (stage0At score st j) := by
  intro j
  induction j with
  | zero =>
    intro n _
    rfl
  | succ j ih =>
    intro n h
    have e : n + (j + 1) = (n + 1) + j := by omega
    rw [e, ih (n + 1) (fun l hl => h l (by omega))]
    obtain ⟨ha, hb⟩ := h j (by omega)
    have hb2 : ¬ unsharp env j > (stage0At score st j).global_unsharp_array
        ((stage0At score st j).global_decode_gop_num - 1) := by
      cases j with
      | zero => exact hb
      | succ j => exact hb
    rw [stage0Loop_continue env score n j (stage0At score st j) ha hb2]
    cases j with
    | zero => rfl
    | succ j => rfl

/-- The loop of Stage 0 stops in the first iteration in which one of its two
rules holds, with rule (a) tested first. -/
theorem stage0Loop_first_stop (env : Env) (score : Nat → ℚ) (st : State) (k : Nat)
    (hk : k < 10)
    (hbefore : ∀ l, l < k → ¬ stage0RuleA score st l ∧ ¬ stage0RuleB env st l) :
    (stage0RuleA score st k →
        stage0Loop env score 10 0 st
          = { st with
              filter_descr := some k
              pre_vmaf_score := (stage0At score st k).pre_vmaf_score
              global_unsharp_array :=
                Function.update st.global_unsharp_array st.global_decode_gop_num
                  (unsharp env ((k : Int) - 1)) })
      ∧ (¬ stage0RuleA score st k → stage0RuleB env st k →
        stage0Loop env score 10 0 st
          = { st with
              filter_descr := some k
              pre_vmaf_score := (stage0At score st k).pre_vmaf_score }) := by
  have e : 10 = (9 - k + 1) + k := by omega
  have hrun := stage0Loop_run env score st k (9 - k + 1) hbefore
  rw [← e] at hrun
  constructor
  · intro ha
    rw [hrun, stage0Loop_stop_a env score (9 - k) k (stage0At score st k) ha]
    cases k with
    | zero => rfl
    | succ k => rfl
  · intro ha hb
    have hb2 : unsharp env k > (stage0At score st k).global_unsharp_array
        ((stage0At score st k).global_decode_gop_num - 1) := by
      cases k with
      | zero => exact hb
      | succ k => exact hb
    rw [hrun, stage0Loop_stop_b env score (9 - k) k (stage0At score st k) ha hb2]
    cases k with
    | zero => rfl
    | succ k => rfl

theorem stage0_unsharp_array (env : Env) (score : Nat → ℚ) (st : State) :
    (stage0 env score st).global_unsharp_array
      = (stage0Loop env score 10 0 st).global_unsharp_array := rfl

theorem stage0_filter_descr (env : Env) (score : Nat → ℚ) (st : State) :
    (stage0 env score st).filter_descr = (stage0Loop env score 10 0 st).filter_descr := rfl

/-- The state in which the stages of the only GOP of a one-frame input start. -/
theorem single_unsharp_fields (env : Env) (f : Frame) :
    (closeAtEof env (countFrame f (initState env))).global_decode_gop_num = 1
      ∧ (closeAtEof env (countFrame f (initState env))).pre_vmaf_score = 0
      ∧ (closeAtEof env (countFrame f (initState env))).global_unsharp_array
          = Function.update env.unsharp_init 0
              (get_unsharp (pixelSharpness env (countFrame f (initState env)))) :=
  ⟨rfl, rfl, rfl⟩

theorem pixelSharpness_single (s : Int) :
    pixelSharpness zeroEnv (countFrame ⟨true, s⟩ (initState zeroEnv)) = (s : ℚ) / 256 := by
  simp only [pixelSharpness, countFrame, initState, zeroEnv]
  push_cast
  ring

/-- With constant scores 0 and 0 carried in `pre_vmaf_score`, rule (a) holds in
no iteration. -/
theorem zero_scores_no_rule_a (st : State) (hp : st.pre_vmaf_score = 0) :
    ∀ l, ¬ stage0RuleA (zeroEnv.stage0_score 0) st l := by
  intro l
  unfold stage0RuleA
  cases l with
  | zero =>
    simp only [stage0At]
    rw [hp]
    simp [zeroEnv]
  | succ l => simp [stage0At, zeroEnv]

/-- A one-frame input of per-pixel sharpness 1 with constant Stage-0 scores: the
hint is 0.8, rule (a) never holds, rule (b) first holds at grid index 9, the loop
stops there and leaves the table as the sampler wrote it. -/
theorem sharp_single_run :
    (∀ l, ¬ stage0RuleA (zeroEnv.stage0_score 0)
        (closeAtEof zeroEnv (countFrame ⟨true, 256⟩ (initState zeroEnv))) l)
      ∧ (∀ l, l < 9 → ¬ stage0RuleB zeroEnv
        (closeAtEof zeroEnv (countFrame ⟨true, 256⟩ (initState zeroEnv))) l)
      ∧ stage0RuleB zeroEnv (closeAtEof zeroEnv (countFrame ⟨true, 256⟩ (initState zeroEnv))) 9
      ∧ (EaglePreProcess zeroEnv [⟨true, 256⟩]).filter_descr = some 9
      ∧ (EaglePreProcess zeroEnv [⟨true, 256⟩]).global_unsharp_array
          = Function.update zeroEnv.unsharp_init 0 (8 / 10) := by
  obtain ⟨hg, hp, hu⟩ := single_unsharp_fields zeroEnv ⟨true, 256⟩
  have hs : get_unsharp (pixelSharpness zeroEnv (countFrame ⟨true, 256⟩ (initState zeroEnv)))
      = 8 / 10 := by
    rw [pixelSharpness_single]
    norm_num [get_unsharp]
  rw [hs] at hu
  have hA : ∀ l, ¬ stage0RuleA (zeroEnv.stage0_score 0)
      (closeAtEof zeroEnv (countFrame ⟨true, 256⟩ (initState zeroEnv))) l :=
    zero_scores_no_rule_a _ hp
  have hBval : ∀ l : Nat, stage0RuleB zeroEnv
      (closeAtEof zeroEnv (countFrame ⟨true, 256⟩ (initState zeroEnv))) l
      ↔ unsharp zeroEnv l > 8 / 10 := by
    intro l
    unfold stage0RuleB
    rw [hg, hu]
    simp
  have hB : ∀ l, l < 9 → ¬ stage0RuleB zeroEnv
      (closeAtEof zeroEnv (countFrame ⟨true, 256⟩ (initState zeroEnv))) l := by
    intro l hl
    rw [hBval]
    interval_cases l <;> norm_num [unsharp]
  have hB9 : stage0RuleB zeroEnv
      (closeAtEof zeroEnv (countFrame ⟨true, 256⟩ (initState zeroEnv))) 9 := by
    rw [hBval]
    norm_num [unsharp]
  have hstop := (stage0Loop_first_stop zeroEnv (zeroEnv.stage0_score 0)
    (closeAtEof zeroEnv (countFrame ⟨true, 256⟩ (initState zeroEnv))) 9 (by norm_num)
    (fun l hl => ⟨hA l, hB l hl⟩)).2 (hA 9) hB9
  have e : (closeAtEof zeroEnv
      (countFrame ⟨true, 256⟩ (initState zeroEnv))).global_stage1_gop_num = 0 := rfl
  refine ⟨hA, hB, hB9, ?_, ?_⟩
  · rw [EaglePreProcess_single, (processGop_stage0 _ _).2.1, stage0_filter_descr, e, hstop]
  · rw [EaglePreProcess_single, (processGop_stage0 _ _).1, stage0_unsharp_array, e, hstop]
    exact hu

theorem onFrame_not_key (env : Env) (st : State) (s : Int) :
    onFrame env st ⟨false, s⟩ = countFrame ⟨false, s⟩ st := by
  simp [onFrame]

/-- Frames that are not keyframes are only counted. -/
theorem decodeFrames_replicate (env : Env) (s : Int) :
    ∀ (n : Nat) (st : State),
      decodeFrames env (List.replicate n ⟨false, s⟩) st
        = { st with
            total_sharpness := st.total_sharpness + (n : Int) * s
            dec_frame_num := st.dec_frame_num + (n : Int) } := by
  intro n
  induction n with
  | zero =>
    intro st
    simp [decodeFrames]
  | succ n ih =>
    intro st
    have e : decodeFrames env (List.replicate (n + 1) ⟨false, s⟩) st
        = decodeFrames env (List.replicate n ⟨false, s⟩) (onFrame env st ⟨false, s⟩) := by
      simp [decodeFrames, List.replicate_succ]
    rw [e, ih, onFrame_not_key]
    simp only [countFrame]
    congr 1
    · push_cast
      ring
    · push_cast
      ring

theorem decodeFrames_300 (env : Env) :
    decodeFrames env sharpGop (initState env)
      = { initState env with total_sharpness := 300 * 256, dec_frame_num := 300 } := by
  have e : decodeFrames env sharpGop (initState env)
      = decodeFrames env (List.replicate 299 ⟨false, 256⟩)
          (onFrame env (initState env) ⟨true, 256⟩) := by
    unfold sharpGop decodeFrames
    rw [List.foldl_cons]
  have e2 : onFrame env (initState env) ⟨true, 256⟩ = countFrame ⟨true, 256⟩ (initState env) := by
    simp [onFrame, initState, MIN_NUM_OF_PER_GOP]
  rw [e, e2, decodeFrames_replicate]
  simp [initState, countFrame]

theorem sharp_keyframe_state :
    (closeAtKeyframe zeroEnv
        (decodeFrames zeroEnv sharpGop
          (initState zeroEnv))).global_decode_gop_num = 0
      ∧ (closeAtKeyframe zeroEnv
        (decodeFrames zeroEnv sharpGop
          (initState zeroEnv))).global_stage1_gop_num = 0
      ∧ (closeAtKeyframe zeroEnv
        (decodeFrames zeroEnv sharpGop
          (initState zeroEnv))).pre_vmaf_score = 0
      ∧ (closeAtKeyframe zeroEnv
        (decodeFrames zeroEnv sharpGop
          (initState zeroEnv))).global_unsharp_array
          = Function.update zeroEnv.unsharp_init 0 (8 / 10) := by
  rw [decodeFrames_300]
  refine ⟨rfl, rfl, rfl, ?_⟩
  simp only [closeAtKeyframe, pixelSharpness, initState, zeroEnv]
  norm_num [get_unsharp]

/-- C9, the code at a failing input: a keyframe and 299 further frames, all of
per-pixel sharpness 1, followed by a second keyframe; constant Stage-0 scores,
zero in the cell before the table. The
record of a GOP closed by a keyframe is written at `global_decode_gop_num`
without the increment (line 6800), so the cell rule (b) reads, at
`global_decode_gop_num - 1`, is the one it held before the GOP was closed: for
GOP 0 it lies at offset -1, outside the table. The GOP's own hint
`get_unsharp 1 = 0.8` sits at offset 0, and Stage 0 stops at grid index 1, where
the same GOP closed by end of input (line 6880 increments) stops at index 9. -/
theorem keyframe_gop_hint_is_not_its_own :
    (∀ (env : Env) (st : State),
        (closeAtKeyframe env st).global_unsharp_array
            ((closeAtKeyframe env st).global_decode_gop_num - 1)
          = st.global_unsharp_array (st.global_decode_gop_num - 1))
      ∧ (closeAtKeyframe zeroEnv
          (decodeFrames zeroEnv sharpGop
            (initState zeroEnv))).global_decode_gop_num - 1 = -1
      ∧ get_unsharp (pixelSharpness zeroEnv
          (decodeFrames zeroEnv sharpGop (initState zeroEnv)))
          = 8 / 10
      ∧ (decodeFrames zeroEnv sharpFrames (initState zeroEnv)).global_unsharp_array 0 = 8 / 10
      ∧ (decodeFrames zeroEnv sharpFrames (initState zeroEnv)).filter_descr = some 1
      ∧ (EaglePreProcess zeroEnv [⟨true, 256⟩]).filter_descr = some 9 := by
  obtain ⟨hg, hg1, hp, hu⟩ := sharp_keyframe_state
  have hA : ∀ l, ¬ stage0RuleA (zeroEnv.stage0_score 0)
      (closeAtKeyframe zeroEnv
        (decodeFrames zeroEnv sharpGop (initState zeroEnv))) l :=
    zero_scores_no_rule_a _ hp
  have hBval : ∀ l : Nat, stage0RuleB zeroEnv
      (closeAtKeyframe zeroEnv
        (decodeFrames zeroEnv sharpGop (initState zeroEnv))) l
      ↔ unsharp zeroEnv l > 0 := by
    intro l
    unfold stage0RuleB
    rw [hg, hu]
    simp [zeroEnv]
  have hstop := (stage0Loop_first_stop zeroEnv (zeroEnv.stage0_score 0)
    (closeAtKeyframe zeroEnv
      (decodeFrames zeroEnv sharpGop (initState zeroEnv)))
    1 (by norm_num)
    (fun l hl => by
      have : l = 0 := by omega
      subst this
      refine ⟨hA 0, ?_⟩
      rw [hBval]
      norm_num [unsharp])).2 (hA 1) (by
      rw [hBval]
      norm_num [unsharp])
  have hrun : decodeFrames zeroEnv sharpFrames (initState zeroEnv)
      = countFrame ⟨true, 256⟩ (processGop zeroEnv (closeAtKeyframe zeroEnv
          (decodeFrames zeroEnv sharpGop (initState zeroEnv)))) := by
    unfold sharpFrames
    rw [decodeFrames_append_single]
    unfold onFrame
    rw [if_pos]
    refine ⟨rfl, ?_⟩
    rw [decodeFrames_300]
    simp [MIN_NUM_OF_PER_GOP]
  refine ⟨fun env st => ?_, ?_, ?_, ?_, ?_, sharp_single_run.2.2.2.1⟩
  · simp only [closeAtKeyframe]
    rw [Function.update_noteq]
    omega
  · rw [hg]
    norm_num
  · rw [decodeFrames_300]
    simp only [pixelSharpness, initState, zeroEnv]
    norm_num [get_unsharp]
  · rw [hrun]
    have e : (countFrame ⟨true, 256⟩ (processGop zeroEnv (closeAtKeyframe zeroEnv
        (decodeFrames zeroEnv sharpGop
          (initState zeroEnv))))).global_unsharp_array
        = (processGop zeroEnv (closeAtKeyframe zeroEnv
        (decodeFrames zeroEnv sharpGop
          (initState zeroEnv)))).global_unsharp_array := rfl
    rw [e, (processGop_stage0 _ _).1, stage0_unsharp_array, hg1, hstop]
    simp only
    rw [hu, Function.update_same]
  · rw [hrun]
    have e : (countFrame ⟨true, 256⟩ (processGop zeroEnv (closeAtKeyframe zeroEnv
        (decodeFrames zeroEnv sharpGop
          (initState zeroEnv))))).filter_descr
        = (processGop zeroEnv (closeAtKeyframe zeroEnv
        (decodeFrames zeroEnv sharpGop
          (initState zeroEnv)))).filter_descr := rfl
    rw [e, (processGop_stage0 _ _).2.1, stage0_filter_descr, hg1, hstop]

/-! # Second part: the sampler's invariants, the final pass and the step rules -/

/-! ## The write cursors -/

theorem cursorInv_init (env : Env) : CursorInv (initState env) :=
  ⟨rfl, rfl, rfl⟩

theorem cursorInv_onFrame (env : Env) (st : State) (f : Frame) (h : CursorInv st) :
    CursorInv (onFrame env st f) := by
  obtain ⟨h1, h2, h3⟩ := h
  unfold onFrame
  split_ifs with hc
  · obtain ⟨fd, pre, ua, ta, pb, pq, ca, e⟩ := processGop_shape env (closeAtKeyframe env st)
    rw [e]
    refine ⟨?_, ?_, ?_⟩
    · simp only [countFrame, closeAtKeyframe, h1]
    · simp only [countFrame, closeAtKeyframe, h2]
    · simp only [countFrame, closeAtKeyframe, h3]
  · exact ⟨h1, h2, h3⟩

theorem cursorInv_decodeFrames (env : Env) :
    ∀ (frames : List Frame) (st : State), CursorInv st →
      CursorInv (decodeFrames env frames st) := by
  intro frames
  induction frames with
  | nil =>
    intro st h
    exact h
  | cons f fs ih =>
    intro st h
    exact ih (onFrame env st f) (cursorInv_onFrame env st f h)

/-- The cursors when `EaglePreProcess` returns, from the state in which the
decode loop ends. -/
theorem cursors_at_return (env : Env) (st : State) (h : CursorInv st) :
    (processGop env (closeAtEof env st)).global_stage1_gop_num = st.total_gop_num + 1
      ∧ (processGop env (closeAtEof env st)).global_stage2_gop_num = st.total_gop_num + 1
      ∧ (processGop env (closeAtEof env st)).global_decode_gop_num = st.total_gop_num + 2
      ∧ (processGop env (closeAtEof env st)).total_gop_num = st.total_gop_num := by
  obtain ⟨h1, h2, h3⟩ := h
  obtain ⟨fd, pre, ua, ta, pb, pq, ca, e⟩ := processGop_shape env (closeAtEof env st)
  rw [e]
  simp only [closeAtEof, h1, h2, h3]
  refine ⟨trivial, trivial, ?_, trivial⟩
  omega

/-- C12, the code on every input: when `EaglePreProcess` returns, with
`G = total_gop_num + 1` GOP samples, the Stage-1 and Stage-2 cursors equal `G`
but the decode cursor `global_decode_gop_num` equals `G + 1`: the end-of-input
path increments it at line 6880 and again at line 6984. On a one-frame input the
cursors are 1, 1 and 2. -/
theorem decode_cursor_runs_ahead :
    (∀ (env : Env) (frames : List Frame),
        (EaglePreProcess env frames).global_stage1_gop_num
            = (EaglePreProcess env frames).total_gop_num + 1
          ∧ (EaglePreProcess env frames).global_stage2_gop_num
            = (EaglePreProcess env frames).total_gop_num + 1
          ∧ (EaglePreProcess env frames).global_decode_gop_num
            = (EaglePreProcess env frames).total_gop_num + 2)
      ∧ (EaglePreProcess zeroEnv [⟨true, 0⟩]).global_stage1_gop_num = 1
      ∧ (EaglePreProcess zeroEnv [⟨true, 0⟩]).global_stage2_gop_num = 1
      ∧ (EaglePreProcess zeroEnv [⟨true, 0⟩]).global_decode_gop_num = 2 := by
  have hgen : ∀ (env : Env) (frames : List Frame),
      (EaglePreProcess env frames).global_stage1_gop_num
          = (decodeFrames env frames (initState env)).total_gop_num + 1
        ∧ (EaglePreProcess env frames).global_stage2_gop_num
          = (decodeFrames env frames (initState env)).total_gop_num + 1
        ∧ (EaglePreProcess env frames).global_decode_gop_num
          = (decodeFrames env frames (initState env)).total_gop_num + 2
        ∧ (EaglePreProcess env frames).total_gop_num
          = (decodeFrames env frames (initState env)).total_gop_num := fun env frames =>
    cursors_at_return env _ (cursorInv_decodeFrames env frames _ (cursorInv_init env))
  have h0 : (decodeFrames zeroEnv [⟨true, 0⟩] (initState zeroEnv)).total_gop_num = 0 := by
    simp [decodeFrames, onFrame, initState, MIN_NUM_OF_PER_GOP, countFrame]
  refine ⟨fun env frames => ?_, ?_, ?_, ?_⟩
  · obtain ⟨a, b, c, d⟩ := hgen env frames
    rw [a, b, c, d]
    exact ⟨rfl, rfl, rfl⟩
  · rw [(hgen zeroEnv _).1, h0]
    rfl
  · rw [(hgen zeroEnv _).2.1, h0]
    rfl
  · rw [(hgen zeroEnv _).2.2.1, h0]
    rfl

/-- C13: for an input that decodes to exactly one frame, keyframe or not, the
sampler closes one GOP, at end of input: the table has the single record of
index 0 (`total_gop_num` stays 0 and the stage cursors end at 1), its frame
count is 1, and no other cell of `global_frames_of_gop_array` is written. -/
theorem single_frame_single_record (env : Env) (f : Frame) :
    (EaglePreProcess env [f]).total_gop_num = 0
      ∧ (EaglePreProcess env [f]).global_stage1_gop_num = 1
      ∧ (EaglePreProcess env [f]).global_stage2_gop_num = 1
      ∧ (EaglePreProcess env [f]).global_frames_of_gop_array 0 = 1
      ∧ ∀ i : Int, i ≠ 0 → (EaglePreProcess env [f]).global_frames_of_gop_array i = 0 := by
  rw [EaglePreProcess_single]
  obtain ⟨fd, pre, ua, ta, pb, pq, ca, e⟩ :=
    processGop_shape env (closeAtEof env (countFrame f (initState env)))
  rw [e]
  simp only [closeAtEof, countFrame, initState]
  refine ⟨trivial, rfl, rfl, ?_, ?_⟩
  · rw [Function.update_same]
    rfl
  · intro i hi
    rw [Function.update_noteq hi]

/-! ## The minimum length of a GOP closed by a keyframe -/

theorem framesSum_nonneg (a : Int → Int) (t : Int)
    (hfc : ∀ i : Int, 0 ≤ i → i ≤ t → 1 ≤ a i) :
    ∀ k : Nat, ((k : Int) ≤ t + 1) → 0 ≤ framesSum a k := by
  intro k
  induction k with
  | zero =>
    intro _
    exact le_refl _
  | succ k ih =>
    intro hk
    rw [framesSum_succ]
    have h1 := ih (by push_cast at hk; omega)
    have h2 := hfc (k : Int) (by omega) (by push_cast at hk; omega)
    omega

/-- The invariant of the final pass after `n` frames: the counter is `n`, and
`global_gop` is the least index whose cumulated frame count reaches `n`, capped
at `total_gop_num`. -/
theorem finalPass_inv (tbl : State) (htot : 0 ≤ tbl.total_gop_num)
    (hfc : ∀ i : Int, 0 ≤ i → i ≤ tbl.total_gop_num → 1 ≤ tbl.global_frames_of_gop_array i) :
    ∀ n : Nat, ∃ k : Nat,
      (finalPass tbl n).global_gop = (k : Int)
        ∧ (finalPass tbl n).frames_encoded = (n : Int)
        ∧ (k : Int) ≤ tbl.total_gop_num
        ∧ (∀ j : Nat, j < k → framesSum tbl.global_frames_of_gop_array (j + 1) < (n : Int))
        ∧ ((k : Int) < tbl.total_gop_num →
            (n : Int) ≤ framesSum tbl.global_frames_of_gop_array (k + 1)) := by
  intro n
  induction n with
  | zero =>
    refine ⟨0, rfl, rfl, htot, ?_, ?_⟩
    · intro j hj
      exact absurd hj (Nat.not_lt_zero j)
    · intro _
      exact framesSum_nonneg _ _ hfc 1 (by push_cast; omega)
  | succ n ih =>
    obtain ⟨k, hg, hf, hk, hlow, hup⟩ := ih
    have e1 : ((k : Int) + 1).toNat = k + 1 := by omega
    by_cases hc : (finalPass tbl n).frames_encoded + 1
        > framesSum tbl.global_frames_of_gop_array ((finalPass tbl n).global_gop + 1).toNat
        ∧ (finalPass tbl n).global_gop < tbl.total_gop_num
    · have hgop : (finalPass tbl (n + 1)).global_gop = ((k + 1 : Nat) : Int) := by
        have hc2 := hc
        rw [hg] at hc2
        simp only [finalPass, do_video_out_frame, hg, if_pos hc2]
        push_cast
        rfl
      rw [hg, hf, e1] at hc
      refine ⟨k + 1, hgop, ?_, ?_, ?_, ?_⟩
      · simp only [finalPass, do_video_out_frame, hf]
        push_cast
        rfl
      · push_cast
        omega
      · intro j hj
        push_cast
        by_cases hjk : j < k
        · have := hlow j hjk
          omega
        · have : j = k := by omega
          subst this
          omega
      · intro hk2
        rw [framesSum_succ]
        have h1 := hup hc.2
        have h2 := hfc ((k + 1 : Nat) : Int) (by omega) (by push_cast; omega)
        push_cast at h2 ⊢
        omega
    · have hgop : (finalPass tbl (n + 1)).global_gop = (k : Int) := by
        have hc2 := hc
        rw [hg] at hc2
        simp only [finalPass, do_video_out_frame, hg, if_neg hc2]
      rw [hg, hf, e1] at hc
      refine ⟨k, hgop, ?_, hk, ?_, ?_⟩
      · simp only [finalPass, do_video_out_frame, hf]
        push_cast
        rfl
      · intro j hj
        have := hlow j hj
        push_cast
        omega
      · intro hk2
        push_cast
        by_contra hlt
        exact hc ⟨by omega, hk2⟩

theorem finalPass_applies (tbl : State) (n : Nat) :
    (finalPass tbl (n + 1)).crf = tbl.global_crf_array (finalPass tbl (n + 1)).global_gop
      ∧ (finalPass tbl (n + 1)).aq_strength
          = tbl.global_aq_strength_array (finalPass tbl (n + 1)).global_gop := by
  simp only [finalPass, do_video_out_frame]
  exact ⟨trivial, trivial⟩

/-- C14: in the final pass, for every table whose frame counts at the indices
`0 .. total_gop_num` are all at least 1, and starting from `global_gop = 0` with
no frame encoded: when the `n`-th output frame is sent to the encoder,
`global_gop` is the least index `g` with
`n ≤ frame_count 0 + ... + frame_count g`, capped at `total_gop_num`, and the
CRF and AQ strength applied are the entries of that GOP. -/
theorem final_pass_tracks_the_gop (tbl : State) (n : Nat) (hn : 1 ≤ n)
    (htot : 0 ≤ tbl.total_gop_num)
    (hfc : ∀ i : Int, 0 ≤ i → i ≤ tbl.total_gop_num → 1 ≤ tbl.global_frames_of_gop_array i) :
    ∃ g : Nat,
      (finalPass tbl n).global_gop = (g : Int)
        ∧ (finalPass tbl n).frames_encoded = (n : Int)
        ∧ (g : Int) ≤ tbl.total_gop_num
        ∧ (∀ j : Nat, j < g → framesSum tbl.global_frames_of_gop_array (j + 1) < (n : Int))
        ∧ ((g : Int) < tbl.total_gop_num →
            (n : Int) ≤ framesSum tbl.global_frames_of_gop_array (g + 1))
        ∧ (finalPass tbl n).crf = tbl.global_crf_array (g : Int)
        ∧ (finalPass tbl n).aq_strength = tbl.global_aq_strength_array (g : Int) := by
  obtain ⟨g, hg, hf, hk, hlow, hup⟩ := finalPass_inv tbl htot hfc n
  obtain ⟨m, rfl⟩ : ∃ m, n = m + 1 := ⟨n - 1, by omega⟩
  obtain ⟨hcrf, haq⟩ := finalPass_applies tbl m
  rw [hg] at hcrf haq
  exact ⟨g, hg, hf, hk, hlow, hup, hcrf, haq⟩

/-- C14 on the table of two GOPs of 300 frames and one frame: the 301st output
frame is encoded with the entries of GOP 1. -/
theorem final_pass_tracks_the_gop_witness :
    (finalPass twoGopTable 301).global_gop = 1
      ∧ (finalPass twoGopTable 301).crf = 21
      ∧ (finalPass twoGopTable 301).aq_strength = 15 / 10 := by
  obtain ⟨g, hg, _, hk, _, hup, hcrf, haq⟩ :=
    final_pass_tracks_the_gop twoGopTable 301 (by norm_num) (by simp [twoGopTable])
      (fun i _ _ => by
        simp only [twoGopTable]
        split_ifs <;> norm_num)
  have h300 : framesSum twoGopTable.global_frames_of_gop_array (0 + 1) = 300 := by
    rw [framesSum_succ]
    simp [framesSum, twoGopTable]
  have hg1 : g = 1 := by
    have h1 : (g : Int) ≤ 1 := hk
    by_contra hne
    have h0 : g = 0 := by omega
    subst h0
    have := hup (by simp [twoGopTable])
    rw [h300] at this
    norm_num at this
  subst hg1
  refine ⟨hg, ?_, ?_⟩
  · rw [hcrf]
    simp [twoGopTable]
  · rw [haq]
    simp [twoGopTable]

/-! ## Termination of the two CRF loops -/

/-- A result of the loop of Stage 2 does not depend on fuel left over. -/
theorem stage2Loop_more_fuel (target : ℚ) (score : Nat → ℚ) :
    ∀ (fuel k : Nat) (crf last : Int) (r : Option Int × Nat),
      stage2Loop target score fuel k crf last = some r →
      stage2Loop target score (fuel + 1) k crf last = some r := by
  intro fuel
  induction fuel with
  | zero =>
    intro k crf last r h
    by_cases hc : crf < 40
    · rw [stage2Loop, if_pos hc] at h
      exact absurd h (by simp)
    · rw [stage2Loop_exit target score 0 k crf last hc] at h
      rw [stage2Loop_exit target score 1 k crf last hc]
      exact h
  | succ fuel ih =>
    intro k crf last r h
    by_cases hc : crf < 40
    · cases hb : stage2Body target (score k) crf last with
      | stop a =>
        rw [stage2Loop_stop target score fuel k crf last a hc hb] at h
        rw [stage2Loop_stop target score (fuel + 1) k crf last a hc hb]
        exact h
      | next c1 l1 =>
        rw [stage2Loop_next target score fuel k crf last c1 l1 hc hb] at h
        rw [stage2Loop_next target score (fuel + 1) k crf last c1 l1 hc hb]
        exact ih (k + 1) c1 l1 r h
    · rw [stage2Loop_exit target score (fuel + 1) k crf last hc] at h
      rw [stage2Loop_exit target score (fuel + 1 + 1) k crf last hc]
      exact h

theorem stage2Loop_fuel_ge (target : ℚ) (score : Nat → ℚ) (fuel k : Nat) (crf last : Int)
    (r : Option Int × Nat) (h : stage2Loop target score fuel k crf last = some r) :
    ∀ extra : Nat, stage2Loop target score (fuel + extra) k crf last = some r := by
  intro extra
  induction extra with
  | zero => exact h
  | succ e ih => exact stage2Loop_more_fuel target score (fuel + e) k crf last r ih

/-- The loop of Stage 2 makes at most as many trials as it has fuel. -/
theorem stage2Loop_trials (target : ℚ) (score : Nat → ℚ) :
    ∀ (fuel k : Nat) (crf last : Int) (r : Option Int × Nat),
      stage2Loop target score fuel k crf last = some r → r.2 ≤ k + fuel := by
  intro fuel
  induction fuel with
  | zero =>
    intro k crf last r h
    by_cases hc : crf < 40
    · rw [stage2Loop, if_pos hc] at h
      exact absurd h (by simp)
    · rw [stage2Loop_exit target score 0 k crf last hc] at h
      simp only [Option.some.injEq] at h
      rw [← h]
      exact le_refl _
  | succ fuel ih =>
    intro k crf last r h
    by_cases hc : crf < 40
    · cases hb : stage2Body target (score k) crf last with
      | stop a =>
        rw [stage2Loop_stop target score fuel k crf last a hc hb] at h
        simp only [Option.some.injEq] at h
        rw [← h]
        simp only
        omega
      | next c1 l1 =>
        rw [stage2Loop_next target score fuel k crf last c1 l1 hc hb] at h
        have := ih (k + 1) c1 l1 r h
        omega
    · rw [stage2Loop_exit target score (fuel + 1) k crf last hc] at h
      simp only [Option.some.injEq] at h
      rw [← h]
      simp only
      omega

/-- A `break` of the loop of Stage 1 is taken at a CRF of the sweep. -/
theorem stage1Loop_stop_range (fps : Int) (trial : Nat → Trial) :
    ∀ (n crf : Nat) (st : State) (c : Nat),
      (stage1Loop fps trial n crf st).2 = some c → crf ≤ c ∧ c < crf + n := by
  intro n
  induction n with
  | zero =>
    intro crf st c h
    exact absurd h (by simp [stage1Loop])
  | succ n ih =>
    intro crf st c h
    by_cases h1 : stage1_per_score st.stage1_first_flag (stage1_bitrate fps (trial crf))
        st.stage1_prev_bitrate (trial crf).vmaf_score st.stage1_prev_vmaf_score
        ≤ target_per_score
    · rw [(stage1Loop_stop fps trial n crf st h1).1] at h
      simp only [Option.some.injEq] at h
      omega
    · rw [stage1Loop_continue fps trial n crf st h1] at h
      have := ih (crf + 1) _ c h
      omega

/-- C16: for every target and every stream of trial scores the loop of Stage 2
ends after at most 22 trials, with a result that more fuel does not change; and
for every stream of trial results the loop of Stage 1 ends after at most 33
trials. -/
theorem crf_loops_terminate (target : ℚ) (score : Nat → ℚ) (fps : Int) (trial : Nat → Trial)
    (st : State) :
    (∃ (a : Option Int) (n : Nat),
        stage2Loop target score 22 0 18 18 = some (a, n) ∧ n ≤ 22
          ∧ ∀ extra : Nat, stage2Loop target score (22 + extra) 0 18 18 = some (a, n))
      ∧ stage1Trials (stage1 fps trial st).2 ≤ 33 := by
  constructor
  · obtain ⟨r, hr⟩ := stage2Loop_fuel_22 target score
    refine ⟨r.1, r.2, hr, ?_, stage2Loop_fuel_ge target score 22 0 18 18 r hr⟩
    have := stage2Loop_trials target score 22 0 18 18 r hr
    omega
  · have e : (stage1 fps trial st).2 = (stage1Loop fps trial 33 18 st).2 := rfl
    rw [e]
    cases h : (stage1Loop fps trial 33 18 st).2 with
    | none => exact le_refl _
    | some c =>
      have := stage1Loop_stop_range fps trial 33 18 st c h
      simp only [stage1Trials]
      omega

/-! ## Stage 1 under two thresholds -/

/-- With the threshold 400 of line 6639, `stage1LoopAt` is `stage1Loop`. -/
theorem stage1LoopAt_target (fps : Int) (trial : Nat → Trial) :
    ∀ (n crf : Nat) (st : State),
      stage1LoopAt target_per_score fps trial n crf st = stage1Loop fps trial n crf st := by
  intro n
  induction n with
  | zero =>
    intro crf st
    rfl
  | succ n ih =>
    intro crf st
    rw [stage1LoopAt, stage1Loop]
    simp only [ih]

theorem stage1LoopAt_stop_range (t : ℚ) (fps : Int) (trial : Nat → Trial) :
    ∀ (n crf : Nat) (st : State) (c : Nat),
      (stage1LoopAt t fps trial n crf st).2 = some c → crf ≤ c := by
  intro n
  induction n with
  | zero =>
    intro crf st c h
    exact absurd h (by simp [stage1LoopAt])
  | succ n ih =>
    intro crf st c h
    rw [stage1LoopAt] at h
    by_cases h1 : stage1_per_score st.stage1_first_flag (stage1_bitrate fps (trial crf))
        st.stage1_prev_bitrate (trial crf).vmaf_score st.stage1_prev_vmaf_score ≤ t
    · simp only [h1, if_true, Option.some.injEq] at h
      omega
    · simp only [h1, if_false] at h
      have := ih (crf + 1) _ c h
      omega

/-- From the same state, the sweep under the lower threshold stops no earlier
than the sweep under the higher one. -/
theorem stage1LoopAt_mono (t1 t2 : ℚ) (ht : t1 ≤ t2) (fps : Int) (trial : Nat → Trial) :
    ∀ (n crf : Nat) (st : State),
      stopsNoLaterThan (stage1LoopAt t2 fps trial n crf st).2
        (stage1LoopAt t1 fps trial n crf st).2 := by
  intro n
  induction n with
  | zero =>
    intro crf st
    simp [stage1LoopAt, stopsNoLaterThan]
  | succ n ih =>
    intro crf st
    rw [stage1LoopAt, stage1LoopAt]
    by_cases h1 : stage1_per_score st.stage1_first_flag (stage1_bitrate fps (trial crf))
        st.stage1_prev_bitrate (trial crf).vmaf_score st.stage1_prev_vmaf_score ≤ t1
    · have h2 := le_trans h1 ht
      simp only [h1, h2, if_true, stopsNoLaterThan, le_refl]
    · by_cases h2 : stage1_per_score st.stage1_first_flag (stage1_bitrate fps (trial crf))
          st.stage1_prev_bitrate (trial crf).vmaf_score st.stage1_prev_vmaf_score ≤ t2
      · simp only [h1, h2, if_true, if_false]
        cases hr : (stage1LoopAt t1 fps trial n (crf + 1)
            { st with
              stage1_prev_bitrate := stage1_bitrate fps (trial crf)
              stage1_prev_vmaf_score := (trial crf).vmaf_score
              stage1_first_flag :=
                if |(trial crf).vmaf_score - st.stage1_prev_vmaf_score| ≤ 1 / 1000000
                    ∨ st.stage1_first_flag = true
                then false else st.stage1_first_flag }).2 with
        | none => simp [stopsNoLaterThan]
        | some c =>
          have := stage1LoopAt_stop_range t1 fps trial n (crf + 1) _ c hr
          simp only [stopsNoLaterThan]
          omega
      · simp only [h1, h2, if_false]
        exact ih (crf + 1) _

/-- C17: for a fixed sequence of Stage-1 trial results and two marginal-cost
thresholds `t' ≤ t` in place of `target_per_score`, the CRF at which Stage 1
stops under `t'` is at least the CRF at which it stops under `t`, where never
stopping counts as later than every CRF; the threshold 400 gives the loop of the
program. -/
theorem stage1_stop_monotone_in_threshold (t' t : ℚ) (ht : t' ≤ t) (fps : Int)
    (trial : Nat → Trial) (st : State) :
    stopsNoLaterThan (stage1LoopAt t fps trial 33 18 st).2
        (stage1LoopAt t' fps trial 33 18 st).2
      ∧ stage1LoopAt target_per_score fps trial 33 18 st = stage1Loop fps trial 33 18 st :=
  ⟨stage1LoopAt_mono t' t ht fps trial 33 18 st, stage1LoopAt_target fps trial 33 18 st⟩

/-- C17 on the thresholds 100 and 400 and trials scoring 97, 96, ... -/
theorem stage1_stop_monotone_in_threshold_witness :
    stopsNoLaterThan (stage1LoopAt 400 25 fallingTrial 33 18 (initState zeroEnv)).2
        (stage1LoopAt 100 25 fallingTrial 33 18 (initState zeroEnv)).2
      ∧ stage1LoopAt target_per_score 25 fallingTrial 33 18 (initState zeroEnv)
          = stage1Loop 25 fallingTrial 33 18 (initState zeroEnv) :=
  stage1_stop_monotone_in_threshold 100 400 (by norm_num) 25 fallingTrial (initState zeroEnv)

/-! ## The accepting test and the upward step of Stage 2 -/

/-- The integer `abs` of the truncated difference is below 1 exactly when the
absolute value of the difference is. -/
theorem abs_truncToInt_lt_one (d : ℚ) : |truncToInt d| < 1 ↔ |d| < 1 := by
  rw [Int.abs_lt_one_iff, abs_lt]
  unfold truncToInt
  split_ifs with h
  · rw [Int.floor_eq_iff]
    constructor
    · rintro ⟨_, h2⟩
      constructor
      · linarith
      · simpa using h2
    · rintro ⟨_, h2⟩
      constructor
      · simpa using h
      · simpa using h2
  · push_neg at h
    rw [Int.ceil_eq_iff]
    constructor
    · rintro ⟨h1, _⟩
      constructor
      · simpa using h1
      · linarith
    · rintro ⟨h1, _⟩
      constructor
      · simpa using h1
      · simpa using h.le

/-- C19: in a Stage-2 iteration at trial CRF `crf` with `delta = q - T`, the
integer `abs` of the code decides `|delta| < 1` as the real absolute value does;
and if `|delta| < 1` and `delta < 0.2`, that is `-1 < delta < 0.2`, the iteration
stores `crf + 1` as the CRF of the GOP and leaves the loop. -/
theorem stage2_accepts_within_band (target q : ℚ) (crf last : Int) :
    (|truncToInt (q - target)| < 1 ↔ |q - target| < 1)
      ∧ ((|q - target| < 1 ∧ q - target < 2 / 10) ↔ (-1 < q - target ∧ q - target < 2 / 10))
      ∧ (|q - target| < 1 → q - target < 2 / 10 →
          stage2Body target q crf last = Stage2Step.stop (crf + 1))
      ∧ ∀ (score : Nat → ℚ) (fuel k : Nat), score k = q → crf < 40 →
          |q - target| < 1 → q - target < 2 / 10 →
          stage2Loop target score (fuel + 1) k crf last = some (some (crf + 1), k + 1) := by
  have hbody : |q - target| < 1 → q - target < 2 / 10 →
      stage2Body target q crf last = Stage2Step.stop (crf + 1) := by
    intro h1 h2
    unfold stage2Body
    simp only
    rw [if_pos ⟨(abs_truncToInt_lt_one _).mpr h1, h2⟩]
  refine ⟨abs_truncToInt_lt_one _, ?_, hbody, ?_⟩
  · rw [abs_lt]
    constructor
    · rintro ⟨⟨h1, _⟩, h3⟩
      exact ⟨h1, h3⟩
    · rintro ⟨h1, h3⟩
      exact ⟨⟨h1, by linarith⟩, h3⟩
  · intro score fuel k hs hc h1 h2
    exact stage2Loop_stop target score fuel k crf last (crf + 1) hc (by
      rw [hs]
      exact hbody h1 h2)

/-- C19 at the target 96 and the score 96.1 of a trial at CRF 18. -/
theorem stage2_accepts_within_band_witness :
    stage2Body 96 (961 / 10) 18 18 = Stage2Step.stop (18 + 1) :=
  (stage2_accepts_within_band 96 (961 / 10) 18 18).2.2.1 (by norm_num [abs_lt]) (by norm_num)

theorem stage2_step_vmaf_eq (crf : Int) (d : ℚ) : stage2_step_vmaf crf d = specStepQ crf d := by
  unfold stage2_step_vmaf specStepQ
  simp only
  have e1 : (if (((crf - 18 : Int) : ℚ)) / 10 < 2 / 10 then (2 / 10 : ℚ)
      else (((crf - 18 : Int) : ℚ)) / 10) = max (2 / 10) (((crf : ℚ) - 18) / 10) := by
    push_cast
    split_ifs with h
    · rw [max_eq_left h.le]
    · rw [max_eq_right (not_lt.mp h)]
  rw [e1]
  have e2 : ∀ x : ℚ, (if x < 1 then (1 : ℚ) else x) = max 1 x := by
    intro x
    split_ifs with h
    · rw [max_eq_left h.le]
    · rw [max_eq_right (not_lt.mp h)]
  rw [e2]
  congr 1
  split_ifs <;> ring

theorem stage2_step_up_eq (d v : ℚ) : stage2_step_up d v = max 1 (d / v) := by
  unfold stage2_step_up
  simp only
  split_ifs with h
  · rw [max_eq_left h.le]
  · rw [max_eq_right (not_lt.mp h)]

/-- An upward pass through the loop body that does not `break` moves the CRF by
the floor of the clamped step. -/
theorem stage2Body_next_up (target q : ℚ) (crf last c1 l1 : Int) (hcrf : 0 ≤ crf)
    (hd : q - target > 0)
    (h : stage2Body target q crf last = Stage2Step.next c1 l1) :
    c1 = crf + ⌊min 5 (max 1 ((q - target) / stage2_step_vmaf crf (q - target)))⌋ := by
  unfold stage2Body at h
  simp only at h
  by_cases h1 : |truncToInt (q - target)| < 1 ∧ q - target < 2 / 10
  · rw [if_pos h1] at h
    exact absurd h (by simp)
  · rw [if_neg h1, if_pos hd] at h
    by_cases h3 : crf < last
    · rw [if_pos h3] at h
      exact absurd h (by simp)
    · rw [if_neg h3] at h
      unfold stage2Tail at h
      simp only at h
      by_cases h40 : (crf : ℚ) + stage2_clamp_step
          (stage2_step_up (q - target) (stage2_step_vmaf crf (q - target))) > 40
      · rw [if_pos h40] at h
        exact absurd h (by simp)
      · rw [if_neg h40] at h
        by_cases hq : q < target
        · rw [if_pos hq] at h
          exact absurd h (by simp)
        · rw [if_neg hq] at h
          simp only [Stage2Step.next.injEq] at h
          rw [← h.1, stage2_clamp_step_of_one_le _ (stage2_step_up_ge _ _), stage2_step_up_eq]
          have e : (if max 1 ((q - target) / stage2_step_vmaf crf (q - target)) > 5 then (5 : ℚ)
              else max 1 ((q - target) / stage2_step_vmaf crf (q - target)))
              = min 5 (max 1 ((q - target) / stage2_step_vmaf crf (q - target))) := by
            split_ifs with h5
            · rw [min_eq_left h5.le]
            · rw [min_eq_right (not_lt.mp h5)]
          rw [e]
          have hpos : (0 : ℚ) ≤ (crf : ℚ)
              + min 5 (max 1 ((q - target) / stage2_step_vmaf crf (q - target))) := by
            have h1 : (0 : ℚ) ≤ (crf : ℚ) := by exact_mod_cast hcrf
            have h2 : (0 : ℚ) ≤ min 5 (max 1 ((q - target) / stage2_step_vmaf crf (q - target))) :=
              le_min (by norm_num) (le_trans (by norm_num) (le_max_left _ _))
            linarith
          unfold truncToInt
          rw [if_pos hpos, Int.floor_int_add]

/-- C20: in a Stage-2 iteration at trial CRF `crf` (at least 18, where the loop
starts) with `delta = q - T > 0` that does not stop, the next trial CRF is
`crf + floor (min 5 (max 1 (delta / step_q)))` with
`step_q = max 1 (max 0.2 ((crf - 18) / 10) * k)` and `k` 1.5, 2, 2.5 or 4 by the
size of `delta`; every such move raises the CRF by an integer between 1 and 5. -/
theorem stage2_upward_step (target q : ℚ) (crf last c1 l1 : Int) (hcrf : 18 ≤ crf)
    (hd : q - target > 0)
    (h : stage2Body target q crf last = Stage2Step.next c1 l1) :
    c1 = crf + ⌊min 5 (max 1 ((q - target) / specStepQ crf (q - target)))⌋
      ∧ 1 ≤ c1 - crf ∧ c1 - crf ≤ 5 := by
  have hc := stage2Body_next_up target q crf last c1 l1 (by omega) hd h
  rw [stage2_step_vmaf_eq] at hc
  refine ⟨hc, ?_, ?_⟩
  · rw [hc]
    have : (1 : Int) ≤ ⌊min 5 (max 1 ((q - target) / specStepQ crf (q - target)))⌋ := by
      rw [Int.le_floor]
      exact le_min (by norm_num) (le_max_left _ _)
    omega
  · rw [hc]
    have : ⌊min 5 (max 1 ((q - target) / specStepQ crf (q - target)))⌋ ≤ (5 : Int) := by
      have h5 : min 5 (max 1 ((q - target) / specStepQ crf (q - target))) ≤ ((5 : Int) : ℚ) := by
        push_cast
        exact min_le_left _ _
      exact_mod_cast le_trans (Int.floor_le _) h5 |> fun hh => Int.floor_le_iff.mpr (by
        have := lt_of_le_of_lt h5 (by norm_num : ((5 : Int) : ℚ) < ((5 : Int) : ℚ) + 1)
        exact this)
    omega

theorem stage2Body_at_18 : stage2Body 0 96 18 18 = Stage2Step.next 23 18 := by
  simp [stage2Body, stage2Tail, stage2_step_vmaf, stage2_step_up, stage2_clamp_step,
    truncToInt_ofNat]
  norm_num
  exact truncToInt_eq _ 23 (by norm_num)

/-- C20 at the target 0 and the score 96 of the trial at CRF 18: the next trial
is at CRF 23. -/
theorem stage2_upward_step_witness :
    (23 : Int) = 18 + ⌊min 5 (max 1 (((96 : ℚ) - 0) / specStepQ 18 (96 - 0)))⌋
      ∧ (1 : Int) ≤ 23 - 18 ∧ (23 : Int) - 18 ≤ 5 :=
  stage2_upward_step 0 96 18 18 23 18 (by norm_num) (by norm_num) stage2Body_at_18

/-! ## The sharpness statistic on a constant plane -/

theorem get_unsharp_val_call (data : Nat → Nat) (width height : Nat) :
    get_unsharp_val data width height 1 5 5
      = unsharpRows data width 65536 2 2 (height - 1 - 2) 2 (fun _ _ => 0) 0 := by
  unfold get_unsharp_val
  have e : truncToInt ((1 : ℚ) * 65536) = 65536 := truncToInt_eq _ 65536 (by norm_num)
  simp only [e]

/-- The cascade of two passes in closed form. -/
theorem unsharpCascade_two (cell : Nat → Int) (t : Int) :
    (unsharpCascade 2 0 cell t).2
        = toInt32 (cell 3 + toInt32 (cell 2 + toInt32 (cell 1 + toInt32 (cell 0 + t))))
      ∧ (unsharpCascade 2 0 cell t).1 0 = t % 2 ^ 32
      ∧ (unsharpCascade 2 0 cell t).1 1 = toInt32 (cell 0 + t) % 2 ^ 32
      ∧ (unsharpCascade 2 0 cell t).1 2 = toInt32 (cell 1 + toInt32 (cell 0 + t)) % 2 ^ 32
      ∧ (unsharpCascade 2 0 cell t).1 3
        = toInt32 (cell 2 + toInt32 (cell 1 + toInt32 (cell 0 + t))) % 2 ^ 32 := by
  simp [unsharpCascade, Function.update]

/-- Bounded cells and a bounded input give bounded cells and an output of at most
sixteen times the bound. -/
theorem unsharpCascade_bounded (cell : Nat → Int) (t M : Int) (hM : 16 * M < 2 ^ 31)
    (hc : CellsBounded cell M) (ht0 : 0 ≤ t) (ht : t ≤ M) :
    CellsBounded (unsharpCascade 2 0 cell t).1 M
      ∧ 0 ≤ (unsharpCascade 2 0 cell t).2 ∧ (unsharpCascade 2 0 cell t).2 ≤ 16 * M := by
  obtain ⟨e, e0, e1, e2, e3⟩ := unsharpCascade_two cell t
  obtain ⟨⟨a0, a1⟩, ⟨b0, b1⟩, ⟨c0, c1⟩, ⟨d0, d1⟩⟩ := hc
  unfold CellsBounded
  rw [e, e0, e1, e2, e3]
  unfold toInt32
  norm_num at hM ⊢
  omega

theorem unsharpRes_const (c t : Int) :
    unsharpRes c t 65536 2 2 = c - (t + 128) / 256 := by
  unfold unsharpRes
  norm_num

theorem cellsBounded_zero (M : Int) (hM : 0 ≤ M) : CellsBounded (fun _ => 0) M := by
  unfold CellsBounded
  simp only
  omega

/-- On a plane of constant colour `c`, one row adds to the running sum an amount
between 0 and `c` per pixel and keeps the cells of `sc` bounded. -/
theorem unsharpRow_const (c width y : Nat) (hc : c ≤ 255) :
    ∀ (n x : Nat) (sr : Nat → Int) (sc : Nat → Nat → Int) (acc : Int),
      CellsBounded sr c → (∀ col, CellsBounded (fun z => sc z col) (16 * c)) →
      (∀ col, CellsBounded
          (fun z => (unsharpRow (fun _ => c) width y 65536 2 2 n x sr sc acc).1 z col) (16 * c))
        ∧ acc ≤ (unsharpRow (fun _ => c) width y 65536 2 2 n x sr sc acc).2
        ∧ (unsharpRow (fun _ => c) width y 65536 2 2 n x sr sc acc).2 ≤ acc + (n : Int) * c := by
  intro n
  induction n with
  | zero =>
    intro x sr sc acc _ hsc
    refine ⟨hsc, le_refl _, ?_⟩
    simp [unsharpRow]
  | succ n ih =>
    intro x sr sc acc hsr hsc
    rw [unsharpRow]
    have hpix : ((c % 256 : Nat) : Int) = (c : Int) := by
      rw [Nat.mod_eq_of_lt (by omega)]
    rw [hpix]
    have hh := unsharpCascade_bounded sr (c : Int) (c : Int) (by norm_num; omega) hsr
      (by omega) (le_refl _)
    have hv := unsharpCascade_bounded (fun z => sc z (x + 2))
      (unsharpCascade 2 0 sr (c : Int)).2 (16 * (c : Int)) (by norm_num; omega) (hsc (x + 2))
      hh.2.1 hh.2.2
    have hres : 0 ≤ unsharpRes (c : Int)
        (unsharpCascade 2 0 (fun z => sc z (x + 2)) (unsharpCascade 2 0 sr (c : Int)).2).2
        65536 2 2
        ∧ unsharpRes (c : Int)
        (unsharpCascade 2 0 (fun z => sc z (x + 2)) (unsharpCascade 2 0 sr (c : Int)).2).2
        65536 2 2 ≤ (c : Int) := by
      rw [unsharpRes_const]
      have h1 := hv.2.1
      have h2 := hv.2.2
      constructor <;> omega
    have key := ih (x + 1) (unsharpCascade 2 0 sr (c : Int)).1
      (fun z col => if col = x + 2
        then (unsharpCascade 2 0 (fun z => sc z (x + 2)) (unsharpCascade 2 0 sr (c : Int)).2).1 z
        else sc z col)
      (acc + unsharpRes (c : Int)
        (unsharpCascade 2 0 (fun z => sc z (x + 2)) (unsharpCascade 2 0 sr (c : Int)).2).2
        65536 2 2)
      hh.1
      (fun col => by
        by_cases hcol : col = x + 2
        · simp only [hcol, if_true]
          exact hv.1
        · simp only [hcol, if_false]
          exact hsc col)
    have e : ((n + 1 : Nat) : Int) * (c : Int) = (n : Int) * c + c := by
      push_cast
      ring
    refine ⟨key.1, ?_, ?_⟩
    · have := key.2.1
      linarith [hres.1]
    · have := key.2.2
      rw [e]
      linarith [hres.2]

/-- On a plane of constant colour `c`, the rows add to the running sum an amount
between 0 and `c` per pixel. -/
theorem unsharpRows_const (c width : Nat) (hc : c ≤ 255) :
    ∀ (m y : Nat) (sc : Nat → Nat → Int) (acc : Int),
      (∀ col, CellsBounded (fun z => sc z col) (16 * c)) →
      acc ≤ unsharpRows (fun _ => c) width 65536 2 2 m y sc acc
        ∧ unsharpRows (fun _ => c) width 65536 2 2 m y sc acc
          ≤ acc + (m : Int) * (((width - 1 - 2 : Nat) : Int) * c) := by
  intro m
  induction m with
  | zero =>
    intro y sc acc _
    refine ⟨le_refl _, ?_⟩
    simp [unsharpRows]
  | succ m ih =>
    intro y sc acc hsc
    rw [unsharpRows]
    have hrow := unsharpRow_const c width y hc (width - 1 - 2) 2 (fun _ => 0) sc acc
      (cellsBounded_zero _ (by omega)) hsc
    have hrec := ih (y + 1)
      (unsharpRow (fun _ => c) width y 65536 2 2 (width - 1 - 2) 2 (fun _ => 0) sc acc).1
      (unsharpRow (fun _ => c) width y 65536 2 2 (width - 1 - 2) 2 (fun _ => 0) sc acc).2
      hrow.1
    have e : ((m + 1 : Nat) : Int) * (((width - 1 - 2 : Nat) : Int) * (c : Int))
        = (m : Int) * (((width - 1 - 2 : Nat) : Int) * c) + ((width - 1 - 2 : Nat) : Int) * c := by
      push_cast
      ring
    refine ⟨?_, ?_⟩
    · linarith [hrow.2.1, hrec.1]
    · rw [e]
      linarith [hrow.2.2, hrec.2]

/-- Through zeroed cells the cascade hands on its input. -/
theorem unsharpCascade_zero (t : Int) (h0 : 0 ≤ t) (h1 : t < 2 ^ 31) :
    (unsharpCascade 2 0 (fun _ => 0) t).2 = t := by
  rw [(unsharpCascade_two _ _).1]
  unfold toInt32
  norm_num at h1 ⊢
  omega

/-- On a plane of constant colour `c ≥ 1`, a row that starts with all cells
zeroed adds at least one to the running sum: its first pixel responds with
`c - (c + 128) / 256`. -/
theorem unsharpRow_const_first (c width n : Nat) (hc : c ≤ 255) (hc1 : 1 ≤ c) (acc : Int) :
    (∀ col, CellsBounded
        (fun z => (unsharpRow (fun _ => c) width 2 65536 2 2 (n + 1) 2 (fun _ => 0)
          (fun _ _ => 0) acc).1 z col) (16 * c))
      ∧ acc + 1 ≤ (unsharpRow (fun _ => c) width 2 65536 2 2 (n + 1) 2 (fun _ => 0)
          (fun _ _ => 0) acc).2 := by
  have hz : CellsBounded (fun _ : Nat => (0 : Int)) (c : Int) := cellsBounded_zero _ (by omega)
  have hz16 : CellsBounded (fun _ : Nat => (0 : Int)) (16 * (c : Int)) :=
    cellsBounded_zero _ (by omega)
  have hhor := unsharpCascade_bounded (fun _ => 0) (c : Int) (c : Int) (by norm_num; omega) hz
    (by omega) (le_refl _)
  have hver := unsharpCascade_bounded (fun _ => 0)
    (unsharpCascade 2 0 (fun _ => 0) (c : Int)).2 (16 * (c : Int)) (by norm_num; omega) hz16
    hhor.2.1 hhor.2.2
  have hval : (unsharpCascade 2 0 (fun _ => 0)
      (unsharpCascade 2 0 (fun _ => 0) (c : Int)).2).2 = (c : Int) := by
    rw [unsharpCascade_zero (c : Int) (by omega) (by norm_num; omega),
      unsharpCascade_zero (c : Int) (by omega) (by norm_num; omega)]
  have hres : 1 ≤ unsharpRes (c : Int)
      (unsharpCascade 2 0 (fun _ => 0) (unsharpCascade 2 0 (fun _ => 0) (c : Int)).2).2
      65536 2 2 := by
    rw [hval, unsharpRes_const]
    omega
  have hpix : ((c % 256 : Nat) : Int) = (c : Int) := by
    rw [Nat.mod_eq_of_lt (by omega)]
  rw [unsharpRow, hpix]
  have hsc : ∀ col, CellsBounded (fun z => (fun (z : Nat) (c_1 : Nat) =>
      if c_1 = 2 + 2
      then (unsharpCascade 2 0 (fun _ => (0 : Int))
        (unsharpCascade 2 0 (fun _ => 0) (c : Int)).2).1 z
      else (0 : Int)) z col) (16 * (c : Int)) := by
    intro col
    by_cases hcol : col = 2 + 2
    · simp only [hcol, if_true]
      exact hver.1
    · simp only [hcol, if_false]
      exact hz16
  refine ⟨(unsharpRow_const c width 2 hc n _ _ _ _ hhor.1 hsc).1,
    le_trans ?_ (unsharpRow_const c width 2 hc n _ _ _ _ hhor.1 hsc).2.1⟩
  exact add_le_add_left hres acc

/-- On a plane of constant colour `c ≥ 1` with an interior pixel, the statistic
is positive. -/
theorem get_unsharp_val_const_pos (c width height : Nat) (hc : c ≤ 255) (hc1 : 1 ≤ c)
    (hw : 4 ≤ width) (hh : 4 ≤ height) :
    1 ≤ get_unsharp_val (fun _ => c) width height 1 5 5 := by
  rw [get_unsharp_val_call]
  obtain ⟨m, hm⟩ : ∃ m, height - 1 - 2 = m + 1 := ⟨height - 4, by omega⟩
  obtain ⟨n, hn⟩ : ∃ n, width - 1 - 2 = n + 1 := ⟨width - 4, by omega⟩
  rw [hm, unsharpRows, hn]
  have hfirst := unsharpRow_const_first c width n hc hc1 0
  exact le_trans (by simpa using hfirst.2)
    (unsharpRows_const c width hc m (2 + 1) _ _ hfirst.1).1

/-- The statistic of a constant plane lies between 0 and `c` per interior
pixel. -/
theorem get_unsharp_val_const_bounds (c width height : Nat) (hc : c ≤ 255) :
    0 ≤ get_unsharp_val (fun _ => c) width height 1 5 5
      ∧ get_unsharp_val (fun _ => c) width height 1 5 5
        ≤ ((height - 1 - 2 : Nat) : Int) * (((width - 1 - 2 : Nat) : Int) * c) := by
  rw [get_unsharp_val_call]
  have h := unsharpRows_const c width hc (height - 1 - 2) 2 (fun _ _ => 0) 0
    (fun _ => cellsBounded_zero _ (by omega))
  constructor
  · exact h.1
  · have := h.2
    linarith

/-! # Third part: the stop rules of Stage 2, the hints of Stage 0 and the sample -/

/-! ## The largest hint of Stage 0 -/

theorem get_unsharp_cubic (c : ℚ) (hc : c ≤ 8 / 10) :
    (8 / 10 - c) / (7 / 10) * ((8 / 10 - c) / (7 / 10)) * 6 * c ≤ 2048 / 2205 := by
  have h : 2048 / 2205 - (8 / 10 - c) / (7 / 10) * ((8 / 10 - c) / (7 / 10)) * 6 * c
      = 600 / 49 * ((c - 4 / 15) ^ 2 * (16 / 15 - c)) := by
    ring
  have h2 : 0 ≤ (c - 4 / 15) ^ 2 * (16 / 15 - c) :=
    mul_nonneg (sq_nonneg _) (by linarith)
  have h3 : 0 ≤ 600 / 49 * ((c - 4 / 15) ^ 2 * (16 / 15 - c)) :=
    mul_nonneg (by norm_num) h2
  linarith

theorem get_unsharp_le (s : ℚ) : get_unsharp s ≤ 2048 / 2205 := by
  unfold get_unsharp
  simp only [sharpness_clamp_eq]
  have hc : clampTo (1 / 10) (8 / 10) s ≤ 8 / 10 := by
    unfold clampTo
    exact max_le (by norm_num) (min_le_left _ _)
  split_ifs with h
  · rw [one_mul]
    exact le_trans hc (by norm_num)
  · exact get_unsharp_cubic _ hc

theorem get_unsharp_peak : get_unsharp (4 / 15) = 2048 / 2205 := by
  norm_num [get_unsharp]

/-- C29, amended: for every sharpness value `s`, `get_unsharp s` is at most
`2048 / 2205` (about 0.9288), and this bound is the value at `s = 4 / 15`: the
Stage-0 hint never exceeds 0.9288. -/
theorem get_unsharp_upper_bound :
    (∀ s : ℚ, get_unsharp s ≤ 2048 / 2205) ∧ get_unsharp (4 / 15) = 2048 / 2205 :=
  ⟨get_unsharp_le, get_unsharp_peak⟩

/-- C29 as stated fails: at the sharpness value `4 / 15` the hint is
`2048 / 2205`, which exceeds the largest grid amount 0.9 (and every entry of the
grid `unsharp`). -/
theorem get_unsharp_exceeds_grid :
    get_unsharp (4 / 15) > 9 / 10 ∧ ∀ i : Int, 0 ≤ i → i < 10 →
      unsharp zeroEnv i < get_unsharp (4 / 15) := by
  rw [get_unsharp_peak]
  refine ⟨by norm_num, ?_⟩
  intro i h0 h1
  unfold unsharp
  rw [if_pos ⟨h0, h1⟩]
  have : (i : ℚ) ≤ 9 := by exact_mod_cast (by omega : i ≤ 9)
  have h2 : (i : ℚ) / 10 ≤ 9 / 10 := by linarith
  exact lt_of_le_of_lt h2 (by norm_num)

/-! ## A trial that scores below the target -/

theorem stage2_clamp_step_down (d v : ℚ) :
    stage2_clamp_step (stage2_step_down d v) = if d / v ≤ -2 then -2 else -1 := by
  unfold stage2_clamp_step stage2_step_down
  by_cases h1 : d / v > -1
  · have h2 : ¬ d / v ≤ -2 := by linarith
    simp only [if_pos h1, if_neg h2]
    norm_num
    rw [truncToInt_eq (-1) (-1) (by norm_num)]
    norm_num
  · simp only [if_neg h1]
    have h1' : d / v ≤ -1 := not_lt.mp h1
    have h5 : ¬ d / v > 5 := by linarith
    simp only [if_neg h5]
    by_cases h2 : d / v < -2
    · have h3 : d / v ≤ -2 := h2.le
      simp only [if_pos h2, if_pos h3]
      norm_num
      rw [truncToInt_eq (-2) (-2) (by norm_num)]
      norm_num
    · simp only [if_neg h2]
      have h0 : d / v < 0 := by linarith
      simp only [if_pos h0]
      have hneg : ¬ (0 : ℚ) ≤ d / v := by linarith
      by_cases h3 : d / v ≤ -2
      · have e : d / v = -2 := le_antisymm h3 (not_lt.mp h2)
        rw [if_pos h3, e]
        rw [truncToInt_eq (-2) (-2) (by norm_num)]
        norm_num
      · rw [if_neg h3]
        have hc : ⌈d / v⌉ = -1 := by
          rw [Int.ceil_eq_iff]
          push_neg at h3
          constructor
          · push_cast
            linarith
          · push_cast
            linarith
        unfold truncToInt
        rw [if_neg hneg, hc]
        norm_num

theorem stage2Tail_down (target q : ℚ) (crf : Int) (d v : ℚ) (hq : q < target)
    (hc : crf < 40) :
    stage2Tail target q crf (stage2_step_down d v)
      = Stage2Step.stop (crf + (if d / v ≤ -2 then -2 else -1) + 1) := by
  unfold stage2Tail
  simp only [stage2_clamp_step_down]
  have hc' : (crf : ℚ) < 40 := by exact_mod_cast hc
  by_cases h : d / v ≤ -2
  · simp only [if_pos h]
    have h40 : ¬ (crf : ℚ) + -2 > 40 := by linarith
    rw [if_neg h40, if_pos hq]
    rw [truncToInt_eq ((crf : ℚ) + -2) (crf + -2) (by push_cast; ring)]
  · simp only [if_neg h]
    have h40 : ¬ (crf : ℚ) + -1 > 40 := by linarith
    rw [if_neg h40, if_pos hq]
    rw [truncToInt_eq ((crf : ℚ) + -1) (crf + -1) (by push_cast; ring)]

theorem stage2Body_below (target q : ℚ) (crf last : Int) (hq : q < target) (hc : crf < 40) :
    stage2Body target q crf last
      = if |q - target| < 1 ∨ crf = last + 1 ∨ crf = 18 ∨ crf = last - 1 then
          Stage2Step.stop (crf + 1)
        else
          Stage2Step.stop
            (crf + (if (q - target) / stage2_step_vmaf crf (q - target) ≤ -2 then -2 else -1)
              + 1) := by
  have hd : q - target < 0 := by linarith
  have hd2 : q - target < 2 / 10 := by linarith
  have hpos : ¬ q - target > 0 := by linarith
  unfold stage2Body
  simp only [abs_truncToInt_lt_one, hd2, and_true, if_neg hpos]
  by_cases h1 : |q - target| < 1
  · rw [if_pos h1, if_pos (Or.inl h1)]
  · rw [if_neg h1]
    by_cases h2 : crf = last + 1 ∨ crf = 18 ∨ crf = 18 ∨ crf = last - 1
    · rw [if_pos h2, if_pos]
      rcases h2 with h | h | h | h
      · exact Or.inr (Or.inl h)
      · exact Or.inr (Or.inr (Or.inl h))
      · exact Or.inr (Or.inr (Or.inl h))
      · exact Or.inr (Or.inr (Or.inr h))
    · rw [if_neg h2, if_neg, stage2Tail_down _ _ _ _ _ hq hc]
      rintro (h | h | h | h)
      · exact h1 h
      · exact h2 (Or.inl h)
      · exact h2 (Or.inr (Or.inl h))
      · exact h2 (Or.inr (Or.inr (Or.inr h)))

/-! ## The trials of Stage 2 -/

theorem stage2Trials_succ (target : ℚ) (score : Nat → ℚ) (fuel k : Nat) (crf last : Int) :
    stage2Trials target score (fuel + 1) k crf last
      = if crf < 40 then
          match stage2Body target (score k) crf last with
          | Stage2Step.stop _ => [(crf, last)]
          | Stage2Step.next crf1 last1 =>
            (crf, last) :: stage2Trials target score fuel (k + 1) crf1 last1
        else [] := rfl

theorem stage2Trials_next (target : ℚ) (score : Nat → ℚ) (fuel k : Nat) (crf last c1 l1 : Int)
    (hc : crf < 40) (hb : stage2Body target (score k) crf last = Stage2Step.next c1 l1) :
    stage2Trials target score (fuel + 1) k crf last
      = (crf, last) :: stage2Trials target score fuel (k + 1) c1 l1 := by
  rw [stage2Trials_succ, if_pos hc]
  simp only [hb]

theorem stage2Trials_stop (target : ℚ) (score : Nat → ℚ) (fuel k : Nat) (crf last a : Int)
    (hc : crf < 40) (hb : stage2Body target (score k) crf last = Stage2Step.stop a) :
    stage2Trials target score (fuel + 1) k crf last = [(crf, last)] := by
  rw [stage2Trials_succ, if_pos hc]
  simp only [hb]

theorem stage2Trials_exit (target : ℚ) (score : Nat → ℚ) (fuel k : Nat) (crf last : Int)
    (hc : ¬ crf < 40) :
    stage2Trials target score fuel k crf last = [] := by
  cases fuel with
  | zero => rfl
  | succ fuel => rw [stage2Trials_succ, if_neg hc]

theorem truncToInt_le (x : ℚ) (n : Int) (h : x ≤ (n : ℚ)) : truncToInt x ≤ n := by
  unfold truncToInt
  split_ifs
  · exact Int.floor_le_iff.mpr (lt_of_le_of_lt h (by linarith))
  · exact Int.ceil_le.mpr h

theorem stage2Tail_next_full (target q : ℚ) (crf : Int) (cs : ℚ) (c1 l1 : Int)
    (h : stage2Tail target q crf cs = Stage2Step.next c1 l1) :
    l1 = crf ∧ c1 ≤ 40 := by
  unfold stage2Tail at h
  simp only at h
  by_cases h40 : (crf : ℚ) + stage2_clamp_step cs > 40
  · rw [if_pos h40] at h
    exact absurd h (by simp)
  · rw [if_neg h40] at h
    by_cases hq : q < target
    · rw [if_pos hq] at h
      exact absurd h (by simp)
    · rw [if_neg hq] at h
      simp only [Stage2Step.next.injEq] at h
      refine ⟨h.2.symm, ?_⟩
      rw [← h.1]
      exact truncToInt_le _ 40 (by push_cast; exact not_lt.mp h40)

/-- A pass through the loop body that does not `break` is an upward step: the
score is above the target, the old trial CRF becomes `stage2_last_crf`, and the
new trial CRF is larger and at most 40. -/
theorem stage2Body_next_full (target q : ℚ) (crf last c1 l1 : Int)
    (h : stage2Body target q crf last = Stage2Step.next c1 l1) :
    q - target > 0 ∧ l1 = crf ∧ crf < c1 ∧ c1 ≤ 40 := by
  have hlt := stage2Body_next target q crf last c1 l1 h
  unfold stage2Body at h
  simp only at h
  by_cases h1 : |truncToInt (q - target)| < 1 ∧ q - target < 2 / 10
  · rw [if_pos h1] at h
    exact absurd h (by simp)
  · rw [if_neg h1] at h
    by_cases h2 : q - target > 0
    · rw [if_pos h2] at h
      by_cases h3 : crf < last
      · rw [if_pos h3] at h
        exact absurd h (by simp)
      · rw [if_neg h3] at h
        obtain ⟨e1, e2⟩ := stage2Tail_next_full _ _ _ _ _ _ h
        exact ⟨h2, e1, hlt, e2⟩
    · rw [if_neg h2] at h
      by_cases h3 : crf = last + 1 ∨ crf = 18 ∨ crf = 18 ∨ crf = last - 1
      · rw [if_pos h3] at h
        exact absurd h (by simp)
      · rw [if_neg h3] at h
        exfalso
        have hq : q - target = 0 := by
          have := (stage2Tail_next _ _ _ _ _ _ h).1
          push_neg at this h2
          linarith
        apply h1
        rw [hq]
        have : truncToInt (0 : ℚ) = 0 := by exact_mod_cast truncToInt_intCast 0
        rw [this]
        norm_num

theorem stage2Tail_stop_ge (target q : ℚ) (crf : Int) (cs : ℚ) (a : Int) (hq : ¬ q < target)
    (h : stage2Tail target q crf cs = Stage2Step.stop a) : a = crf + 1 := by
  unfold stage2Tail at h
  simp only at h
  by_cases h40 : (crf : ℚ) + stage2_clamp_step cs > 40
  · rw [if_pos h40] at h
    simp only [Stage2Step.stop.injEq] at h
    exact h.symm
  · rw [if_neg h40, if_neg hq] at h
    exact absurd h (by simp)

/-- A `break` of a pass whose score is not below the target stores `crf + 1`. -/
theorem stage2Body_stop_ge (target q : ℚ) (crf last a : Int) (hq : ¬ q < target)
    (h : stage2Body target q crf last = Stage2Step.stop a) : a = crf + 1 := by
  unfold stage2Body at h
  simp only at h
  by_cases h1 : |truncToInt (q - target)| < 1 ∧ q - target < 2 / 10
  · rw [if_pos h1] at h
    simp only [Stage2Step.stop.injEq] at h
    exact h.symm
  · rw [if_neg h1] at h
    by_cases h2 : q - target > 0
    · rw [if_pos h2] at h
      by_cases h3 : crf < last
      · rw [if_pos h3] at h
        simp only [Stage2Step.stop.injEq] at h
        exact h.symm
      · rw [if_neg h3] at h
        exact stage2Tail_stop_ge _ _ _ _ _ hq h
    · rw [if_neg h2] at h
      by_cases h3 : crf = last + 1 ∨ crf = 18 ∨ crf = 18 ∨ crf = last - 1
      · rw [if_pos h3] at h
        simp only [Stage2Step.stop.injEq] at h
        exact h.symm
      · rw [if_neg h3] at h
        exact stage2Tail_stop_ge _ _ _ _ _ hq h

/-- The value a `break` of the loop body stores lies in `19 .. 40`, at every
trial the loop can reach. -/
theorem stage2Body_stop_range (target q : ℚ) (crf last a : Int) (hl : 18 ≤ last)
    (hle : last ≤ crf) (hc : crf < 40) (hs : crf = 18 ∨ last < crf)
    (h : stage2Body target q crf last = Stage2Step.stop a) : 19 ≤ a ∧ a ≤ 40 := by
  by_cases hq : q < target
  · rw [stage2Body_below target q crf last hq hc] at h
    by_cases hp : |q - target| < 1 ∨ crf = last + 1 ∨ crf = 18 ∨ crf = last - 1
    · rw [if_pos hp] at h
      simp only [Stage2Step.stop.injEq] at h
      omega
    · rw [if_neg hp] at h
      simp only [Stage2Step.stop.injEq] at h
      push_neg at hp
      obtain ⟨_, hp1, hp2, _⟩ := hp
      split_ifs at h <;> omega
  · have := stage2Body_stop_ge target q crf last a hq h
    omega

theorem stage2Trials_inv (target : ℚ) (score : Nat → ℚ) :
    ∀ (fuel k : Nat) (crf last : Int), 18 ≤ crf → last ≤ crf →
      (∀ p ∈ stage2Trials target score fuel k crf last, p.2 ≤ p.1 ∧ 18 ≤ p.1 ∧ p.1 < 40)
        ∧ List.Chain' (fun a b : Int × Int => a.1 < b.1)
            (stage2Trials target score fuel k crf last)
        ∧ ∀ p ∈ (stage2Trials target score fuel k crf last).head?, p = (crf, last) := by
  intro fuel
  induction fuel with
  | zero =>
    intro k crf last _ _
    have e : stage2Trials target score 0 k crf last = [] := rfl
    rw [e]
    simp
  | succ fuel ih =>
    intro k crf last h18 hle
    by_cases hc : crf < 40
    · cases hb : stage2Body target (score k) crf last with
      | stop a =>
        rw [stage2Trials_stop target score fuel k crf last a hc hb]
        simp only [List.mem_singleton, List.chain'_singleton, List.head?_cons,
          Option.mem_def, Option.some.injEq, true_and]
        refine ⟨?_, fun p hp => hp.symm⟩
        intro p hp
        rw [hp]
        exact ⟨hle, h18, hc⟩
      | next c1 l1 =>
        rw [stage2Trials_next target score fuel k crf last c1 l1 hc hb]
        obtain ⟨_, e1, hlt, _⟩ := stage2Body_next_full target (score k) crf last c1 l1 hb
        obtain ⟨i1, i2, i3⟩ := ih (k + 1) c1 l1 (by omega) (by omega)
        refine ⟨?_, ?_, ?_⟩
        · intro p hp
          rcases List.mem_cons.mp hp with hp | hp
          · rw [hp]
            exact ⟨hle, h18, hc⟩
          · exact i1 p hp
        · rw [List.chain'_cons']
          refine ⟨?_, i2⟩
          intro y hy
          rw [i3 y hy]
          exact hlt
        · intro p hp
          simp only [List.head?_cons, Option.mem_def, Option.some.injEq] at hp
          exact hp.symm
    · rw [stage2Trials_exit target score _ k crf last hc]
      simp

theorem stage2Trials_more_fuel (target : ℚ) (score : Nat → ℚ) :
    ∀ (fuel k : Nat) (crf last : Int) (r : Option Int × Nat),
      stage2Loop target score fuel k crf last = some r →
      stage2Trials target score (fuel + 1) k crf last
          = stage2Trials target score fuel k crf last
        ∧ (stage2Trials target score fuel k crf last).length + k = r.2 := by
  intro fuel
  induction fuel with
  | zero =>
    intro k crf last r h
    rw [stage2Loop] at h
    by_cases hc : crf < 40
    · rw [if_pos hc] at h
      exact absurd h (by simp)
    · rw [if_neg hc] at h
      simp only [Option.some.injEq] at h
      rw [stage2Trials_exit target score _ k crf last hc,
        stage2Trials_exit target score _ k crf last hc, ← h]
      simp
  | succ fuel ih =>
    intro k crf last r h
    by_cases hc : crf < 40
    · cases hb : stage2Body target (score k) crf last with
      | stop a =>
        rw [stage2Loop_stop target score fuel k crf last a hc hb] at h
        simp only [Option.some.injEq] at h
        rw [stage2Trials_stop target score _ k crf last a hc hb,
          stage2Trials_stop target score _ k crf last a hc hb, ← h]
        simp
        omega
      | next c1 l1 =>
        rw [stage2Loop_next target score fuel k crf last c1 l1 hc hb] at h
        obtain ⟨e1, e2⟩ := ih (k + 1) c1 l1 r h
        rw [stage2Trials_next target score _ k crf last c1 l1 hc hb,
          stage2Trials_next target score _ k crf last c1 l1 hc hb, e1]
        refine ⟨rfl, ?_⟩
        simp only [List.length_cons]
        omega
    · rw [stage2Loop_exit target score _ k crf last hc] at h
      simp only [Option.some.injEq] at h
      rw [stage2Trials_exit target score _ k crf last hc,
        stage2Trials_exit target score _ k crf last hc, ← h]
      simp

theorem stage2Trials_fuel_ge (target : ℚ) (score : Nat → ℚ) (fuel k : Nat) (crf last : Int)
    (r : Option Int × Nat) (h : stage2Loop target score fuel k crf last = some r) :
    ∀ extra : Nat, stage2Trials target score (fuel + extra) k crf last
      = stage2Trials target score fuel k crf last := by
  intro extra
  induction extra with
  | zero => rfl
  | succ e ih =>
    rw [← Nat.add_assoc,
      (stage2Trials_more_fuel target score (fuel + e) k crf last r
        (stage2Loop_fuel_ge target score fuel k crf last r h e)).1, ih]

theorem stage2Trials_head (target : ℚ) (score : Nat → ℚ) :
    (stage2Trials target score 22 0 18 18).head? = some (18, 18) := by
  cases hb : stage2Body target (score 0) 18 18 with
  | stop a =>
    have h : stage2Trials target score 22 0 18 18 = [(18, 18)] :=
      stage2Trials_stop target score 21 0 18 18 a (by norm_num) hb
    rw [h]
    rfl
  | next c1 l1 =>
    have h : stage2Trials target score 22 0 18 18
        = (18, 18) :: stage2Trials target score 21 (0 + 1) c1 l1 :=
      stage2Trials_next target score 21 0 18 18 c1 l1 (by norm_num) hb
    rw [h]
    rfl

theorem stage2Body_down_stops (target q : ℚ) (crf last c1 l1 : Int) (hd : q - target ≤ 0) :
    stage2Body target q crf last ≠ Stage2Step.next c1 l1 := by
  intro h
  have := (stage2Body_next_full target q crf last c1 l1 h).1
  linarith

/-- C24: for every target and every sequence of scores, the trials of Stage 2
start at CRF 18 and run at strictly increasing CRFs, all in `18 .. 39`; at every
trial `stage2_last_crf ≤ crf`, so the branch that stops when
`crf < stage2_last_crf` is never taken; a pass whose score is not above the
target (the downward step) never reaches the end of the body, so it is never
followed by another trial. The list of trials is that of the loop: its length is
the number of trials the loop runs, and more fuel does not lengthen it. -/
theorem stage2_trial_crfs_increase (target : ℚ) (score : Nat → ℚ) :
    (stage2Trials target score 22 0 18 18).head? = some (18, 18)
      ∧ List.Chain' (fun a b : Int × Int => a.1 < b.1) (stage2Trials target score 22 0 18 18)
      ∧ (∀ p ∈ stage2Trials target score 22 0 18 18, p.2 ≤ p.1 ∧ 18 ≤ p.1 ∧ p.1 < 40)
      ∧ (∀ (q : ℚ) (crf last c1 l1 : Int), q - target ≤ 0 →
          stage2Body target q crf last ≠ Stage2Step.next c1 l1)
      ∧ (∀ extra : Nat, stage2Trials target score (22 + extra) 0 18 18
          = stage2Trials target score 22 0 18 18)
      ∧ ∃ r n, stage2Loop target score 22 0 18 18 = some (r, n)
          ∧ (stage2Trials target score 22 0 18 18).length = n := by
  obtain ⟨i1, i2, _⟩ := stage2Trials_inv target score 22 0 18 18 (by norm_num) (by norm_num)
  obtain ⟨r, hr⟩ := stage2Loop_fuel_22 target score
  refine ⟨stage2Trials_head target score, i2, i1,
    fun q crf last c1 l1 hd => stage2Body_down_stops target q crf last c1 l1 hd,
    stage2Trials_fuel_ge target score 22 0 18 18 r hr, r.1, r.2, hr, ?_⟩
  have := (stage2Trials_more_fuel target score 22 0 18 18 r hr).2
  omega

/-- C24 at the target 50 and a trial at CRF 18 that scores 40: the pass does not
continue to a trial at CRF 19. -/
theorem stage2_trial_crfs_increase_witness :
    stage2Body 50 40 18 18 ≠ Stage2Step.next 19 18 :=
  (stage2_trial_crfs_increase 50 (fun _ => 40)).2.2.2.1 40 18 18 19 18 (by norm_num)

/-! ## The value Stage 2 stores -/

theorem stage2Loop_assigned (target : ℚ) (score : Nat → ℚ) :
    ∀ (fuel k : Nat) (crf last : Int) (r : Option Int) (n : Nat),
      18 ≤ last → last ≤ crf → crf ≤ 40 → (crf = 18 ∨ last < crf) →
      stage2Loop target score fuel k crf last = some (r, n) →
      (∀ a, r = some a → 19 ≤ a ∧ a ≤ 40)
        ∧ (r = none ↔ crf = 40 ∨ ∃ (j : Nat) (c l : Int),
            (stage2Trials target score fuel k crf last)[j]? = some (c, l)
              ∧ score (k + j) - target > 0
              ∧ stage2Body target (score (k + j)) c l = Stage2Step.next 40 c) := by
  intro fuel
  induction fuel with
  | zero =>
    intro k crf last r n _ _ h40 _ h
    rw [stage2Loop] at h
    by_cases hc : crf < 40
    · rw [if_pos hc] at h
      exact absurd h (by simp)
    · rw [if_neg hc] at h
      simp only [Option.some.injEq, Prod.mk.injEq] at h
      rw [← h.1]
      refine ⟨fun a ha => absurd ha (by simp), ?_⟩
      constructor
      · intro _
        left
        omega
      · intro _
        rfl
  | succ fuel ih =>
    intro k crf last r n hl hle h40 hs h
    by_cases hc : crf < 40
    · cases hb : stage2Body target (score k) crf last with
      | stop a =>
        rw [stage2Loop_stop target score fuel k crf last a hc hb] at h
        simp only [Option.some.injEq, Prod.mk.injEq] at h
        rw [← h.1, stage2Trials_stop target score fuel k crf last a hc hb]
        constructor
        · intro a1 ha1
          simp only [Option.some.injEq] at ha1
          rw [← ha1]
          exact stage2Body_stop_range target (score k) crf last a hl hle hc hs hb
        · constructor
          · intro hn
            exact absurd hn (by simp)
          · rintro (h1 | ⟨j, c, l, hj, _, hbj⟩)
            · omega
            · exfalso
              cases j with
              | zero =>
                simp only [List.getElem?_cons_zero, Option.some.injEq, Prod.mk.injEq] at hj
                rw [← hj.1, ← hj.2, Nat.add_zero, hb] at hbj
                exact absurd hbj (by simp)
              | succ j =>
                simp at hj
      | next c1 l1 =>
        rw [stage2Loop_next target score fuel k crf last c1 l1 hc hb] at h
        obtain ⟨hd, e1, hlt, hc1⟩ := stage2Body_next_full target (score k) crf last c1 l1 hb
        obtain ⟨i1, i2⟩ := ih (k + 1) c1 l1 r n (by omega) (by omega) hc1
          (Or.inr (by omega)) h
        refine ⟨i1, ?_⟩
        rw [stage2Trials_next target score fuel k crf last c1 l1 hc hb, i2]
        constructor
        · rintro (h1 | ⟨j, c, l, hj, hdj, hbj⟩)
          · right
            refine ⟨0, crf, last, ?_, ?_, ?_⟩
            · simp
            · simpa using hd
            · rw [Nat.add_zero, hb, h1, e1]
          · right
            refine ⟨j + 1, c, l, ?_, ?_, ?_⟩
            · simpa using hj
            · rw [← Nat.add_assoc, Nat.add_right_comm]
              exact hdj
            · rw [← Nat.add_assoc, Nat.add_right_comm]
              exact hbj
        · rintro (h1 | ⟨j, c, l, hj, hdj, hbj⟩)
          · omega
          · cases j with
            | zero =>
              simp only [List.getElem?_cons_zero, Option.some.injEq, Prod.mk.injEq] at hj
              rw [← hj.1, ← hj.2, Nat.add_zero, hb] at hbj
              simp only [Stage2Step.next.injEq] at hbj
              left
              exact hbj.1
            | succ j =>
              right
              refine ⟨j, c, l, ?_, ?_, ?_⟩
              · simpa using hj
              · rw [Nat.add_right_comm, Nat.add_assoc]
                exact hdj
              · rw [Nat.add_right_comm, Nat.add_assoc]
                exact hbj
    · rw [stage2Loop_exit target score _ k crf last hc] at h
      simp only [Option.some.injEq, Prod.mk.injEq] at h
      rw [← h.1]
      refine ⟨fun a ha => absurd ha (by simp), ?_⟩
      constructor
      · intro _
        left
        omega
      · intro _
        rfl

/-- C25: for every target and every sequence of scores the loop of Stage 2
returns; whenever it assigns `global_crf_array` for the GOP the assigned value
is an integer in `19 .. 40`; and it ends without assigning exactly when some
trial (the `j`-th, at trial CRF `c`) scores above the target and its upward step
makes the next trial CRF exactly 40. -/
theorem stage2_assigned_crf_range (target : ℚ) (score : Nat → ℚ) :
    ∃ (r : Option Int) (n : Nat), stage2Loop target score 22 0 18 18 = some (r, n)
      ∧ (∀ a, r = some a → 19 ≤ a ∧ a ≤ 40)
      ∧ (r = none ↔ ∃ (j : Nat) (c l : Int),
          (stage2Trials target score 22 0 18 18)[j]? = some (c, l)
            ∧ score j - target > 0
            ∧ stage2Body target (score j) c l = Stage2Step.next 40 c) := by
  obtain ⟨r, hr⟩ := stage2Loop_fuel_22 target score
  obtain ⟨i1, i2⟩ := stage2Loop_assigned target score 22 0 18 18 r.1 r.2 (by norm_num)
    (by norm_num) (by norm_num) (Or.inl rfl) hr
  refine ⟨r.1, r.2, hr, i1, ?_⟩
  rw [i2]
  constructor
  · rintro (h | ⟨j, c, l, hj, hd, hb⟩)
    · exact absurd h (by norm_num)
    · exact ⟨j, c, l, hj, by simpa using hd, by simpa using hb⟩
  · rintro ⟨j, c, l, hj, hd, hb⟩
    exact Or.inr ⟨j, c, l, hj, by simpa using hd, by simpa using hb⟩

/-- C25 at the target 50 and trials that all score 40: the loop stops at its
first trial and the value it assigns, 19, lies in `19 .. 40`. -/
theorem stage2_assigned_crf_range_witness :
    stage2Loop 50 (fun _ => 40) 22 0 18 18 = some (some 19, 1)
      ∧ (19 : Int) ≤ 19 ∧ (19 : Int) ≤ 40 := by
  have hb : stage2Body 50 ((fun _ => 40 : Nat → ℚ) 0) 18 18 = Stage2Step.stop 19 := by
    rw [stage2Body_below 50 _ 18 18 (by norm_num) (by norm_num)]
    norm_num
  have hl : stage2Loop 50 (fun _ => 40) 22 0 18 18 = some (some 19, 1) :=
    stage2Loop_stop 50 (fun _ => 40) 21 0 18 18 19 (by norm_num) hb
  obtain ⟨r, n, h, hr, _⟩ := stage2_assigned_crf_range 50 (fun _ => 40)
  rw [hl] at h
  simp only [Option.some.injEq, Prod.mk.injEq] at h
  exact ⟨hl, hr 19 h.1.symm⟩

/-! ## The amount Stage 2 filters with, and the score Stage 0 carries over -/

theorem sharpFrames_decoded_at (env : Env) :
    decodeFrames env sharpFrames (initState env)
      = countFrame ⟨true, 256⟩ (processGop env (closeAtKeyframe env
          (decodeFrames env sharpGop (initState env)))) := by
  unfold sharpFrames
  rw [decodeFrames_append_single]
  unfold onFrame
  rw [if_pos]
  refine ⟨rfl, ?_⟩
  rw [decodeFrames_300]
  simp [MIN_NUM_OF_PER_GOP]

theorem carry_first_gop_state :
    (closeAtKeyframe carryEnv
        (decodeFrames carryEnv sharpGop (initState carryEnv))).global_decode_gop_num = 0
      ∧ (closeAtKeyframe carryEnv
        (decodeFrames carryEnv sharpGop (initState carryEnv))).global_stage1_gop_num = 0
      ∧ (closeAtKeyframe carryEnv
        (decodeFrames carryEnv sharpGop (initState carryEnv))).pre_vmaf_score = 0
      ∧ (closeAtKeyframe carryEnv
        (decodeFrames carryEnv sharpGop (initState carryEnv))).global_unsharp_array (-1) = 0 := by
  rw [decodeFrames_300]
  refine ⟨rfl, rfl, rfl, ?_⟩
  simp [closeAtKeyframe, initState, carryEnv, zeroEnv]

theorem carry_first_gop_rules :
    (∀ l, l < 1 → ¬ stage0RuleA (carryEnv.stage0_score 0) (closeAtKeyframe carryEnv
          (decodeFrames carryEnv sharpGop (initState carryEnv))) l
        ∧ ¬ stage0RuleB carryEnv (closeAtKeyframe carryEnv
          (decodeFrames carryEnv sharpGop (initState carryEnv))) l)
      ∧ stage0RuleA (carryEnv.stage0_score 0) (closeAtKeyframe carryEnv
          (decodeFrames carryEnv sharpGop (initState carryEnv))) 1 := by
  obtain ⟨h0, _, h2, h3⟩ := carry_first_gop_state
  constructor
  · intro l hl
    have e : l = 0 := by omega
    subst e
    constructor
    · unfold stage0RuleA stage0At
      rw [h2]
      norm_num [carryEnv]
    · unfold stage0RuleB
      rw [h0]
      norm_num [h3, unsharp]
  · unfold stage0RuleA stage0At
    norm_num [carryEnv]

theorem stage0Loop_rule_a_at_one (env : Env) (score : Nat → ℚ) (st : State)
    (hbefore : ∀ l, l < 1 → ¬ stage0RuleA score st l ∧ ¬ stage0RuleB env st l)
    (ha : stage0RuleA score st 1) :
    (stage0Loop env score 10 0 st).filter_descr = some 1
      ∧ (stage0Loop env score 10 0 st).pre_vmaf_score = score 0
      ∧ (stage0Loop env score 10 0 st).global_unsharp_array st.global_decode_gop_num
          = unsharp env 0 := by
  rw [(stage0Loop_first_stop env score st 1 (by norm_num) hbefore).1 ha]
  refine ⟨rfl, rfl, ?_⟩
  simp only [Function.update_same]
  norm_num

theorem stage0Loop_rule_a_at_zero (env : Env) (score : Nat → ℚ) (st : State)
    (ha : stage0RuleA score st 0) :
    (stage0Loop env score 10 0 st).filter_descr = some 0
      ∧ (stage0Loop env score 10 0 st).global_unsharp_array st.global_decode_gop_num
          = env.unsharp_outside (-1) := by
  rw [(stage0Loop_first_stop env score st 0 (by norm_num)
    (fun l hl => absurd hl (by omega))).1 ha]
  refine ⟨rfl, ?_⟩
  simp only [Function.update_same]
  norm_num [unsharp]

theorem carry_first_gop_processed :
    (processGop carryEnv (closeAtKeyframe carryEnv
        (decodeFrames carryEnv sharpGop (initState carryEnv)))).filter_descr = some 1
      ∧ (processGop carryEnv (closeAtKeyframe carryEnv
        (decodeFrames carryEnv sharpGop (initState carryEnv)))).pre_vmaf_score = 50
      ∧ (processGop carryEnv (closeAtKeyframe carryEnv
        (decodeFrames carryEnv sharpGop (initState carryEnv)))).global_unsharp_array 0
          = unsharp carryEnv 0 := by
  obtain ⟨e1, e2, e3⟩ := processGop_stage0 carryEnv (closeAtKeyframe carryEnv
    (decodeFrames carryEnv sharpGop (initState carryEnv)))
  obtain ⟨l1, l2, l3⟩ := stage0Loop_rule_a_at_one carryEnv (carryEnv.stage0_score 0)
    (closeAtKeyframe carryEnv (decodeFrames carryEnv sharpGop (initState carryEnv)))
    carry_first_gop_rules.1 carry_first_gop_rules.2
  rw [carry_first_gop_state.1] at l3
  rw [e1, e2, e3, carry_first_gop_state.2.1, stage0_unsharp_array, stage0_filter_descr]
  have e4 : (stage0 carryEnv (carryEnv.stage0_score 0) (closeAtKeyframe carryEnv
      (decodeFrames carryEnv sharpGop (initState carryEnv)))).pre_vmaf_score
      = (stage0Loop carryEnv (carryEnv.stage0_score 0) 10 0 (closeAtKeyframe carryEnv
        (decodeFrames carryEnv sharpGop (initState carryEnv)))).pre_vmaf_score := rfl
  rw [e4, l2]
  refine ⟨l1, ?_, l3⟩
  norm_num [carryEnv]

/-- C22, the code at a failing input: a GOP of 300 frames closed by a keyframe,
whose Stage-0 trials score 50 at grid index 0 and 40 at index 1. Rule (a) fires
first at `i = 1`, and Stage 0 records the amount `unsharp[0] = 0.0` for the GOP;
the filter description keeps the string `unsharp_val[1]` that line 6930 copied at
the head of that iteration, so Stage 2 filters its sample with `luma_amount`
0.1, the amount of index `i`, not with the recorded amount of index `i - 1`. -/
theorem stage2_filters_with_rejected_amount :
    stage0RuleA (carryEnv.stage0_score 0) (closeAtKeyframe carryEnv
        (decodeFrames carryEnv sharpGop (initState carryEnv))) 1
      ∧ ¬ stage0RuleA (carryEnv.stage0_score 0) (closeAtKeyframe carryEnv
        (decodeFrames carryEnv sharpGop (initState carryEnv))) 0
      ∧ ¬ stage0RuleB carryEnv (closeAtKeyframe carryEnv
        (decodeFrames carryEnv sharpGop (initState carryEnv))) 0
      ∧ (processGop carryEnv (closeAtKeyframe carryEnv
        (decodeFrames carryEnv sharpGop (initState carryEnv)))).global_unsharp_array 0 = 0
      ∧ stage2_luma_amount (processGop carryEnv (closeAtKeyframe carryEnv
        (decodeFrames carryEnv sharpGop (initState carryEnv)))) = some (1 / 10)
      ∧ (decodeFrames carryEnv sharpFrames (initState carryEnv)).global_unsharp_array 0 = 0
      ∧ stage2_luma_amount (decodeFrames carryEnv sharpFrames (initState carryEnv))
          = some (1 / 10) := by
  obtain ⟨p1, p2, p3⟩ := carry_first_gop_processed
  have u0 : unsharp carryEnv 0 = 0 := by
    norm_num [unsharp]
  have a : (processGop carryEnv (closeAtKeyframe carryEnv
      (decodeFrames carryEnv sharpGop (initState carryEnv)))).global_unsharp_array 0 = 0 := by
    rw [p3, u0]
  have b : stage2_luma_amount (processGop carryEnv (closeAtKeyframe carryEnv
      (decodeFrames carryEnv sharpGop (initState carryEnv)))) = some (1 / 10) := by
    unfold stage2_luma_amount
    rw [p1]
    norm_num [unsharp_val]
  refine ⟨carry_first_gop_rules.2, (carry_first_gop_rules.1 0 (by norm_num)).1,
    (carry_first_gop_rules.1 0 (by norm_num)).2, a, b, ?_, ?_⟩
  · rw [sharpFrames_decoded_at]
    exact a
  · rw [sharpFrames_decoded_at]
    exact b

theorem carry_second_gop_state :
    (closeAtEof carryEnv
        (decodeFrames carryEnv sharpFrames (initState carryEnv))).pre_vmaf_score = 50
      ∧ (closeAtEof carryEnv
        (decodeFrames carryEnv sharpFrames (initState carryEnv))).global_decode_gop_num = 2
      ∧ (closeAtEof carryEnv
        (decodeFrames carryEnv sharpFrames (initState carryEnv))).global_stage1_gop_num = 1 := by
  rw [sharpFrames_decoded_at]
  refine ⟨carry_first_gop_processed.2.1, ?_, ?_⟩
  · obtain ⟨fd, pre, ua, ta, pb, pq, ca, e⟩ := processGop_shape carryEnv
      (closeAtKeyframe carryEnv (decodeFrames carryEnv sharpGop (initState carryEnv)))
    rw [e, decodeFrames_300]
    rfl
  · obtain ⟨fd, pre, ua, ta, pb, pq, ca, e⟩ := processGop_shape carryEnv
      (closeAtKeyframe carryEnv (decodeFrames carryEnv sharpGop (initState carryEnv)))
    rw [e, decodeFrames_300]
    rfl

/-- C23, the code at a failing input: a GOP of 300 frames closed by a keyframe,
then a GOP of one frame closed by end of input; the Stage-0 trials of GOP 0
score 50 and 40, the first trial of GOP 1 scores 40. `pre_vmaf_score` is
initialised once (line 6643) and still holds 50 when Stage 0 of GOP 1 starts, so
rule (a) fires there at grid index `i = 0` and line 6963 stores `unsharp[-1]`,
the cell before the array (which holds 7 here), in the table. -/
theorem stage0_rule_a_fires_at_index_zero :
    (closeAtEof carryEnv
        (decodeFrames carryEnv sharpFrames (initState carryEnv))).pre_vmaf_score = 50
      ∧ carryEnv.stage0_score 1 0 = 40
      ∧ stage0RuleA (carryEnv.stage0_score 1) (closeAtEof carryEnv
          (decodeFrames carryEnv sharpFrames (initState carryEnv))) 0
      ∧ (EaglePreProcess carryEnv sharpFrames).filter_descr = some 0
      ∧ (EaglePreProcess carryEnv sharpFrames).global_unsharp_array 2
          = carryEnv.unsharp_outside (-1)
      ∧ (EaglePreProcess carryEnv sharpFrames).global_unsharp_array 2 = 7 := by
  obtain ⟨s1, s2, s3⟩ := carry_second_gop_state
  have hs : carryEnv.stage0_score 1 0 = 40 := by
    norm_num [carryEnv]
  have ha : stage0RuleA (carryEnv.stage0_score 1) (closeAtEof carryEnv
      (decodeFrames carryEnv sharpFrames (initState carryEnv))) 0 := by
    unfold stage0RuleA stage0At
    rw [s1, hs]
    norm_num
  obtain ⟨l1, l2⟩ := stage0Loop_rule_a_at_zero carryEnv (carryEnv.stage0_score 1)
    (closeAtEof carryEnv (decodeFrames carryEnv sharpFrames (initState carryEnv))) ha
  rw [s2] at l2
  obtain ⟨e1, e2, _⟩ := processGop_stage0 carryEnv (closeAtEof carryEnv
    (decodeFrames carryEnv sharpFrames (initState carryEnv)))
  have hcell : (EaglePreProcess carryEnv sharpFrames).global_unsharp_array 2
      = carryEnv.unsharp_outside (-1) := by
    unfold EaglePreProcess
    rw [e1, s3, stage0_unsharp_array, l2]
  refine ⟨s1, hs, ha, ?_, hcell, ?_⟩
  · unfold EaglePreProcess
    rw [e2, s3, stage0_filter_descr, l1]
  · rw [hcell]
    rfl

/-! ## The frames kept in the sample buffer -/

theorem sampleGop_append_single {α : Type} (l : List α) (x : α) :
    sampleGop (l ++ [x]) = storeFrame (sampleGop l) x := by
  unfold sampleGop
  rw [List.foldl_append]
  rfl

theorem sampleGop_state {α : Type} (frames : List α) :
    (sampleGop frames).dec_frame_num = (frames.length : Int)
      ∧ ∀ i : Int, (sampleGop frames).pVideoBuffer i
          = if 0 ≤ i ∧ i ≤ DECODE_FRAME_NUM_PER_GOP then frames[i.toNat]? else none := by
  induction frames using List.reverseRecOn with
  | nil =>
    refine ⟨rfl, fun i => ?_⟩
    simp [sampleGop]
  | append_singleton l x ih =>
    obtain ⟨hd, hs⟩ := ih
    rw [sampleGop_append_single]
    constructor
    · simp only [storeFrame, hd, List.length_append, List.length_singleton]
      push_cast
      rfl
    · intro i
      simp only [storeFrame, hd]
      by_cases hi : i = (l.length : Int)
      · subst hi
        by_cases h50 : (l.length : Int) ≤ DECODE_FRAME_NUM_PER_GOP
        · rw [if_pos h50, Function.update_same, if_pos ⟨by omega, h50⟩]
          simp
        · rw [if_neg h50, hs, if_neg (fun h => h50 h.2), if_neg (fun h => h50 h.2)]
      · have hupd : (if (l.length : Int) ≤ DECODE_FRAME_NUM_PER_GOP then
              Function.update (sampleGop l).pVideoBuffer (l.length : Int) (some x)
            else (sampleGop l).pVideoBuffer) i = (sampleGop l).pVideoBuffer i := by
          split_ifs
          · rw [Function.update_noteq hi]
          · rfl
        rw [hupd, hs]
        by_cases hc : 0 ≤ i ∧ i ≤ DECODE_FRAME_NUM_PER_GOP
        · rw [if_pos hc, if_pos hc]
          by_cases hlt : i.toNat < l.length
          · rw [List.getElem?_append_left hlt]
          · have hgt : l.length < i.toNat := by omega
            rw [List.getElem?_eq_none (by omega), List.getElem?_eq_none (by
              simp only [List.length_append, List.length_singleton]
              omega)]
        · rw [if_neg hc, if_neg hc]

/-- C30, amended: for every GOP, the sampler copies the pixels of the decoded
frames with index `0 .. 50` of that GOP into the sample buffer `pVideoBuffer`,
frame `i` into slot `i`: at most 51 frames, as the guard of line 6815 is
`dec_frame_num <= DECODE_FRAME_NUM_PER_GOP`. Every later frame of the GOP is
counted in `dec_frame_num` but its pixels are not stored. -/
theorem sampler_keeps_first_51_frames {α : Type} (frames : List α) :
    (sampleGop frames).dec_frame_num = (frames.length : Int)
      ∧ (∀ i : Nat, i ≤ 50 → (sampleGop frames).pVideoBuffer (i : Int) = frames[i]?)
      ∧ (∀ i : Int, i < 0 ∨ 50 < i → (sampleGop frames).pVideoBuffer i = none) := by
  obtain ⟨hd, hs⟩ := sampleGop_state frames
  refine ⟨hd, ?_, ?_⟩
  · intro i hi
    rw [hs, if_pos ⟨by omega, by unfold DECODE_FRAME_NUM_PER_GOP; omega⟩]
    simp
  · intro i hi
    rw [hs, if_neg]
    unfold DECODE_FRAME_NUM_PER_GOP
    omega

/-- C30, amended, on a GOP of 60 frames numbered `0 .. 59`: slot 7 holds frame 7
and slot 51 holds nothing. -/
theorem sampler_keeps_first_51_frames_witness :
    (sampleGop (List.range 60)).pVideoBuffer 7 = some 7
      ∧ (sampleGop (List.range 60)).pVideoBuffer 51 = none := by
  obtain ⟨_, h1, h2⟩ := sampler_keeps_first_51_frames (List.range 60)
  refine ⟨?_, h2 51 (Or.inr (by norm_num))⟩
  have := h1 7 (by norm_num)
  simpa using this

/-- C30 as stated fails: of a GOP of 60 frames numbered `0 .. 59` the frame of
index 50, the 51st, is copied into the buffer. -/
theorem sampler_copies_frame_50 :
    (sampleGop (List.range 60)).pVideoBuffer 50 = some 50 := by
  have := (sampleGop_state (List.range 60)).2 50
  rw [this]
  simp [DECODE_FRAME_NUM_PER_GOP]

/-! ## The sharpness statistic as a binomial window -/

theorem specPixel_bounds (data : Nat → Nat) (width : Nat) (u v : Int) :
    0 ≤ specPixel data width u v ∧ specPixel data width u v ≤ 255 := by
  unfold specPixel
  split_ifs
  · constructor
    · exact Int.natCast_nonneg _
    · have : data (v.toNat * width + u.toNat) % 256 < 256 := Nat.mod_lt _ (by norm_num)
      omega
  · norm_num

theorem specPixel_left (data : Nat → Nat) (width : Nat) (u v : Int) (h : u < 2) :
    specPixel data width u v = 0 := by
  unfold specPixel
  rw [if_neg]
  omega

theorem specPixel_top (data : Nat → Nat) (width : Nat) (u v : Int) (h : v < 2) :
    specPixel data width u v = 0 := by
  unfold specPixel
  rw [if_neg]
  omega

theorem rowBlur_bounds (data : Nat → Nat) (width : Nat) (x y : Int) :
    0 ≤ rowBlur data width x y ∧ rowBlur data width x y ≤ 4080 := by
  unfold rowBlur
  have h0 := specPixel_bounds data width x y
  have h1 := specPixel_bounds data width (x - 1) y
  have h2 := specPixel_bounds data width (x - 2) y
  have h3 := specPixel_bounds data width (x - 3) y
  have h4 := specPixel_bounds data width (x - 4) y
  constructor <;> omega

theorem rowBlur_top (data : Nat → Nat) (width : Nat) (x y : Int) (h : y < 2) :
    rowBlur data width x y = 0 := by
  unfold rowBlur
  simp [specPixel_top data width _ y h]

theorem specWindow_eq (data : Nat → Nat) (width : Nat) (x y : Int) :
    specWindow data width x y
      = rowBlur data width x y + 4 * rowBlur data width x (y - 1)
        + 6 * rowBlur data width x (y - 2) + 4 * rowBlur data width x (y - 3)
        + rowBlur data width x (y - 4) := by
  unfold specWindow rowBlur
  simp only [Finset.sum_range_succ, Finset.sum_range_zero, binomial5]
  push_cast
  simp only [sub_zero]
  ring

theorem specWindow_bounds (data : Nat → Nat) (width : Nat) (x y : Int) :
    0 ≤ specWindow data width x y ∧ specWindow data width x y ≤ 255 * 256 := by
  rw [specWindow_eq]
  have h0 := rowBlur_bounds data width x y
  have h1 := rowBlur_bounds data width x (y - 1)
  have h2 := rowBlur_bounds data width x (y - 2)
  have h3 := rowBlur_bounds data width x (y - 3)
  have h4 := rowBlur_bounds data width x (y - 4)
  constructor <;> omega

/-- One value through the cascade of two passes, when no sum leaves the range of
`int`: the output is the binomial sum of the value and the four before it, and
the cells move on by one position. -/
theorem unsharpCascade_exact (a b c d t M : Int) (cell : Nat → Int) (hM : 16 * M < 2 ^ 31)
    (hc : CascadeInv a b c d cell)
    (ha : 0 ≤ a ∧ a ≤ M) (hb : 0 ≤ b ∧ b ≤ M) (hcc : 0 ≤ c ∧ c ≤ M) (hd : 0 ≤ d ∧ d ≤ M)
    (ht : 0 ≤ t ∧ t ≤ M) :
    (unsharpCascade 2 0 cell t).2 = t + 4 * a + 6 * b + 4 * c + d
      ∧ CascadeInv t a b c (unsharpCascade 2 0 cell t).1 := by
  obtain ⟨e, e0, e1, e2, e3⟩ := unsharpCascade_two cell t
  obtain ⟨c0, c1, c2, c3⟩ := hc
  unfold CascadeInv
  rw [e, e0, e1, e2, e3, c0, c1, c2, c3]
  norm_num at hM
  have k1 : toInt32 (a + t) = a + t :=
    toInt32_of_small _ (by omega) (by norm_num; omega)
  have k2 : toInt32 (a + b + (a + t)) = a + b + (a + t) :=
    toInt32_of_small _ (by omega) (by norm_num; omega)
  have k3 : toInt32 (a + 2 * b + c + (a + b + (a + t))) = a + 2 * b + c + (a + b + (a + t)) :=
    toInt32_of_small _ (by omega) (by norm_num; omega)
  have k4 : toInt32 (a + 3 * b + 3 * c + d + (a + 2 * b + c + (a + b + (a + t))))
      = a + 3 * b + 3 * c + d + (a + 2 * b + c + (a + b + (a + t))) :=
    toInt32_of_small _ (by omega) (by norm_num; omega)
  rw [k1, k2, k3, k4]
  refine ⟨by ring, ?_, ?_, ?_, ?_⟩
  · exact Int.emod_eq_of_lt (by omega) (by norm_num; omega)
  · rw [Int.emod_eq_of_lt (by omega) (by norm_num; omega)]
    ring
  · rw [Int.emod_eq_of_lt (by omega) (by norm_num; omega)]
    ring
  · rw [Int.emod_eq_of_lt (by omega) (by norm_num; omega)]
    ring

theorem specPixel_interior (data : Nat → Nat) (width x y : Nat) (hx : 2 ≤ x) (hy : 2 ≤ y) :
    specPixel data width (x : Int) (y : Int) = ((data (y * width + x) % 256 : Nat) : Int) := by
  unfold specPixel
  rw [if_pos ⟨by omega, by omega⟩]
  simp

/-- One row of the loop: every pixel adds the response of the specification, and
the cells of the columns move on to the next row. -/
theorem unsharpRow_exact (data : Nat → Nat) (width y : Nat) (hy : 2 ≤ y) :
    ∀ (n x : Nat) (sr : Nat → Int) (sc : Nat → Nat → Int) (acc : Int), 2 ≤ x →
      CascadeInv (specPixel data width ((x : Int) - 1) y) (specPixel data width ((x : Int) - 2) y)
        (specPixel data width ((x : Int) - 3) y) (specPixel data width ((x : Int) - 4) y) sr →
      (∀ col : Nat, 2 ≤ col → col < x → ColInv data width col ((y : Int) + 1) sc) →
      (∀ col : Nat, x ≤ col → col < x + n → ColInv data width col (y : Int) sc) →
      (∀ col : Nat, 2 ≤ col → col < x + n →
          ColInv data width col ((y : Int) + 1)
            (unsharpRow data width y 65536 2 2 n x sr sc acc).1)
        ∧ (unsharpRow data width y 65536 2 2 n x sr sc acc).2
          = acc + ∑ k in Finset.range n, specResponse data width ((x + k : Nat) : Int) (y : Int) := by
  intro n
  induction n with
  | zero =>
    intro x sr sc acc _ _ hdone _
    rw [unsharpRow]
    exact ⟨fun col h2 hlt => hdone col h2 (by omega), by simp⟩
  | succ n ih =>
    intro x sr sc acc hx hsr hdone htodo
    rw [unsharpRow]
    rw [← specPixel_interior data width x y hx hy]
    have hh := unsharpCascade_exact _ _ _ _ (specPixel data width (x : Int) y) 255 sr
      (by norm_num) hsr (specPixel_bounds _ _ _ _) (specPixel_bounds _ _ _ _)
      (specPixel_bounds _ _ _ _) (specPixel_bounds _ _ _ _) (specPixel_bounds _ _ _ _)
    have hrow : (unsharpCascade 2 0 sr (specPixel data width (x : Int) y)).2
        = rowBlur data width x y := by
      rw [hh.1]
      rfl
    rw [hrow]
    have hcol := htodo x (le_refl _) (by omega)
    have hv := unsharpCascade_exact _ _ _ _ (rowBlur data width x y) 4080
      (fun z => sc z (x + 2)) (by norm_num) hcol (rowBlur_bounds _ _ _ _)
      (rowBlur_bounds _ _ _ _) (rowBlur_bounds _ _ _ _) (rowBlur_bounds _ _ _ _)
      (rowBlur_bounds _ _ _ _)
    have hwin : (unsharpCascade 2 0 (fun z => sc z (x + 2)) (rowBlur data width x y)).2
        = specWindow data width x y := by
      rw [hv.1, specWindow_eq]
    rw [hwin, unsharpRes_const]
    have e1 : (((x + 1 : Nat) : Int)) - 1 = (x : Int) := by push_cast; ring
    have e2 : (((x + 1 : Nat) : Int)) - 2 = (x : Int) - 1 := by push_cast; ring
    have e3 : (((x + 1 : Nat) : Int)) - 3 = (x : Int) - 2 := by push_cast; ring
    have e4 : (((x + 1 : Nat) : Int)) - 4 = (x : Int) - 3 := by push_cast; ring
    have f1 : (y : Int) + 1 - 1 = y := by ring
    have f2 : (y : Int) + 1 - 2 = (y : Int) - 1 := by ring
    have f3 : (y : Int) + 1 - 3 = (y : Int) - 2 := by ring
    have f4 : (y : Int) + 1 - 4 = (y : Int) - 3 := by ring
    have key := ih (x + 1) (unsharpCascade 2 0 sr (specPixel data width (x : Int) y)).1
      (fun z c => if c = x + 2
        then (unsharpCascade 2 0 (fun z => sc z (x + 2)) (rowBlur data width x y)).1 z
        else sc z c)
      (acc + (specPixel data width (x : Int) y - (specWindow data width x y + 128) / 256))
      (by omega)
      (by
        rw [e1, e2, e3, e4]
        exact hh.2)
      (fun col h2 hlt => by
        by_cases hc : col = x
        · subst hc
          unfold ColInv
          simp only [if_true]
          rw [f1, f2, f3, f4]
          exact hv.2
        · have hne : ¬ col + 2 = x + 2 := by omega
          unfold ColInv
          simp only [if_neg hne]
          exact hdone col h2 (by omega))
      (fun col hle hlt => by
        have hne : ¬ col + 2 = x + 2 := by omega
        unfold ColInv
        simp only [if_neg hne]
        exact htodo col (by omega) (by omega))
    refine ⟨fun col h2 hlt => key.1 col h2 (by omega), ?_⟩
    rw [key.2, Finset.sum_range_succ']
    have e : ∀ k : Nat, ((x + 1 + k : Nat) : Int) = ((x + (k + 1) : Nat) : Int) := by
      intro k
      push_cast
      ring
    simp only [e]
    unfold specResponse
    simp only [Nat.add_zero]
    ring

theorem cascadeInv_zero : CascadeInv 0 0 0 0 (fun _ => 0) := by
  unfold CascadeInv
  simp

/-- The rows of the loop: every row adds the responses of its pixels. -/
theorem unsharpRows_exact (data : Nat → Nat) (width : Nat) :
    ∀ (m y : Nat) (sc : Nat → Nat → Int) (acc : Int), 2 ≤ y →
      (∀ col : Nat, 2 ≤ col → col < 2 + (width - 1 - 2) → ColInv data width col (y : Int) sc) →
      unsharpRows data width 65536 2 2 m y sc acc
        = acc + ∑ k in Finset.range m, ∑ j in Finset.range (width - 1 - 2),
            specResponse data width ((2 + j : Nat) : Int) ((y + k : Nat) : Int) := by
  intro m
  induction m with
  | zero =>
    intro y sc acc _ _
    rw [unsharpRows]
    simp
  | succ m ih =>
    intro y sc acc hy hsc
    rw [unsharpRows]
    have hsr : CascadeInv (specPixel data width (((2 : Nat) : Int) - 1) y)
        (specPixel data width (((2 : Nat) : Int) - 2) y)
        (specPixel data width (((2 : Nat) : Int) - 3) y)
        (specPixel data width (((2 : Nat) : Int) - 4) y) (fun _ => 0) := by
      rw [specPixel_left _ _ _ _ (by norm_num), specPixel_left _ _ _ _ (by norm_num),
        specPixel_left _ _ _ _ (by norm_num), specPixel_left _ _ _ _ (by norm_num)]
      exact cascadeInv_zero
    have hrow := unsharpRow_exact data width y hy (width - 1 - 2) 2 (fun _ => 0) sc acc
      (le_refl _) hsr (fun col h2 hlt => absurd hlt (by omega))
      (fun col h2 hlt => hsc col h2 hlt)
    have hrec := ih (y + 1)
      (unsharpRow data width y 65536 2 2 (width - 1 - 2) 2 (fun _ => 0) sc acc).1
      (unsharpRow data width y 65536 2 2 (width - 1 - 2) 2 (fun _ => 0) sc acc).2
      (by omega)
      (fun col h2 hlt => by
        have := hrow.1 col h2 hlt
        push_cast
        exact this)
    rw [hrec, hrow.2, Finset.sum_range_succ']
    have e : ∀ k : Nat, ((y + 1 + k : Nat) : Int) = ((y + (k + 1) : Nat) : Int) := by
      intro k
      push_cast
      ring
    simp only [e, Nat.add_zero]
    ring

theorem sum_Icc_two (f : Nat → Int) (n : Nat) :
    ∑ x in Finset.Icc 2 (n - 2), f x = ∑ j in Finset.range (n - 1 - 2), f (2 + j) := by
  rw [← Nat.Ico_succ_right, Finset.sum_Ico_eq_sum_range]
  have : (n - 2).succ - 2 = n - 1 - 2 := by omega
  rw [this]

/-- The call `get_unsharp_val(data, width, height, 1.0, 5, 5)` returns the sum of
the specification's responses over `2 ≤ x ≤ width - 2`, `2 ≤ y ≤ height - 2`. -/
theorem get_unsharp_val_eq_spec (data : Nat → Nat) (width height : Nat) :
    get_unsharp_val data width height 1 5 5 = specUnsharpVal data width height := by
  rw [get_unsharp_val_call]
  have h := unsharpRows_exact data width (height - 1 - 2) 2 (fun _ _ => 0) 0 (le_refl _)
    (fun col _ _ => by
      unfold ColInv
      rw [rowBlur_top _ _ _ _ (by norm_num), rowBlur_top _ _ _ _ (by norm_num),
        rowBlur_top _ _ _ _ (by norm_num), rowBlur_top _ _ _ _ (by norm_num)]
      exact cascadeInv_zero)
  rw [h, zero_add]
  unfold specUnsharpVal
  rw [sum_Icc_two]
  refine Finset.sum_congr rfl (fun k _ => ?_)
  rw [sum_Icc_two]

/-! ## The statistic: a signed sum over a causal window -/

set_option maxRecDepth 100000 in
theorem dotPlane_value : get_unsharp_val dotPlane 7 7 1 5 5 = -1 := by
  rw [get_unsharp_val_call]
  decide

set_option maxRecDepth 100000 in
theorem edgePlane_value : get_unsharp_val edgePlane 5 4 1 5 5 = 100 := by
  rw [get_unsharp_val_call]
  decide

/-- C27: for every 8-bit plane, `get_unsharp_val(data, W, H, 1.0, 5, 5)` equals
the sum over `2 ≤ x ≤ W - 2`, `2 ≤ y ≤ H - 2` of
`data[y][x] - floor((C(x, y) + 128) / 256)`, where `C(x, y)` is the sum over
`i, j` in `0 .. 4` of `b_i * b_j * D(x - i, y - j)`, `b = (1, 4, 6, 4, 1)`, and
`D(u, v)` is `data[v][u]` for `u ≥ 2`, `v ≥ 2` and 0 otherwise: the cascaded
running sums are a causal 5 by 5 binomial window ending at `(x, y)`, with zero
history at the left and top edges. The horizontal sums lie in `0 .. 4080` and the
window sums in `0 .. 255 * 256`; the code's sums, taken modulo `2 ^ 32` in the
embedding, equal these exact sums, so none of them wraps. -/
theorem get_unsharp_val_is_causal_window (data : Nat → Nat) (width height : Nat) :
    get_unsharp_val data width height 1 5 5
        = ∑ y in Finset.Icc 2 (height - 2), ∑ x in Finset.Icc 2 (width - 2),
            (specPixel data width (x : Int) (y : Int)
              - (specWindow data width (x : Int) (y : Int) + 128) / 256)
      ∧ (∀ x y : Int, 0 ≤ specWindow data width x y ∧ specWindow data width x y ≤ 255 * 256)
      ∧ (∀ x y : Int, 0 ≤ rowBlur data width x y ∧ rowBlur data width x y ≤ 4080)
      ∧ (∀ x y : Int, specWindow data width x y
          = rowBlur data width x y + 4 * rowBlur data width x (y - 1)
            + 6 * rowBlur data width x (y - 2) + 4 * rowBlur data width x (y - 3)
            + rowBlur data width x (y - 4)) := by
  refine ⟨?_, specWindow_bounds data width, rowBlur_bounds data width,
    specWindow_eq data width⟩
  rw [get_unsharp_val_eq_spec]
  rfl

/-- C26, amended: for every 8-bit luma plane, the call
`get_unsharp_val(data, width, height, 1.0, 5, 5)` returns the sum of the signed
per-pixel responses (pixel minus smoothed value) over the pixels
`2 ≤ x ≤ width - 2`, `2 ≤ y ≤ height - 2`; the sum of the absolute values of the
responses bounds its absolute value, and the result itself can be negative. -/
theorem get_unsharp_val_is_signed_sum (data : Nat → Nat) (width height : Nat) :
    get_unsharp_val data width height 1 5 5 = specUnsharpVal data width height
      ∧ |get_unsharp_val data width height 1 5 5| ≤ specAbsUnsharpVal data width height
      ∧ get_unsharp_val dotPlane 7 7 1 5 5 < 0 := by
  refine ⟨get_unsharp_val_eq_spec data width height, ?_, ?_⟩
  · rw [get_unsharp_val_eq_spec]
    unfold specUnsharpVal specAbsUnsharpVal
    refine le_trans (Finset.abs_sum_le_sum_abs _ _) ?_
    exact Finset.sum_le_sum (fun y _ => Finset.abs_sum_le_sum_abs _ _)
  · rw [dotPlane_value]
    norm_num

/-- C26 as stated fails: on the plane of 7 by 7 pixels that is black except for
the value 8 at `(2, 2)`, `get_unsharp_val` returns -1, which is negative and so
not the sum of the absolute responses; and on the plane of 5 by 4 pixels that is
black except for the value 100 at `(3, 2)` it returns 100, the response of a
pixel in the column `x = width - 2`. -/
theorem get_unsharp_val_negative :
    get_unsharp_val dotPlane 7 7 1 5 5 = -1
      ∧ get_unsharp_val dotPlane 7 7 1 5 5 ≠ specAbsUnsharpVal dotPlane 7 7
      ∧ get_unsharp_val edgePlane 5 4 1 5 5 = 100 := by
  have h : get_unsharp_val dotPlane 7 7 1 5 5 = -1 := dotPlane_value
  refine ⟨h, ?_, ?_⟩
  · rw [h]
    have : 0 ≤ specAbsUnsharpVal dotPlane 7 7 := by
      unfold specAbsUnsharpVal
      exact Finset.sum_nonneg (fun y _ => Finset.sum_nonneg (fun x _ => abs_nonneg _))
    omega
  · exact edgePlane_value

/-! # Fourth part: runs inside the per-GOP arrays, and runs on which the code fails -/

/-! ## The cells a run writes

The per-GOP arrays have `TOTAL_GOP_NUM = 1000` cells and the code checks no
index. A GOP closed by a keyframe holds at least 300 frames, so an input of
fewer than `300 * 999` frames closes at most 998 GOPs by a keyframe, and every
cell the run writes, at the offsets `0 .. total_gop_num + 1`, lies inside the
arrays. The statements on whole runs below are about such inputs. -/

theorem steady_single_hint :
    get_unsharp (pixelSharpness steadyEnv (countFrame ⟨true, 256⟩ (initState steadyEnv)))
      = 8 / 10 := by
  have e : pixelSharpness steadyEnv (countFrame ⟨true, 256⟩ (initState steadyEnv)) = 1 := by
    simp only [pixelSharpness, countFrame, initState, steadyEnv, zeroEnv]
    norm_num
  rw [e]
  norm_num [get_unsharp]

theorem steady_no_rule_a (st : State) (hp : st.pre_vmaf_score = 0) :
    ∀ l, ¬ stage0RuleA (steadyEnv.stage0_score 0) st l := by
  intro l
  unfold stage0RuleA
  cases l with
  | zero =>
    simp only [stage0At]
    rw [hp]
    norm_num [steadyEnv]
  | succ l => simp [stage0At, steadyEnv]

/-- A one-frame input of per-pixel sharpness 1 whose Stage-0 trials all score 90:
the loop stops at grid index 9 and leaves the table as the sampler wrote it. -/
theorem steady_single_run :
    (EaglePreProcess steadyEnv [⟨true, 256⟩]).filter_descr = some 9
      ∧ (EaglePreProcess steadyEnv [⟨true, 256⟩]).global_unsharp_array
          = Function.update steadyEnv.unsharp_init 0 (8 / 10) := by
  obtain ⟨hg, hp, hu⟩ := single_unsharp_fields steadyEnv ⟨true, 256⟩
  rw [steady_single_hint] at hu
  have hA : ∀ l, ¬ stage0RuleA (steadyEnv.stage0_score 0)
      (closeAtEof steadyEnv (countFrame ⟨true, 256⟩ (initState steadyEnv))) l :=
    steady_no_rule_a _ hp
  have hBval : ∀ l : Nat, stage0RuleB steadyEnv
      (closeAtEof steadyEnv (countFrame ⟨true, 256⟩ (initState steadyEnv))) l
      ↔ unsharp steadyEnv l > 8 / 10 := by
    intro l
    unfold stage0RuleB
    rw [hg, hu]
    simp
  have hB : ∀ l, l < 9 → ¬ stage0RuleB steadyEnv
      (closeAtEof steadyEnv (countFrame ⟨true, 256⟩ (initState steadyEnv))) l := by
    intro l hl
    rw [hBval]
    interval_cases l <;> norm_num [unsharp]
  have hB9 : stage0RuleB steadyEnv
      (closeAtEof steadyEnv (countFrame ⟨true, 256⟩ (initState steadyEnv))) 9 := by
    rw [hBval]
    norm_num [unsharp]
  have hstop := (stage0Loop_first_stop steadyEnv (steadyEnv.stage0_score 0)
    (closeAtEof steadyEnv (countFrame ⟨true, 256⟩ (initState steadyEnv))) 9 (by norm_num)
    (fun l hl => ⟨hA l, hB l hl⟩)).2 (hA 9) hB9
  have e : (closeAtEof steadyEnv
      (countFrame ⟨true, 256⟩ (initState steadyEnv))).global_stage1_gop_num = 0 := rfl
  refine ⟨?_, ?_⟩
  · rw [EaglePreProcess_single, (processGop_stage0 _ _).2.1, stage0_filter_descr, e, hstop]
  · rw [EaglePreProcess_single, (processGop_stage0 _ _).1, stage0_unsharp_array, e, hstop]
    exact hu

/-- C8, the code at a failing input: one frame of per-pixel sharpness 1, so that
the hint of its GOP is `u_hint = get_unsharp 1 = 0.8`, and Stage-0 trials that
all score 90. No score is below the score before it, so rule (a) never holds,
and `u > u_hint` first holds at `u = 0.9`: Stage 0 stops there by rule (b), in
iteration 9. The branch of rule (b) (lines 6970-6975) has no store: the value in
the GOP's cell of the table is still 0.8, and no cell of the table holds the
current amount 0.9. -/
theorem stage0_rule_b_records_nothing :
    (∀ l : Nat, steadyEnv.stage0_score 0 l = 90)
      ∧ get_unsharp (pixelSharpness steadyEnv (countFrame ⟨true, 256⟩ (initState steadyEnv)))
          = 8 / 10
      ∧ (∀ l : Nat, l < 10 → (unsharp steadyEnv l > 8 / 10 ↔ l = 9))
      ∧ unsharp steadyEnv 9 = 9 / 10
      ∧ (EaglePreProcess steadyEnv [⟨true, 256⟩]).filter_descr = some 9
      ∧ (EaglePreProcess steadyEnv [⟨true, 256⟩]).global_unsharp_array 0 = 8 / 10
      ∧ ∀ j, (EaglePreProcess steadyEnv [⟨true, 256⟩]).global_unsharp_array j ≠ 9 / 10 := by
  obtain ⟨hfd, harr⟩ := steady_single_run
  refine ⟨fun _ => rfl, steady_single_hint, ?_, ?_, hfd, ?_, ?_⟩
  · intro l hl
    interval_cases l <;> norm_num [unsharp]
  · norm_num [unsharp]
  · rw [harr, Function.update_same]
  · intro j
    rw [harr]
    by_cases hj : j = 0
    · subst hj
      rw [Function.update_same]
      norm_num
    · rw [Function.update_noteq hj]
      norm_num [steadyEnv, zeroEnv]

/-! ## A flat plane -/

set_option maxRecDepth 1000000 in
theorem flat_gray_value : get_unsharp_val (fun _ => 128) 16 16 1 5 5 = 6136 := by
  rw [get_unsharp_val_call]
  decide

set_option maxRecDepth 100000 in
theorem flat_small_value : get_unsharp_val (fun _ => 100) 4 4 1 5 5 = 100 := by
  rw [get_unsharp_val_call]
  decide

theorem single_aq_strength (env : Env) (f : Frame) :
    (EaglePreProcess env [f]).global_aq_strength_array 0
      = get_aq_strength (pixelSharpness env (countFrame f (initState env))) := by
  rw [EaglePreProcess_single]
  obtain ⟨fd, pre, ua, ta, pb, pq, ca, e⟩ :=
    processGop_shape env (closeAtEof env (countFrame f (initState env)))
  rw [e]
  simp only [closeAtEof, countFrame, initState, Function.update_same]

/-- C18, the code at a failing input: a flat gray plane. For every constant
colour other than black and every plane with an interior pixel the call
`get_unsharp_val(data, width, height, 1.0, 5, 5)` returns a positive value: the
cascades start every row and every call on zeroed cells, so the window of the
first pixels is not full while line 5689 divides by the weight 256 of a full
window. On the plane of 16 by 16 pixels of colour 128 the value is 6136; a
sample of this one frame has the per-pixel sharpness 6136 / 256, about 24, which
is clamped to 0.8, the highest clamp, and the GOP gets the AQ strength 1.0 of the
sharpest content where a sharpness of 0 gives 1.5. -/
theorem flat_gray_plane_scores_sharp :
    (∀ c width height : Nat,
        1 ≤ get_unsharp_val (fun _ => c % 255 + 1) (width + 4) (height + 4) 1 5 5)
      ∧ get_unsharp_val (fun _ => 100) 4 4 1 5 5 = 100
      ∧ get_unsharp_val (fun _ => 128) 16 16 1 5 5 = 6136
      ∧ pixelSharpness zeroEnv
          (countFrame ⟨true, get_unsharp_val (fun _ => 128) 16 16 1 5 5⟩ (initState zeroEnv))
          = 6136 / 256
      ∧ clampTo (1 / 10) (8 / 10) (6136 / 256) = 8 / 10
      ∧ (EaglePreProcess zeroEnv
          [⟨true, get_unsharp_val (fun _ => 128) 16 16 1 5 5⟩]).global_aq_strength_array 0 = 1
      ∧ get_aq_strength 0 = 15 / 10 := by
  have hp : pixelSharpness zeroEnv
      (countFrame ⟨true, get_unsharp_val (fun _ => 128) 16 16 1 5 5⟩ (initState zeroEnv))
      = 6136 / 256 := by
    rw [flat_gray_value, pixelSharpness_single]
    norm_num
  refine ⟨?_, flat_small_value, flat_gray_value, hp, ?_, ?_, ?_⟩
  · intro c width height
    exact get_unsharp_val_const_pos (c % 255 + 1) (width + 4) (height + 4) (by omega)
      (by omega) (by omega) (by omega)
  · norm_num [clampTo]
  · rw [single_aq_strength, hp]
    norm_num [get_aq_strength]
  · norm_num [get_aq_strength]

/-! ## The frames the scorer callback delivers -/

set_option maxRecDepth 100000 in
theorem readCall_stage2_small :
    readCall 2 2 2 0 = (0, some 0, some 0)
      ∧ readCall 2 2 2 1 = (0, some 6, some 6)
      ∧ readCall 2 2 2 2 = (0, some 12, some 12)
      ∧ readCall 2 2 2 3 = (0, some 18, some 18)
      ∧ readCall 2 2 2 4 = (2, some 24, none)
      ∧ readCall 2 2 2 5 = (0, some 0, some 0) := by
  refine ⟨?_, ?_, ?_, ?_, ?_, ?_⟩ <;> decide

set_option maxRecDepth 100000 in
theorem readCall_stage1_small :
    readCall 2 2 1 0 = (0, some 0, some 0)
      ∧ readCall 2 2 1 43 = (0, some 258, some 258)
      ∧ readCall 2 2 1 44 = (2, some 264, none) := by
  refine ⟨?_, ?_, ?_⟩ <;> decide

set_option maxRecDepth 100000 in
theorem readCall_full_hd :
    readCall 1920 1080 2 0 = (0, some 0, some 0)
      ∧ readCall 1920 1080 2 3 = (0, some 9331200, some 9331200)
      ∧ readCall 1920 1080 2 4 = (2, some 12441600, none)
      ∧ readCall 1920 1080 1 43 = (0, some 133747200, some 133747200)
      ∧ readCall 1920 1080 1 44 = (2, some 136857600, none) := by
  refine ⟨?_, ?_, ?_, ?_, ?_⟩ <;> decide

/-- C28, the code at a failing input: samples of 2 by 2 pixels (6 bytes a frame),
from the initial static state. At `stage = 2` (ten frames) the first call
delivers the planes at offset 0 of both buffers, frame 0 and not frame 5; the
calls number 0 to 3 deliver the frames 0 to 3; the fifth call reads the
reference plane of frame 4, which brings `reserved_ref` to 0 and sets
`end_of_frame`, so the call for the distorted plane of the same pair reads
nothing and returns 2: four pairs are delivered, not five, and the call after
that starts again at offset 0. At `stage = 1` (fifty frames) the calls deliver
the frames 0 to 43 and call number 44 returns 2 in the same way. The same
happens on frames of 1920 by 1080 pixels (3110400 bytes a frame), where no byte
count leaves the range of `int`. -/
theorem read_frame_new_drops_last_pair :
    readCall 2 2 2 0 = (0, some 0, some 0)
      ∧ readCall 2 2 2 1 = (0, some 6, some 6)
      ∧ readCall 2 2 2 2 = (0, some 12, some 12)
      ∧ readCall 2 2 2 3 = (0, some 18, some 18)
      ∧ readCall 2 2 2 4 = (2, some 24, none)
      ∧ readCall 2 2 2 5 = (0, some 0, some 0)
      ∧ readCall 2 2 1 0 = (0, some 0, some 0)
      ∧ readCall 2 2 1 43 = (0, some 258, some 258)
      ∧ readCall 2 2 1 44 = (2, some 264, none)
      ∧ readCall 1920 1080 2 0 = (0, some 0, some 0)
      ∧ readCall 1920 1080 2 3 = (0, some 9331200, some 9331200)
      ∧ readCall 1920 1080 2 4 = (2, some 12441600, none)
      ∧ readCall 1920 1080 1 43 = (0, some 133747200, some 133747200)
      ∧ readCall 1920 1080 1 44 = (2, some 136857600, none) := by
  obtain ⟨a0, a1, a2, a3, a4, a5⟩ := readCall_stage2_small
  obtain ⟨b0, b1, b2⟩ := readCall_stage1_small
  obtain ⟨c0, c1, c2, c3, c4⟩ := readCall_full_hd
  exact ⟨a0, a1, a2, a3, a4, a5, b0, b1, b2, c0, c1, c2, c3, c4⟩

end Eagle
